import Mathlib

/-! Vault controller of irc-keyring (`src/controller.js`)

Shallow embedding of `KeyringController`.

Modelling conventions.

* The external collaborators (the encryptor, `bip39.validateMnemonic`,
  `sigUtil.normalize`, `ircUtil.stripHexPrefix`, the registered key-source
  classes and the methods of their instances) are the fields of `Env`.
* A promise chain is run to completion in source order: every operation maps
  the controller state before the call to the settled result of the returned
  promise together with the controller state once the chain has finished.
  A rejected promise and a thrown exception are both `Except.error`.
* Key-source objects are values of a type `K`; the object held at a position of
  `this.keyrings` is mutated by replacing the value at that position.
* `Promise.all` over key sources keeps the order of the list: the chains it
  joins have the same length in the source.
* Events (`emit`) and logging are not modelled.
* For `addGasBuffer`, a `BN` is a natural number of unbounded size with its
  text reader and writer, and `ircUtil.stripHexPrefix`, `ircUtil.addHexPrefix`
  are given by their behaviour on strings.
-/

namespace KeyringController

/-- Value of a password argument and of the field `this.password`. Only `text`
satisfies `typeof password === 'string'`. -/
inductive JsPassword
  | undefined
  | null
  | text (s : String)
  | boolean (b : Bool)
  | number (n : Nat)
  deriving DecidableEq, Repr

/-- Rejection reasons and thrown errors.
* `passwordMustBeText`: 'Password must be text.'
* `seedPhraseInvalid`: 'Seed phrase is invalid.'
* `firstAccountNotFound`: 'First Account not found.'
* `noAccountOnKeychain`: 'No account found on keychain.'
* `duplicateAccount`: 'The account is a duplicate'
* `removalUnsupported t`: 'Keyring t doesn't support account removal operations'
* `passwordNotString`: 'KeyringController - password is not a string'
* `noPreviousVault`: 'Cannot unlock without a previous vault.'
* `noKeyringFound`: 'No keyring found.'
* `typeError`: the TypeError of `new undefined(...)` or of a method call on `undefined`
* `decryptFailed`: the rejection of `encryptor.decrypt`
* `keyring msg`: an error raised by a key-source constructor or method -/
inductive Err
  | passwordMustBeText
  | seedPhraseInvalid
  | firstAccountNotFound
  | noAccountOnKeychain
  | duplicateAccount
  | removalUnsupported (type : String)
  | passwordNotString
  | noPreviousVault
  | noKeyringFound
  | typeError
  | decryptFailed
  | keyring (msg : String)
  deriving DecidableEq, Repr

/-- One record `{type, data}` of the plaintext vault. -/
structure Serialized (D : Type) where
  type : String
  data : D
  deriving DecidableEq, Repr

/-- A registered key-source class: its static `type` and its constructor
`new Keyring(opts)` (`none` is a call without argument). -/
structure KeyringClass (K O : Type) where
  type : String
  construct : Option O → Except Err K

/-- The collaborators of a controller. `K`: key-source objects, `O`: constructor
options, `D`: serialized key-source data, `C`: ciphertext blobs. -/
structure Env (K O D C : Type) where
  /-- Call `encryptor.encrypt(password, records)` -/
  encrypt : String → List (Serialized D) → C
  /-- Call `encryptor.decrypt(password, blob)`; `none` is a rejection -/
  decrypt : JsPassword → C → Option (List (Serialized D))
  /-- whether a stored blob is a falsy value, as tested by `!encryptedVault` -/
  blobFalsy : C → Bool
  /-- Function `bip39.validateMnemonic` -/
  validateMnemonic : String → Bool
  /-- Function `sigUtil.normalize` -/
  normalizeAddress : String → String
  /-- Function `ircUtil.stripHexPrefix` -/
  stripHexPrefix : String → String
  /-- Field `this.keyringTypes` -/
  keyringTypes : List (KeyringClass K O)
  /-- the options object `{mnemonic, numberOfAccounts}` (`mnemonic` may be absent) -/
  hdOpts : Option String → Nat → O
  /-- Field `keyring.type` -/
  typeOf : K → String
  /-- Call `keyring.getAccounts()` -/
  getAccounts : K → List String
  /-- Call `keyring.serialize()` -/
  serialize : K → D
  /-- Call `keyring.deserialize(data)`: the object after the call, or a rejection -/
  deserialize : K → D → Except Err K
  /-- Call `keyring.addAccounts(n)`: the new accounts and the object after the call -/
  addAccounts : K → Nat → Except Err (List String × K)
  /-- Method `keyring.removeAccount`, `none` when the object has no such method; the
  method yields the object after the call or throws -/
  removeAccount : K → Option (String → Except Err K)

/-- One entry `{type, accounts}` of `memStore.keyrings`. -/
structure Display where
  type : String
  accounts : List String
  deriving DecidableEq, Repr

/-- State of `this.memStore`. -/
structure MemStore where
  isUnlocked : Bool
  keyringTypes : List String
  keyrings : List Display
  deriving DecidableEq, Repr

/-- Mutable state of a controller: `store.vault`, `memStore`, `password`, `keyrings`. -/
structure Controller (K C : Type) where
  vault : Option C
  memStore : MemStore
  password : JsPassword
  keyrings : List K

section Operations

variable {K O D C : Type}

/-- The `constructor`, with `opts.initState.vault` as `initVault`. -/
def new (env : Env K O D C) (initVault : Option C) : Controller K C :=
  { vault := initVault
    memStore :=
      { isUnlocked := false
        keyringTypes := env.keyringTypes.map (fun krt => krt.type)
        keyrings := [] }
    password := JsPassword.undefined
    keyrings := [] }

/-- Method `fullUpdate`: the emitted and returned `memStore` state. -/
def fullUpdate (c : Controller K C) : MemStore :=
  c.memStore

/-- Method `clearKeyrings` -/
def clearKeyrings (c : Controller K C) : Controller K C :=
  { c with keyrings := [], memStore := { c.memStore with keyrings := [] } }

/-- Method `displayForKeyring` -/
def displayForKeyring (env : Env K O D C) (keyring : K) : Display :=
  { type := env.typeOf keyring
    accounts := (env.getAccounts keyring).map env.normalizeAddress }

/-- Method `_updateMemStoreKeyrings` -/
def updateMemStoreKeyrings (env : Env K O D C) (c : Controller K C) : Controller K C :=
  { c with memStore := { c.memStore with keyrings := c.keyrings.map (displayForKeyring env) } }

/-- Method `getAccounts` of the controller -/
def getAccounts (env : Env K O D C) (c : Controller K C) : List String :=
  let keyringArrays := c.keyrings.map env.getAccounts
  let addresses := keyringArrays.foldl (fun res arr => res ++ arr) []
  addresses.map env.normalizeAddress

/-- Method `getKeyringClassForType` -/
def getKeyringClassForType (env : Env K O D C) (type : String) : Option (KeyringClass K O) :=
  env.keyringTypes.find? (fun kr => kr.type == type)

/-- Method `getKeyringsByType` -/
def getKeyringsByType (env : Env K O D C) (c : Controller K C) (type : String) : List K :=
  c.keyrings.filter (fun keyring => env.typeOf keyring == type)

/-- Method `persistAllKeyrings(password = this.password)`: an `undefined` argument
takes the default. -/
def persistAllKeyrings (env : Env K O D C) (c : Controller K C) (arg : JsPassword) :
    Except Err Unit × Controller K C :=
  let password := match arg with
    | JsPassword.undefined => c.password
    | p => p
  match password with
  | JsPassword.text pw =>
    let c1 : Controller K C :=
      { c with password := JsPassword.text pw, memStore := { c.memStore with isUnlocked := true } }
    let serializedKeyrings : List (Serialized D) :=
      c1.keyrings.map (fun keyring => { type := env.typeOf keyring, data := env.serialize keyring })
    let encryptedString := env.encrypt pw serializedKeyrings
    (Except.ok (), { c1 with vault := some encryptedString })
  | _ => (Except.error Err.passwordNotString, c)

/-- Method `getKeyringForAccount`: the winning key source, as its position in
`this.keyrings` and the object there. -/
def getKeyringForAccount (env : Env K O D C) (c : Controller K C) (address : String) :
    Except Err (Nat × K) :=
  let hexed := env.normalizeAddress address
  let candidates := c.keyrings.enum.map (fun keyring => (keyring, env.getAccounts keyring.2))
  let winners := candidates.filter
    (fun candidate => (candidate.2.map env.normalizeAddress).contains hexed)
  match winners with
  | winner :: _ => Except.ok winner.1
  | [] => Except.error Err.noKeyringFound

/-- Method `checkForDuplicate` -/
def checkForDuplicate (env : Env K O D C) (c : Controller K C) (type : String)
    (newAccount : List String) : Except Err (List String) :=
  let accounts := getAccounts env c
  if type = "Simple Key Pair" then
    let found := accounts.find? (fun key =>
      some key == newAccount.head? || some key == newAccount.head?.map env.stripHexPrefix)
    -- `!accounts.find(...)`: no element found, or the element found is the empty string
    let isNotIncluded := match found with
      | none => true
      | some key => key == ""
    if isNotIncluded then Except.ok newAccount else Except.error Err.duplicateAccount
  else Except.ok newAccount

/-- Method `addNewKeyring` -/
def addNewKeyring (env : Env K O D C) (c : Controller K C) (type : String) (opts : Option O) :
    Except Err K × Controller K C :=
  match getKeyringClassForType env type with
  | none => (Except.error Err.typeError, c)
  | some cls =>
    match cls.construct opts with
    | Except.error e => (Except.error e, c)
    | Except.ok keyring =>
      match checkForDuplicate env c type (env.getAccounts keyring) with
      | Except.error e => (Except.error e, c)
      | Except.ok _ =>
        -- `push` returns the new length, which is not 0: `persistAllKeyrings()` runs
        let c1 : Controller K C := { c with keyrings := c.keyrings ++ [keyring] }
        match persistAllKeyrings env c1 JsPassword.undefined with
        | (Except.error e, c2) => (Except.error e, c2)
        | (Except.ok _, c2) => (Except.ok keyring, updateMemStoreKeyrings env c2)

/-- Method `removeEmptyKeyrings` -/
def removeEmptyKeyrings (env : Env K O D C) (c : Controller K C) : Controller K C :=
  { c with keyrings := c.keyrings.filter (fun keyring => (env.getAccounts keyring).length > 0) }

/-- Method `addNewAccount(selectedKeyring)`, the selected object being the one at
position `selected` of `this.keyrings`; a position outside the list stands for
an `undefined` argument. -/
def addNewAccount (env : Env K O D C) (c : Controller K C) (selected : Nat) :
    Except Err MemStore × Controller K C :=
  match c.keyrings.get? selected with
  | none => (Except.error Err.typeError, c)
  | some selectedKeyring =>
    match env.addAccounts selectedKeyring 1 with
    | Except.error e => (Except.error e, c)
    | Except.ok (_, keyring1) =>
      let c1 : Controller K C := { c with keyrings := c.keyrings.set selected keyring1 }
      match persistAllKeyrings env c1 JsPassword.undefined with
      | (Except.error e, c2) => (Except.error e, c2)
      | (Except.ok _, c2) =>
        let c3 := updateMemStoreKeyrings env c2
        (Except.ok (fullUpdate c3), c3)

/-- Method `removeAccount` -/
def removeAccount (env : Env K O D C) (c : Controller K C) (address : String) :
    Except Err MemStore × Controller K C :=
  match getKeyringForAccount env c address with
  | Except.error e => (Except.error e, c)
  | Except.ok (i, keyring) =>
    match env.removeAccount keyring with
    | some remove =>
      match remove address with
      | Except.error e => (Except.error e, c)
      | Except.ok keyring1 =>
        let c1 : Controller K C := { c with keyrings := c.keyrings.set i keyring1 }
        let accounts := env.getAccounts keyring1
        -- `accounts.length === 0 && this.removeEmptyKeyrings()` is the value handed
        -- to `persistAllKeyrings`: `false`, or the `undefined` of removeEmptyKeyrings
        let next : JsPassword × Controller K C :=
          if accounts.length = 0 then (JsPassword.undefined, removeEmptyKeyrings env c1)
          else (JsPassword.boolean false, c1)
        match persistAllKeyrings env next.2 next.1 with
        | (Except.error e, c3) => (Except.error e, c3)
        | (Except.ok _, c3) =>
          let c4 := updateMemStoreKeyrings env c3
          (Except.ok (fullUpdate c4), c4)
    | none => (Except.error (Err.removalUnsupported (env.typeOf keyring)), c)

/-- Whether `accounts[0]` is falsy: absent or the empty string. -/
def firstAccountMissing (accounts : List String) : Bool :=
  match accounts.head? with
  | none => true
  | some firstAccount => firstAccount == ""

/-- Method `createFirstKeyTree` -/
def createFirstKeyTree (env : Env K O D C) (c : Controller K C) :
    Except Err Unit × Controller K C :=
  let c1 := clearKeyrings c
  match addNewKeyring env c1 "HD Key Tree" (some (env.hdOpts none 1)) with
  | (Except.error e, c2) => (Except.error e, c2)
  | (Except.ok keyring, c2) =>
    if firstAccountMissing (env.getAccounts keyring) then
      (Except.error Err.noAccountOnKeychain, c2)
    else (Except.ok (), c2)

/-- Method `createNewVaultAndKeychain` -/
def createNewVaultAndKeychain (env : Env K O D C) (c : Controller K C) (password : JsPassword) :
    Except Err MemStore × Controller K C :=
  match persistAllKeyrings env c password with
  | (Except.error e, c1) => (Except.error e, c1)
  | (Except.ok _, c1) =>
    match createFirstKeyTree env c1 with
    | (Except.error e, c2) => (Except.error e, c2)
    | (Except.ok _, c2) =>
      match persistAllKeyrings env c2 password with
      | (Except.error e, c3) => (Except.error e, c3)
      | (Except.ok _, c3) => (Except.ok (fullUpdate c3), c3)

/-- Method `createNewVaultAndRestore` -/
def createNewVaultAndRestore (env : Env K O D C) (c : Controller K C) (password : JsPassword)
    (seed : String) : Except Err MemStore × Controller K C :=
  match password with
  | JsPassword.text pw =>
    if !env.validateMnemonic seed then (Except.error Err.seedPhraseInvalid, c)
    else
      let c0 := clearKeyrings c
      match persistAllKeyrings env c0 (JsPassword.text pw) with
      | (Except.error e, c1) => (Except.error e, c1)
      | (Except.ok _, c1) =>
        match addNewKeyring env c1 "HD Key Tree" (some (env.hdOpts (some seed) 1)) with
        | (Except.error e, c2) => (Except.error e, c2)
        | (Except.ok firstKeyring, c2) =>
          if firstAccountMissing (env.getAccounts firstKeyring) then
            (Except.error Err.firstAccountNotFound, c2)
          else
            match persistAllKeyrings env c2 (JsPassword.text pw) with
            | (Except.error e, c3) => (Except.error e, c3)
            | (Except.ok _, c3) => (Except.ok (fullUpdate c3), c3)
  | _ => (Except.error Err.passwordMustBeText, c)

/-- Method `setLocked` -/
def setLocked (env : Env K O D C) (c : Controller K C) : MemStore × Controller K C :=
  let c1 : Controller K C :=
    { c with password := JsPassword.null, memStore := { c.memStore with isUnlocked := false } }
  let c2 : Controller K C := { c1 with keyrings := [] }
  let c3 := updateMemStoreKeyrings env c2
  (fullUpdate c3, c3)

/-- The synchronous part of one `restoreKeyring` call: the class lookup and
`new Keyring()` may throw (outer error); the value is the settled result of
`keyring.deserialize(data)`. -/
def startRestore (env : Env K O D C) (serialized : Serialized D) : Except Err (Except Err K) :=
  match getKeyringClassForType env serialized.type with
  | none => Except.error Err.typeError
  | some cls =>
    match cls.construct none with
    | Except.error e => Except.error e
    | Except.ok keyring => Except.ok (env.deserialize keyring serialized.data)

/-- Expression `vault.map(this.restoreKeyring.bind(this))`: the calls started before the
first one that throws, and that thrown error if any. -/
def startRestores (env : Env K O D C) :
    List (Serialized D) → List (Except Err K) × Option Err
  | [] => ([], none)
  | serialized :: rest =>
    match startRestore env serialized with
    | Except.error e => ([], some e)
    | Except.ok started =>
      let tail := startRestores env rest
      (started :: tail.1, tail.2)

/-- The `.then` chains of the started `restoreKeyring` calls, in order: a
deserialized key source is pushed and `memStore.keyrings` refreshed; a
rejected chain changes nothing. -/
def settleRestores (env : Env K O D C) :
    Controller K C → List (Except Err K) → Controller K C
  | c, [] => c
  | c, Except.ok keyring :: rest =>
    settleRestores env
      (updateMemStoreKeyrings env { c with keyrings := c.keyrings ++ [keyring] }) rest
  | c, Except.error _ :: rest => settleRestores env c rest

/-- The first rejection among the started `restoreKeyring` calls. -/
def firstRejection : List (Except Err K) → Option Err
  | [] => none
  | Except.error e :: _ => some e
  | Except.ok _ :: rest => firstRejection rest

/-- Method `restoreKeyring`, one call run on its own: the deserialized key source
is pushed and `memStore.keyrings` refreshed. -/
def restoreKeyring (env : Env K O D C) (c : Controller K C) (serialized : Serialized D) :
    Except Err K × Controller K C :=
  match startRestore env serialized with
  | Except.error e => (Except.error e, c)
  | Except.ok started => (started, settleRestores env c [started])

/-- Method `unlockKeyrings`. The state returned is the one reached when every
started `restoreKeyring` chain has settled; the chains settle in record order.
A thrown error of `vault.map` takes precedence over a rejected chain. -/
def unlockKeyrings (env : Env K O D C) (c : Controller K C) (password : JsPassword) :
    Except Err (List K) × Controller K C :=
  match c.vault with
  | none => (Except.error Err.noPreviousVault, c)
  | some encryptedVault =>
    if env.blobFalsy encryptedVault then (Except.error Err.noPreviousVault, c)
    else
      let c1 := clearKeyrings c
      match env.decrypt password encryptedVault with
      | none => (Except.error Err.decryptFailed, c1)
      | some vault =>
        let c2 : Controller K C :=
          { c1 with password := password, memStore := { c1.memStore with isUnlocked := true } }
        let started := startRestores env vault
        let c3 := settleRestores env c2 started.1
        match started.2 with
        | some e => (Except.error e, c3)
        | none =>
          match firstRejection started.1 with
          | some e => (Except.error e, c3)
          | none => (Except.ok c3.keyrings, c3)

/-- Method `submitPassword` -/
def submitPassword (env : Env K O D C) (c : Controller K C) (password : JsPassword) :
    Except Err MemStore × Controller K C :=
  match unlockKeyrings env c password with
  | (Except.error e, c1) => (Except.error e, c1)
  | (Except.ok keyrings, c1) =>
    let c2 : Controller K C := { c1 with keyrings := keyrings }
    (Except.ok (fullUpdate c2), c2)

/-- The value of a digit character in the text of a `BN`: `0`-`9`, then the
letters, lower or upper case, from ten on. A character that is no digit lies
outside the texts of numbers and counts as 0. -/
def BN.digitValue (c : Char) : Nat :=
  if '0' ≤ c ∧ c ≤ '9' then c.toNat - 48
  else if 'a' ≤ c ∧ c ≤ 'z' then c.toNat - 87
  else if 'A' ≤ c ∧ c ≤ 'Z' then c.toNat - 55
  else 0

/-- The number `new BN(text, base)` of an unsigned text: a `BN` is an integer of
arbitrary size. -/
def BN.ofString (text : String) (base : Nat) : Nat :=
  text.data.foldl (fun acc c => acc * base + BN.digitValue c) 0

/-- The text `bn.toString(base)`. -/
def BN.toString (bn : Nat) (base : Nat) : String :=
  String.mk (Nat.toDigits base bn)

/-- Function `ircUtil.isHexPrefixed`. -/
def ircUtil.isHexPrefixed (str : String) : Bool :=
  str.data.take 2 == ['0', 'x']

/-- Function `ircUtil.stripHexPrefix` on a string. -/
def ircUtil.stripHexPrefix (str : String) : String :=
  if ircUtil.isHexPrefixed str then String.mk (str.data.drop 2) else str

/-- Function `ircUtil.addHexPrefix` on a string. -/
def ircUtil.addHexPrefix (str : String) : String :=
  if ircUtil.isHexPrefixed str then str else "0x" ++ str

/-- Method `addGasBuffer`; the controller it is called on is `_c`. -/
def addGasBuffer (_c : Controller K C) (gas : String) : String :=
  let gasBuffer := BN.ofString "100000" 10
  let bnGas := BN.ofString (ircUtil.stripHexPrefix gas) 16
  let correct := bnGas + gasBuffer
  ircUtil.addHexPrefix (BN.toString correct 16)

/-- The public operations of a controller, as calls. -/
inductive Op (O : Type)
  | createNewVaultAndKeychain (password : JsPassword)
  | createNewVaultAndRestore (password : JsPassword) (seed : String)
  | setLocked
  | submitPassword (password : JsPassword)
  | addNewKeyring (type : String) (opts : Option O)
  | addNewAccount (selected : Nat)
  | removeAccount (address : String)

/-- Result and state of one public operation, the returned value dropped. -/
def exec (env : Env K O D C) (c : Controller K C) : Op O → Except Err Unit × Controller K C
  | Op.createNewVaultAndKeychain password =>
    let r := createNewVaultAndKeychain env c password
    (r.1.map (fun _ => ()), r.2)
  | Op.createNewVaultAndRestore password seed =>
    let r := createNewVaultAndRestore env c password seed
    (r.1.map (fun _ => ()), r.2)
  | Op.setLocked => (Except.ok (), (setLocked env c).2)
  | Op.submitPassword password =>
    let r := submitPassword env c password
    (r.1.map (fun _ => ()), r.2)
  | Op.addNewKeyring type opts =>
    let r := addNewKeyring env c type opts
    (r.1.map (fun _ => ()), r.2)
  | Op.addNewAccount selected =>
    let r := addNewAccount env c selected
    (r.1.map (fun _ => ()), r.2)
  | Op.removeAccount address =>
    let r := removeAccount env c address
    (r.1.map (fun _ => ()), r.2)

/-- The controller state after one public operation, whether it succeeded or failed. -/
def step (env : Env K O D C) (c : Controller K C) (op : Op O) : Controller K C :=
  (exec env c op).2

/-- The controller state after a sequence of public operations. -/
def run (env : Env K O D C) (c : Controller K C) (ops : List (Op O)) : Controller K C :=
  ops.foldl (step env) c

/-- The records `{type, data: serialize()}` of the current keyrings list, in order. -/
def vaultRecords (env : Env K O D C) (c : Controller K C) : List (Serialized D) :=
  c.keyrings.map (fun keyring => { type := env.typeOf keyring, data := env.serialize keyring })

/-- Whether a key source owns `address`: its normalized account list contains
the normalized address. -/
def owns (env : Env K O D C) (address : String) (keyring : K) : Bool :=
  ((env.getAccounts keyring).map env.normalizeAddress).contains (env.normalizeAddress address)

/-- Restoring the record `{type, data: serialize()}` of a key source succeeds
and yields a key source with the same account list. -/
def RestoresAccounts (env : Env K O D C) (keyring : K) : Prop :=
  ∃ restored, startRestore env { type := env.typeOf keyring, data := env.serialize keyring }
      = Except.ok (Except.ok restored)
    ∧ env.getAccounts restored = env.getAccounts keyring

/-- Operations that create a vault or change the key sources. -/
def Op.mutatesSources : Op O → Bool
  | Op.setLocked => false
  | Op.submitPassword _ => false
  | _ => true

/-- Along `ops` run from `c`, `addNewKeyring` is only called while
`memStore.isUnlocked` is true. -/
def addsOnlyWhenUnlocked (env : Env K O D C) : Controller K C → List (Op O) → Bool
  | _, [] => true
  | c, op :: rest =>
    (match op with
      | Op.addNewKeyring _ _ => c.memStore.isUnlocked
      | _ => true) && addsOnlyWhenUnlocked env (step env c op) rest

/-- Whether a password value is text. -/
def JsPassword.isText : JsPassword → Bool
  | JsPassword.text _ => true
  | _ => false

/-- Every `submitPassword` call carries a text password. -/
def Op.submitsText : Op O → Bool
  | Op.submitPassword password => password.isText
  | _ => true

/-- The stored vault is current: the controller is unlocked, holds a text
password, and `store.vault` is the encryption under it of the records of the
current keyrings list. -/
def VaultCurrent (env : Env K O D C) (c : Controller K C) : Prop :=
  c.memStore.isUnlocked = true
    ∧ ∃ pw, c.password = JsPassword.text pw ∧ c.vault = some (env.encrypt pw (vaultRecords env c))

/-- Between two states the held password and `isUnlocked` were not written, or
were last written together to a text password and `true`. -/
def SessionStep (c c2 : Controller K C) : Prop :=
  (c2.password = c.password ∧ c2.memStore.isUnlocked = c.memStore.isUnlocked)
    ∨ (c2.password.isText = true ∧ c2.memStore.isUnlocked = true)

/-- The held password is text exactly when `memStore.isUnlocked` is true. -/
def PasswordIffUnlocked (c : Controller K C) : Prop :=
  c.password.isText = true ↔ c.memStore.isUnlocked = true

/-- A locked controller holds no key source. -/
def LockedIsEmpty (c : Controller K C) : Prop :=
  c.memStore.isUnlocked = false → c.keyrings = []

/-- The value of a hexadecimal digit, by the table of the digits. -/
def hexDigitValue : Char → Nat
  | '0' => 0 | '1' => 1 | '2' => 2 | '3' => 3 | '4' => 4
  | '5' => 5 | '6' => 6 | '7' => 7 | '8' => 8 | '9' => 9
  | 'a' => 10 | 'b' => 11 | 'c' => 12 | 'd' => 13 | 'e' => 14 | 'f' => 15
  | 'A' => 10 | 'B' => 11 | 'C' => 12 | 'D' => 13 | 'E' => 14 | 'F' => 15
  | _ => 0

/-- Whether a character is a hexadecimal digit. -/
def isHexDigit (c : Char) : Bool :=
  c ∈ ['0', '1', '2', '3', '4', '5', '6', '7', '8', '9',
    'a', 'b', 'c', 'd', 'e', 'f', 'A', 'B', 'C', 'D', 'E', 'F']

/-- A text of hexadecimal digits only, without a prefix. -/
def IsHexText (h : String) : Prop :=
  ∀ c ∈ h.data, isHexDigit c = true

/-- The number a text of hexadecimal digits stands for, most significant digit
first. -/
def hexValue (h : String) : Nat :=
  Nat.ofDigits 16 (h.data.map hexDigitValue).reverse

end Operations

/-! ## A sample environment

A small concrete set of collaborators on which the operations can be evaluated. -/

namespace Sample

/-- Key source of the sample environment: its kind and the accounts it lists. -/
structure Keyring where
  type : String
  accounts : List String
  deriving DecidableEq, Repr

/-- Constructor options: imported accounts for the simple kind, a mnemonic and
an account count for the HD kind. -/
inductive Opts
  | keys (accounts : List String)
  | hd (mnemonic : Option String) (numberOfAccounts : Nat)
  deriving DecidableEq, Repr

/-- Ciphertext of the sample encryptor: the key text and the sealed records. -/
abbrev Blob := String × List (Serialized (List String))

/-- Adds the prefix 0x when it is absent. -/
def addHex (a : String) : String :=
  match a.data with
  | '0' :: 'x' :: _ => a
  | cs => String.mk ('0' :: 'x' :: cs)

/-- Removes a leading 0x. -/
def stripHex (a : String) : String :=
  match a.data with
  | '0' :: 'x' :: rest => String.mk rest
  | _ => a

/-- The i-th account derived from a mnemonic. -/
def derive (mnemonic : String) (i : Nat) : String :=
  String.mk ('0' :: 'x' :: (mnemonic.data ++ List.replicate i '+'))

/-- The sample class of kind 'Simple Key Pair': lists the imported accounts. -/
def simpleClass : KeyringClass Keyring Opts :=
  { type := "Simple Key Pair"
    construct := fun opts =>
      match opts with
      | some (Opts.keys accounts) => Except.ok { type := "Simple Key Pair", accounts := accounts }
      | _ => Except.ok { type := "Simple Key Pair", accounts := [] } }

/-- The sample class of kind 'HD Key Tree': lists the accounts derived from the
mnemonic. -/
def hdClass : KeyringClass Keyring Opts :=
  { type := "HD Key Tree"
    construct := fun opts =>
      match opts with
      | some (Opts.hd mnemonic n) =>
        Except.ok { type := "HD Key Tree"
                    accounts := (List.range n).map (derive (mnemonic.getD "fresh")) }
      | _ => Except.ok { type := "HD Key Tree", accounts := [] } }

/-- The text from which the sample encryptor derives its key: the password
coerced to a string. -/
def keyText : JsPassword → String
  | JsPassword.undefined => "undefined"
  | JsPassword.null => "null"
  | JsPassword.text s => s
  | JsPassword.boolean b => if b then "true" else "false"
  | JsPassword.number n => Nat.repr n

/-- The sample collaborators. The encryptor seals the records together with the
key text; `decrypt` succeeds when the key text of the given password is the
sealed one. Only the simple kind has a `removeAccount` method. -/
def env : Env Keyring Opts (List String) Blob :=
  { encrypt := fun password records => (password, records)
    decrypt := fun password blob => if keyText password = blob.1 then some blob.2 else none
    blobFalsy := fun _ => false
    validateMnemonic := fun seed => seed != ""
    normalizeAddress := addHex
    stripHexPrefix := stripHex
    keyringTypes := [simpleClass, hdClass]
    hdOpts := Opts.hd
    typeOf := Keyring.type
    getAccounts := Keyring.accounts
    serialize := Keyring.accounts
    deserialize := fun keyring data => Except.ok { keyring with accounts := data }
    addAccounts := fun keyring n =>
      let fresh := (List.range n).map (fun i => derive "new" (keyring.accounts.length + i))
      Except.ok (fresh, { keyring with accounts := keyring.accounts ++ fresh })
    removeAccount := fun keyring =>
      if keyring.type = "Simple Key Pair" then
        some (fun address =>
          if keyring.accounts.contains address then
            Except.ok { keyring with accounts := keyring.accounts.filter (fun a => a != address) }
          else Except.error (Err.keyring "not found in this keyring"))
      else none }

/-- A fresh controller without initial vault. -/
def fresh : Controller Keyring Blob := new env none

/-- The controller after restoring a vault from the mnemonic "seed" under the
password "pw". -/
def restored : Controller Keyring Blob :=
  run env fresh [Op.createNewVaultAndRestore (JsPassword.text "pw") "seed"]

/-- The restored controller after importing a simple key source with the
accounts 0xa and 0xb. -/
def withSimple : Controller Keyring Blob :=
  step env restored (Op.addNewKeyring "Simple Key Pair" (some (Opts.keys ["0xa", "0xb"])))

/-- The restored controller after importing a simple key source with the single
account 0xc. -/
def withSingle : Controller Keyring Blob :=
  step env restored (Op.addNewKeyring "Simple Key Pair" (some (Opts.keys ["0xc"])))

end Sample

end KeyringController

/-! ## Hardware bridge key source (`src/ledger-bridge.js`)

Shallow embedding of `LedgerBridgeKeyring`. The bridge window, the key
derivation, the checksum encoding, the transaction object, the signature
recovery and `fetch` are the fields of `Env`. A promise is modelled by its
final `Outcome`; a promise that is never settled is `pending`. The window
delivers at most one message event in answer to a posted request. -/

namespace LedgerBridgeKeyring

/-- Constant `hdPathString`. -/
def hdPathString : String := "m/44'/60'/0'"

/-- Constant `type`. -/
def type : String := "Ledger Hardware"

/-- Constant `BRIDGE_URL`. -/
def BRIDGE_URL : String := ""

/-- Constant `pathBase`. -/
def pathBase : String := "m"

/-- Constant `MAX_INDEX`. -/
def MAX_INDEX : Nat := 1000

/-- Constant `NETWORK_API_URLS`. -/
def NETWORK_API_URLS : List (String × String) := [("mainnet", "https://scan.irchain.io/")]

/-- The path whose use as `hdPath` selects BIP44 mode. -/
def bip44Path : String := "m/44'/60'/0'/0/0"

/-- The fields `payload` of a reply may carry: key material and address of an
unlock reply, `error`, the hex strings `v`, `r`, `s` of a transaction
signature, and `vNumber`, the numeric value of `v` in a message signature. -/
structure Payload where
  publicKey : String
  chainCode : String
  address : String
  error : Option String
  v : String
  r : String
  s : String
  vNumber : Int
  deriving DecidableEq, Repr

/-- Rejection reasons and thrown errors.
* `message m`: the rejection `payload.error || 'Unknown error'` of `unlock`
* `payload p`: the rejection `reject(payload)` of a signing request
* `signatureNotValid`: 'The transaction signature is not valid'
* `signatureMismatch`: 'signature doesnt match the right address'
* `unknownAddress`: 'Unknown address'
* `network m`: a rejection of `fetch` or of `response.json()` -/
inductive Err
  | message (m : String)
  | payload (p : Payload)
  | signatureNotValid
  | signatureMismatch
  | unknownAddress
  | network (m : String)
  deriving DecidableEq, Repr

/-- Final state of a promise. -/
inductive Outcome (α : Type)
  | pending
  | resolved (value : α)
  | rejected (reason : Err)
  deriving DecidableEq, Repr

/-- A call of `resolve` or `reject` inside a promise executor. -/
inductive Settle (α : Type)
  | resolve (value : α)
  | reject (reason : Err)
  deriving DecidableEq, Repr

/-- A promise is settled by the first `resolve` or `reject` call; later calls
have no effect. -/
def settled {α : Type} : List (Settle α) → Outcome α
  | [] => Outcome.pending
  | Settle.resolve value :: _ => Outcome.resolved value
  | Settle.reject reason :: _ => Outcome.rejected reason

/-- The `data` of a message event: `{action, success, payload}`. -/
structure Data where
  action : Option String
  success : Bool
  payload : Payload
  deriving DecidableEq, Repr

/-- A `message` event of the window: `{origin, data}`. -/
structure MessageEvent where
  origin : String
  data : Option Data
  deriving DecidableEq, Repr

/-- The `params` of a request. -/
inductive Params
  | unlock (hdPath : String)
  | signTransaction (tx : String) (hdPath : String)
  | signPersonalMessage (hdPath : String) (message : String)
  deriving DecidableEq, Repr

/-- A request `{action, params, target}`. -/
structure Message where
  action : String
  params : Params
  target : Option String
  deriving DecidableEq, Repr

/-- The values assigned to `tx.v`, `tx.r`, `tx.s`: hex strings, or the buffers
`Buffer.from(x, 'hex')`. -/
inductive Signature
  | hex (v r s : String)
  | buffers (v r s : String)
  deriving DecidableEq, Repr

/-- A `fetch` response: `status`, and the result of `response.json()` reduced to
the length of `parsedResponse.d` (`none` when `d` is absent). -/
structure Response where
  status : Nat
  json : Except String (Option Nat)

/-- The `hdk` object: its `publicKey` and `chainCode`, absent after `new HDKey()`. -/
structure HDKey where
  publicKey : Option String
  chainCode : Option String
  deriving DecidableEq, Repr

/-- One entry `{address, balance, index}` of a page of accounts. -/
structure Account where
  address : String
  balance : Option Nat
  index : Int
  deriving DecidableEq, Repr

/-- The collaborators of a hardware key source; `T` is the transaction class. -/
structure Env (T : Type) where
  /-- The message event the window receives in answer to a posted request, if any. -/
  incoming : Message → Option MessageEvent
  /-- Hex of `publicToAddress(hdk.derive(path).publicKey, true)`. -/
  deriveAddress : HDKey → String → String
  /-- Function `ircUtil.toChecksumAddress`. -/
  toChecksumAddress : String → String
  /-- Function `fetch`; an error is a rejection. -/
  fetch : String → Except String Response
  /-- Value `ircUtil.bufferToHex(tx.getChainId())`. -/
  chainIdHex : T → String
  /-- Assignment of `tx.v`, `tx.r`, `tx.s`. -/
  assign : T → Signature → T
  /-- Value `tx.serialize().toString('hex')`. -/
  serializeHex : T → String
  /-- Call `tx.verifySignature()`. -/
  verifySignature : T → Bool
  /-- Call `sigUtil.recoverPersonalSignature` on `data` and `sig`. -/
  recoverPersonalSignature : String → String → String
  /-- Value `String.fromCharCode(parseInt(pair, 16))`. -/
  charFromHexPair : String → String
  /-- Value `Buffer.from(str).toString('hex')`. -/
  utf8Hex : String → String

/-- The fields of a hardware key source. -/
structure State where
  bridgeUrl : String
  page : Int
  perPage : Int
  unlockedAccount : Int
  hdk : HDKey
  paths : List (String × Int)
  network : String
  implementFullBIP44 : Bool
  hdPath : String
  accounts : List String
  deriving DecidableEq, Repr

/-- The options of the constructor and of `deserialize`; an absent field is `none`. -/
structure Opts where
  hdPath : Option String
  bridgeUrl : Option String
  accounts : Option (List String)
  implementFullBIP44 : Option Bool
  deriving DecidableEq, Repr

/-- The value `text || fallback` for an optional string: absent and empty are falsy. -/
def orElse (text : Option String) (fallback : String) : String :=
  match text with
  | none => fallback
  | some t => if t == "" then fallback else t

/-- Method `deserialize`. -/
def deserialize (s : State) (opts : Opts) : State :=
  { s with
    hdPath := orElse opts.hdPath hdPathString
    bridgeUrl := orElse opts.bridgeUrl BRIDGE_URL
    accounts := opts.accounts.getD []
    implementFullBIP44 := opts.implementFullBIP44.getD false }

/-- The `constructor`. -/
def new (opts : Opts) : State :=
  deserialize
    { bridgeUrl := ""
      page := 0
      perPage := 5
      unlockedAccount := 0
      hdk := { publicKey := none, chainCode := none }
      paths := []
      network := "mainnet"
      implementFullBIP44 := false
      hdPath := ""
      accounts := [] } opts

/-- Method `serialize`. -/
def serialize (s : State) : Opts :=
  { hdPath := some s.hdPath
    accounts := some s.accounts
    bridgeUrl := some s.bridgeUrl
    implementFullBIP44 := some false }

/-- Method `isUnlocked`. -/
def isUnlocked (s : State) : Bool :=
  s.hdk.publicKey.isSome

/-- Method `getAccounts`. -/
def getAccounts (s : State) : List String :=
  s.accounts

/-- Method `_isBIP44`. -/
def isBIP44 (s : State) : Bool :=
  s.hdPath == bip44Path

/-- Method `_getPathForIndex`. -/
def getPathForIndex (s : State) (index : Int) : String :=
  if isBIP44 s then "m/44'/60'/" ++ toString index ++ "'/0/0"
  else s.hdPath ++ "/" ++ toString index

/-- The characters of a path with the first occurrence of `m/` removed. -/
def dropFirstM : List Char → List Char
  | 'm' :: '/' :: rest => rest
  | c :: rest => c :: dropFirstM rest
  | [] => []

/-- Method `_toLedgerPath`: `path.toString().replace('m/', '')`. -/
def toLedgerPath (path : String) : String :=
  String.mk (dropFirstM path.data)

/-- The segments of `text.split('/')`. -/
def splitSlash : List Char → List (List Char)
  | [] => [[]]
  | c :: rest =>
    if c = '/' then [] :: splitSlash rest
    else
      match splitSlash rest with
      | [] => [[c]]
      | segment :: segments => (c :: segment) :: segments

/-- Method `_getOrigin`: the bridge address without its last segment. -/
def getOrigin (s : State) : String :=
  let tmp := splitSlash s.bridgeUrl.data
  let tmp := tmp.dropLast
  String.mk (List.intercalate ['/'] tmp)

/-- The message `_sendMessage` posts: the request with its `target` set. -/
def posted (msg : Message) : Message :=
  { msg with target := some "LEDGER-IFRAME" }

/-- The listener `_sendMessage` registers: the value the callback is called
with for a message event, `none` when the callback is not called. -/
def listener (s : State) (msg : Message) (event : MessageEvent) : Option Data :=
  if event.origin != getOrigin s then none
  else
    match event.data with
    | none => none
    | some data =>
      match data.action with
      | none => none
      | some action =>
        if action != "" && action == msg.action ++ "-reply" then some data else none

/-- Method `_sendMessage`: the value its callback is called with, if it is called. -/
def sendMessage {T : Type} (env : Env T) (s : State) (msg : Message) : Option Data :=
  match env.incoming (posted msg) with
  | none => none
  | some event => listener s msg event

/-- Method `unlock`; `hdPath` is `none` for a call without argument. -/
def unlock {T : Type} (env : Env T) (s : State) (hdPath : Option String) :
    Outcome String × State :=
  let given := orElse hdPath ""
  if isUnlocked s && given == "" then (Outcome.resolved "already unlocked", s)
  else
    let path := if given == "" then s.hdPath else toLedgerPath given
    match sendMessage env s
      { action := "ledger-unlock", params := Params.unlock path, target := none } with
    | none => (Outcome.pending, s)
    | some data =>
      if data.success then
        (Outcome.resolved data.payload.address,
          { s with hdk := { publicKey := some data.payload.publicKey
                            chainCode := some data.payload.chainCode } })
      else (Outcome.rejected (Err.message (orElse data.payload.error "Unknown error")), s)

/-- Method `_addressFromIndex`. -/
def addressFromIndex {T : Type} (env : Env T) (s : State) (pathBase : String) (i : Int) :
    String :=
  env.toChecksumAddress (env.deriveAddress s.hdk (pathBase ++ "/" ++ toString i))

/-- The integers `from, from + 1, ...` below `to`: the values of the counter of
`for (let i = from; i < to; i++)`. -/
def indices (from_ to_ : Int) : List Int :=
  (List.range (to_ - from_).toNat).map (fun (j : Nat) => from_ + (j : Int))

/-- The loop of `_getAccountsLegacy` over the remaining indices. -/
def legacyLoop {T : Type} (env : Env T) :
    State → List Int → List Account → List Account × State
  | s, [], accounts => (accounts, s)
  | s, i :: rest, accounts =>
    let address := addressFromIndex env s pathBase i
    let accounts := accounts ++ [{ address := address, balance := none, index := i }]
    legacyLoop env { s with paths := (env.toChecksumAddress address, i) :: s.paths } rest accounts

/-- Method `_getAccountsLegacy`; `this.paths[key] = i` puts the entry in front. -/
def getAccountsLegacy {T : Type} (env : Env T) (s : State) (from_ to_ : Int) :
    List Account × State :=
  legacyLoop env s (indices from_ to_) []

/-- Method `_getApiUrl`. -/
def getApiUrl (s : State) : String :=
  orElse (NETWORK_API_URLS.lookup s.network) (orElse (NETWORK_API_URLS.lookup "mainnet") "")

/-- Method `_hasPreviousTransactions`: whether the returned value is truthy. -/
def hasPreviousTransactions {T : Type} (env : Env T) (s : State) (address : String)
    (chain : String) : Outcome Bool :=
  let apiUrl := getApiUrl s
  let fetchUrl :=
    if chain == "irc" then apiUrl ++ "/address=" ++ address ++ "/?format=json"
    else apiUrl ++ "/api/eth_address=" ++ address ++ "/?format=json"
  match env.fetch fetchUrl with
  | Except.error e => Outcome.rejected (Err.network e)
  | Except.ok response =>
    if response.status ≥ 400 then Outcome.resolved false
    else
      match response.json with
      | Except.error e => Outcome.rejected (Err.network e)
      | Except.ok none => Outcome.resolved false
      | Except.ok (some length) => Outcome.resolved (decide (length > 0))

/-- The loop of `_getAccountsBIP44` over the remaining indices. -/
def bip44Loop {T : Type} (env : Env T) :
    State → List Int → List Account → Outcome (List Account) × State
  | s, [], accounts => (Outcome.resolved accounts, s)
  | s, i :: rest, accounts =>
    let path := getPathForIndex s i
    match unlock env s (some path) with
    | (Outcome.pending, s1) => (Outcome.pending, s1)
    | (Outcome.rejected e, s1) => (Outcome.rejected e, s1)
    | (Outcome.resolved address, s1) =>
      let valid : Outcome Bool :=
        if s1.implementFullBIP44 then hasPreviousTransactions env s1 address "irc"
        else Outcome.resolved true
      match valid with
      | Outcome.pending => (Outcome.pending, s1)
      | Outcome.rejected e => (Outcome.rejected e, s1)
      | Outcome.resolved valid =>
        let accounts := accounts ++ [{ address := address, balance := none, index := i }]
        if !valid then (Outcome.resolved accounts, s1)
        else bip44Loop env s1 rest accounts

/-- Method `_getAccountsBIP44`. -/
def getAccountsBIP44 {T : Type} (env : Env T) (s : State) (from_ to_ : Int) :
    Outcome (List Account) × State :=
  bip44Loop env s (indices from_ to_) []

/-- Method `__getPage`. -/
def getPage {T : Type} (env : Env T) (s : State) (increment : Int) :
    Outcome (List Account) × State :=
  let page := s.page + increment
  let page := if page ≤ 0 then 1 else page
  let s1 : State := { s with page := page }
  let from_ := (s1.page - 1) * s1.perPage
  let to_ := from_ + s1.perPage
  match unlock env s1 none with
  | (Outcome.pending, s2) => (Outcome.pending, s2)
  | (Outcome.rejected e, s2) => (Outcome.rejected e, s2)
  | (Outcome.resolved _, s2) =>
    if isBIP44 s2 then getAccountsBIP44 env s2 from_ to_
    else
      let listed := getAccountsLegacy env s2 from_ to_
      (Outcome.resolved listed.1, listed.2)

/-- Method `getFirstPage`. -/
def getFirstPage {T : Type} (env : Env T) (s : State) : Outcome (List Account) × State :=
  getPage env { s with page := 0 } 1

/-- Method `getNextPage`. -/
def getNextPage {T : Type} (env : Env T) (s : State) : Outcome (List Account) × State :=
  getPage env s 1

/-- Method `getPreviousPage`. -/
def getPreviousPage {T : Type} (env : Env T) (s : State) : Outcome (List Account) × State :=
  getPage env s (-1)

/-- The result of `getFirstPage()` followed by `k` calls of `getNextPage()`: the
value of the last call and the state after it. -/
def pageAfter {T : Type} (env : Env T) (s : State) : Nat → Outcome (List Account) × State
  | 0 => getFirstPage env s
  | k + 1 => getNextPage env (pageAfter env s k).2

/-- Method `_pathFromAddress`. -/
def pathFromAddress {T : Type} (env : Env T) (s : State) (address : String) :
    Except Err String :=
  let checksummedAddress := env.toChecksumAddress address
  let index : Option Int :=
    match s.paths.lookup checksummedAddress with
    | some index => some index
    | none =>
      ((List.range MAX_INDEX).find?
        (fun (i : Nat) => checksummedAddress == addressFromIndex env s pathBase (i : Int))).map
        (fun (i : Nat) => (i : Int))
  match index with
  | none => Except.error Err.unknownAddress
  | some index => Except.ok (getPathForIndex s index)

/-- Method `signTransaction`. An unlock that does not resolve, and an error
thrown while the path is computed, leave the returned promise unsettled. -/
def signTransaction {T : Type} (env : Env T) (s : State) (address : String) (tx : T) :
    Outcome T × State :=
  match unlock env s none with
  | (Outcome.resolved _, s1) =>
    let tx1 := env.assign tx (Signature.hex (env.chainIdHex tx) "0x00" "0x00")
    let hdPath : Except Err String :=
      if isBIP44 s1 then Except.ok (getPathForIndex s1 s1.unlockedAccount)
      else (pathFromAddress env s1 address).map toLedgerPath
    match hdPath with
    | Except.error _ => (Outcome.pending, s1)
    | Except.ok hdPath =>
      match sendMessage env s1
        { action := "ledger-sign-transaction"
          params := Params.signTransaction (env.serializeHex tx1) hdPath
          target := none } with
      | none => (Outcome.pending, s1)
      | some data =>
        if data.success then
          let tx2 := env.assign tx1
            (Signature.buffers data.payload.v data.payload.r data.payload.s)
          let valid := env.verifySignature tx2
          if valid then (Outcome.resolved tx2, s1)
          else (Outcome.rejected Err.signatureNotValid, s1)
        else (Outcome.rejected (Err.payload data.payload), s1)
  | (_, s1) => (Outcome.pending, s1)

/-- The loop of `_toAscii` over the characters from position `i` on. -/
def toAsciiLoop {T : Type} (env : Env T) : Nat → List Char → String → String
  | 0, _, str => str
  | _ + 1, [], str => str
  | fuel + 1, c :: rest, str =>
    toAsciiLoop env fuel (rest.drop 1)
      (str ++ env.charFromHexPair (String.mk ((c :: rest).take 2)))

/-- Method `_toAscii`. -/
def toAscii {T : Type} (env : Env T) (hex : String) : String :=
  let body := if hex.data.take 2 = ['0', 'x'] then hex.data.drop 2 else hex.data
  toAsciiLoop env body.length body ""

/-- The digits of a natural number in base 16, as `Number.prototype.toString(16)`
writes them. -/
def hexDigits (n : Nat) : String :=
  String.mk (Nat.toDigits 16 n)

/-- The value `v.toString(16)` for an integer `v`. -/
def intToHex (v : Int) : String :=
  match v with
  | Int.ofNat n => hexDigits n
  | Int.negSucc n => "-" ++ hexDigits (n + 1)

/-- The signature `signPersonalMessage` assembles from a reply payload. -/
def assembleSignature (payload : Payload) : String :=
  let v := intToHex (payload.vNumber - 27)
  let v := if v.length < 2 then "0" ++ v else v
  "0x" ++ payload.r ++ payload.s ++ v

/-- The reply callback of `signPersonalMessage`: its `resolve` and `reject`
calls, in order. -/
def personalReply {T : Type} (env : Env T) (withAccount message : String) (data : Data) :
    List (Settle String) :=
  if data.success then
    let signature := assembleSignature data.payload
    let addressSignedWith := env.recoverPersonalSignature message signature
    (if env.toChecksumAddress addressSignedWith != env.toChecksumAddress withAccount then
        [Settle.reject Err.signatureMismatch]
      else []) ++ [Settle.resolve signature]
  else [Settle.reject (Err.payload data.payload)]

/-- Method `signPersonalMessage`. Outside BIP44 mode the callback of
`this.unlock().then` throws a TypeError, `LedgerBridgeKeyring._toLedgerPath`
being no static method: no request is sent and the promise stays unsettled. -/
def signPersonalMessage {T : Type} (env : Env T) (s : State) (withAccount message : String) :
    Outcome String × State :=
  let humanReadableMsg := toAscii env message
  let bufferMsg := env.utf8Hex humanReadableMsg
  match unlock env s none with
  | (Outcome.resolved _, s1) =>
    if isBIP44 s1 then
      let hdPath := getPathForIndex s1 s1.unlockedAccount
      match sendMessage env s1
        { action := "ledger-sign-personal-message"
          params := Params.signPersonalMessage hdPath bufferMsg
          target := none } with
      | none => (Outcome.pending, s1)
      | some data => (settled (personalReply env withAccount message data), s1)
    else (Outcome.pending, s1)
  | (_, s1) => (Outcome.pending, s1)

/-- The loop of `addAccounts` over the remaining indices. -/
def addAccountsLoop {T : Type} (env : Env T) : State → List Int → Outcome Unit × State
  | s, [] => (Outcome.resolved (), s)
  | s, i :: rest =>
    if isBIP44 s then
      let path := getPathForIndex s i
      match unlock env s (some path) with
      | (Outcome.pending, s1) => (Outcome.pending, s1)
      | (Outcome.rejected e, s1) => (Outcome.rejected e, s1)
      | (Outcome.resolved address, s1) =>
        addAccountsLoop env { s1 with accounts := s1.accounts ++ [address], page := 0 } rest
    else
      let address := addressFromIndex env s pathBase i
      addAccountsLoop env { s with accounts := s.accounts ++ [address], page := 0 } rest

/-- Method `addAccounts`; `n` is `none` for a call without argument. -/
def addAccounts {T : Type} (env : Env T) (s : State) (n : Option Int) :
    Outcome (List String) × State :=
  let n := n.getD 1
  match unlock env s none with
  | (Outcome.pending, s1) => (Outcome.pending, s1)
  | (Outcome.rejected e, s1) => (Outcome.rejected e, s1)
  | (Outcome.resolved _, s1) =>
    let from_ := s1.unlockedAccount
    let to_ := from_ + n
    match addAccountsLoop env { s1 with accounts := [] } (indices from_ to_) with
    | (Outcome.pending, s2) => (Outcome.pending, s2)
    | (Outcome.rejected e, s2) => (Outcome.rejected e, s2)
    | (Outcome.resolved _, s2) => (Outcome.resolved s2.accounts, s2)

/-- The address `_hasPreviousTransactions` requests for an address and a chain. -/
def fetchUrl (s : State) (address : String) (chain : String) : String :=
  if chain == "irc" then getApiUrl s ++ "/address=" ++ address ++ "/?format=json"
  else getApiUrl s ++ "/api/eth_address=" ++ address ++ "/?format=json"

/-- The elements of a list up to and including the first one that fails `p`. -/
def takeThrough {α : Type} (p : α → Bool) : List α → List α
  | [] => []
  | a :: rest => if p a then a :: takeThrough p rest else [a]

/-- Two states of a key source with the same bridge address, path, network and
discovery mode. -/
def SameDevice (s s2 : State) : Prop :=
  s2.bridgeUrl = s.bridgeUrl ∧ s2.hdPath = s.hdPath ∧ s2.network = s.network
    ∧ s2.implementFullBIP44 = s.implementFullBIP44 ∧ s2.perPage = s.perPage

/-- The request `unlock` sends for the account path of index `i`. -/
def unlockRequest (s : State) (i : Int) : Message :=
  { action := "ledger-unlock"
    params := Params.unlock (toLedgerPath (getPathForIndex s i))
    target := none }

/-- The device answers the unlock request for index `i` with success. -/
def DeviceUnlocks {T : Type} (env : Env T) (s : State) (i : Int) : Prop :=
  ∃ data, sendMessage env s (unlockRequest s i) = some data ∧ data.success = true

/-- The address the device reports for index `i`. -/
def replyAddress {T : Type} (env : Env T) (s : State) (i : Int) : String :=
  match sendMessage env s (unlockRequest s i) with
  | some data => data.payload.address
  | none => ""

/-- Whether the history check finds prior transactions for the address of index `i`. -/
def hasHistory {T : Type} (env : Env T) (s : State) (i : Int) : Bool :=
  match hasPreviousTransactions env s (replyAddress env s i) "irc" with
  | Outcome.resolved b => b
  | _ => false

/-- The entry `_getAccountsBIP44` pushes for index `i`. -/
def bip44Entry {T : Type} (env : Env T) (s : State) (i : Int) : Account :=
  { address := replyAddress env s i, balance := none, index := i }

/-- The indices `_getAccountsBIP44` is expected to return entries for: with full
discovery, those up to and including the first one without history. -/
def discovered {T : Type} (env : Env T) (s : State) (indexes : List Int) : List Int :=
  if s.implementFullBIP44 then takeThrough (hasHistory env s) indexes else indexes

/-- The history check answers for the address of index `i`. -/
def HistoryAnswers {T : Type} (env : Env T) (s : State) (i : Int) : Prop :=
  ∃ b, hasPreviousTransactions env s (replyAddress env s i) "irc" = Outcome.resolved b

/-- An unlocked key source with `perPage = 5`, in legacy mode, or in BIP44 mode
without full discovery and with a device that answers every unlock request. -/
def PageOk {T : Type} (env : Env T) (s : State) : Prop :=
  isUnlocked s = true ∧ s.perPage = 5
    ∧ (isBIP44 s = false
        ∨ (isBIP44 s = true ∧ s.implementFullBIP44 = false ∧ ∀ i, DeviceUnlocks env s i))

/-! ### A sample bridge -/

namespace Sample

/-- Transaction of the sample environment: its chain id, its body and the
assigned signature values. -/
structure Tx where
  chainId : String
  body : String
  v : String
  r : String
  s : String
  deriving DecidableEq, Repr

/-- The address that signed a sample transaction: the sample device writes the
signing account into `r`. -/
def signer (tx : Tx) : String :=
  tx.r

/-- The reply payload with every field empty. -/
def emptyPayload : Payload :=
  { publicKey := "", chainCode := "", address := "", error := none,
    v := "", r := "", s := "", vNumber := 0 }

/-- The sample window: the bridge at `https://bridge.example` answers every
request with success. It reports the address `0x` followed by the path for an
unlock, signs transactions with the account `0xdevice`, and signs messages
with `r = aa`, `s = bb`, `v = 27`. -/
def incoming (msg : Message) : Option MessageEvent :=
  match msg.params with
  | Params.unlock hdPath =>
    some { origin := "https://bridge.example"
           data := some { action := some "ledger-unlock-reply", success := true,
                          payload := { emptyPayload with
                            publicKey := "pk", chainCode := "cc", address := "0x" ++ hdPath } } }
  | Params.signTransaction _ _ =>
    some { origin := "https://bridge.example"
           data := some { action := some "ledger-sign-transaction-reply", success := true,
                          payload := { emptyPayload with v := "1c", r := "0xdevice", s := "01" } } }
  | Params.signPersonalMessage _ _ =>
    some { origin := "https://bridge.example"
           data := some { action := some "ledger-sign-personal-message-reply", success := true,
                          payload := { emptyPayload with r := "aa", s := "bb", vNumber := 27 } } }

/-- The sample collaborators. A derived address is the path in brackets, the
checksum form adds the prefix 0x, a transaction signature is valid when `r` and
`s` are not empty, the message signature `0xaabb00` recovers to `0xme`, and the
indexer knows prior transactions of the address of index 0 only. -/
def env : Env Tx :=
  { incoming := incoming
    deriveAddress := fun _ path => "[" ++ path ++ "]"
    toChecksumAddress := KeyringController.Sample.addHex
    fetch := fun url =>
      Except.ok { status := 200
                  json := Except.ok (some
                    (if url == "https://scan.irchain.io//address=0x44'/60'/0'/0/0/?format=json"
                      then 2 else 0)) }
    chainIdHex := fun tx => tx.chainId
    assign := fun tx sig =>
      match sig with
      | Signature.hex v r s => { tx with v := v, r := r, s := s }
      | Signature.buffers v r s => { tx with v := v, r := r, s := s }
    serializeHex := fun tx => tx.body
    verifySignature := fun tx => tx.r != "" && tx.s != ""
    recoverPersonalSignature := fun _ sig => if sig == "0xaabb00" then "0xme" else "0xother"
    charFromHexPair := fun pair => pair
    utf8Hex := fun str => str }

/-- The sample collaborators with a `fetch` that gives one answer for every
address. -/
def answering (answer : Except String Response) : Env Tx :=
  { env with fetch := fun _ => answer }

/-- The bridge address of the sample key sources. -/
def bridgeUrl : String := "https://bridge.example/index.html"

/-- A sample key source in legacy mode, already unlocked. -/
def legacy : State :=
  { new { hdPath := none, bridgeUrl := some bridgeUrl, accounts := none,
          implementFullBIP44 := none } with
    hdk := { publicKey := some "pk", chainCode := some "cc" } }

/-- A sample key source in BIP44 mode, already unlocked. -/
def bip44 : State :=
  { new { hdPath := some bip44Path, bridgeUrl := some bridgeUrl, accounts := none,
          implementFullBIP44 := none } with
    hdk := { publicKey := some "pk", chainCode := some "cc" } }

/-- The sample BIP44 key source with full discovery switched on. -/
def bip44Full : State :=
  { bip44 with implementFullBIP44 := true }

/-- A sample transaction before signing. -/
def tx : Tx :=
  { chainId := "0x01", body := "f8", v := "", r := "", s := "" }

end Sample

end LedgerBridgeKeyring

/-! ## Simple key source (`src/simple.js`)

Shallow embedding of the constructor, `serialize`, `deserialize` and
`getAccounts` of `SimpleKeyring`. The wallet class and `ircUtil` are the
fields of `Env`; a thrown exception is `Except.error`. -/

namespace SimpleKeyring

/-- Constant `type`. -/
def type : String := "Simple Key Pair"

/-- The collaborators of a simple key source; `W` is the wallet class. -/
structure Env (W : Type) where
  /-- Function `ircUtil.stripHexPrefix`. -/
  stripHexPrefix : String → String
  /-- Call `Wallet.fromPrivateKey(new Buffer(stripped, 'hex'))` for the text
  `stripped`; an error is a thrown exception. -/
  fromPrivateKey : String → Except String W
  /-- Value `w.getPrivateKey().toString('hex')`. -/
  privateKeyHex : W → String
  /-- Value `ircUtil.bufferToHex(w.getAddress())`. -/
  addressHex : W → String

/-- The fields of a simple key source. -/
structure State (W : Type) where
  wallets : List W

/-- Method `serialize`. -/
def serialize {W : Type} (env : Env W) (s : State W) : List String :=
  s.wallets.map env.privateKeyHex

/-- Method `deserialize`; `privateKeys` is `none` for a call without argument.
The result is the settled promise, `Except.error` for a rejection, and the key
source afterwards: when a wallet cannot be built the assignment to
`this.wallets` is not reached. -/
def deserialize {W : Type} (env : Env W) (s : State W) (privateKeys : Option (List String)) :
    Except String Unit × State W :=
  let privateKeys := privateKeys.getD []
  match privateKeys.mapM (fun privateKey =>
      let stripped := env.stripHexPrefix privateKey
      env.fromPrivateKey stripped) with
  | Except.error e => (Except.error e, s)
  | Except.ok wallets => (Except.ok (), { s with wallets := wallets })

/-- The `constructor`. -/
def new {W : Type} (env : Env W) (opts : Option (List String)) : State W :=
  (deserialize env { wallets := [] } opts).2

/-- Method `getAccounts`. -/
def getAccounts {W : Type} (env : Env W) (s : State W) : List String :=
  s.wallets.map env.addressHex

/-- A wallet rebuilt from the exported private key of `w` has the address of `w`. -/
def Rebuilds {W : Type} (env : Env W) (w : W) : Prop :=
  ∃ w2, env.fromPrivateKey (env.stripHexPrefix (env.privateKeyHex w)) = Except.ok w2
    ∧ env.addressHex w2 = env.addressHex w

/-! ### A sample wallet class -/

namespace Sample

/-- Wallet of the sample environment: its private key as text. -/
abbrev Wallet := String

/-- The sample collaborators: the address of a wallet is `0x` followed by its
private key read backwards, and the empty text is no private key. -/
def env : Env Wallet :=
  { stripHexPrefix := KeyringController.Sample.stripHex
    fromPrivateKey := fun stripped =>
      if stripped == "" then Except.error "Private key does not satisfy the curve requirements"
      else Except.ok stripped
    privateKeyHex := fun w => w
    addressHex := fun w => "0x" ++ String.mk w.data.reverse }

/-- A sample key source holding two wallets. -/
def two : State Wallet := new env (some ["0xab12", "cd34"])

end Sample

end SimpleKeyring

namespace KeyringController

/-! ## Account listing and account resolution -/

section Listing

variable {K O D C : Type}

theorem foldl_concat_eq (acc : List String) (arrays : List (List String)) :
    arrays.foldl (fun res arr => res ++ arr) acc = acc ++ arrays.flatten := by
  induction arrays generalizing acc with
  | nil => simp
  | cons a rest ih => simp [List.foldl_cons, ih, List.append_assoc]

theorem getAccounts_eq_join (env : Env K O D C) (c : Controller K C) :
    getAccounts env c
      = (c.keyrings.map (fun keyring => (env.getAccounts keyring).map env.normalizeAddress)).flatten := by
  unfold getAccounts
  simp only [foldl_concat_eq, List.nil_append]
  induction c.keyrings with
  | nil => simp
  | cons k rest ih => simp [List.map_append, ih]

/-- C8: the controller's `getAccounts()` is the concatenation, in keyrings order
and within each key source in that source's own order, of `normalizeAddress`
applied to every account of every source; it is a function of the keyrings list
alone, so two calls with no mutation in between give the same ordered result. -/
theorem getAccounts_concat_normalized (env : Env K O D C) (c : Controller K C) :
    getAccounts env c
        = (c.keyrings.map (fun keyring => (env.getAccounts keyring).map env.normalizeAddress)).flatten
      ∧ ∀ c2 : Controller K C, c2.keyrings = c.keyrings → getAccounts env c2 = getAccounts env c := by
  refine ⟨getAccounts_eq_join env c, ?_⟩
  intro c2 h
  simp [getAccounts, h]

theorem winners_head (env : Env K O D C) (address : String) (n : Nat) (ks : List K) :
    (((ks.enumFrom n).map (fun keyring => (keyring, env.getAccounts keyring.2))).filter
        (fun candidate =>
          (candidate.2.map env.normalizeAddress).contains (env.normalizeAddress address))).head?
      = ((ks.enumFrom n).find? (fun p => owns env address p.2)).map
          (fun p => (p, env.getAccounts p.2)) := by
  induction ks generalizing n with
  | nil => simp
  | cons k rest ih =>
    simp only [List.enumFrom_cons, List.map_cons, List.filter_cons, List.find?_cons]
    by_cases h : owns env address k = true
    · have h2 : ((env.getAccounts k).map env.normalizeAddress).contains
          (env.normalizeAddress address) = true := h
      simp only [h, h2, if_true, List.head?_cons, Option.map_some']
    · have h1 : owns env address k = false := by simpa using h
      have h2 : ((env.getAccounts k).map env.normalizeAddress).contains
          (env.normalizeAddress address) = false := h1
      simp only [h1, h2]
      exact ih (n + 1)

theorem getKeyringForAccount_eq (env : Env K O D C) (c : Controller K C) (address : String) :
    getKeyringForAccount env c address
      = match (c.keyrings.enumFrom 0).find? (fun p => owns env address p.2) with
        | some p => Except.ok p
        | none => Except.error Err.noKeyringFound := by
  have h := winners_head env address 0 c.keyrings
  unfold getKeyringForAccount
  simp only [List.enum]
  generalize hw : (((c.keyrings.enumFrom 0).map (fun keyring => (keyring, env.getAccounts keyring.2))).filter
        (fun candidate =>
          (candidate.2.map env.normalizeAddress).contains (env.normalizeAddress address))) = winners at h
  cases winners with
  | nil =>
    simp only [List.head?_nil] at h
    cases hf : (c.keyrings.enumFrom 0).find? (fun p => owns env address p.2) with
    | none => rfl
    | some p => rw [hf] at h; simp at h
  | cons w rest =>
    simp only [List.head?_cons] at h
    cases hf : (c.keyrings.enumFrom 0).find? (fun p => owns env address p.2) with
    | none => rw [hf] at h; simp at h
    | some p =>
      rw [hf] at h
      simp only [Option.map_some', Option.some.injEq] at h
      simp [h]

theorem find_enumFrom (p : K → Bool) (n : Nat) (ks : List K) :
    ((ks.enumFrom n).find? (fun q => p q.2)).map Prod.snd = ks.find? p := by
  induction ks generalizing n with
  | nil => simp
  | cons k rest ih =>
    simp only [List.enumFrom_cons, List.find?_cons]
    cases h : p k with
    | true => simp
    | false => simpa using ih (n + 1)

theorem find_enumFrom_pos (p : K → Bool) (n : Nat) (ks : List K) (i : Nat) (k : K)
    (h : (ks.enumFrom n).find? (fun q => p q.2) = some (i, k)) :
    n ≤ i ∧ ks.get? (i - n) = some k ∧ p k = true
      ∧ ∀ j k2, j < i - n → ks.get? j = some k2 → p k2 = false := by
  induction ks generalizing n with
  | nil => simp at h
  | cons k0 rest ih =>
    simp only [List.enumFrom_cons, List.find?_cons] at h
    cases hp : p k0 with
    | true =>
      simp only [hp, Option.some.injEq, Prod.mk.injEq] at h
      obtain ⟨h1, h2⟩ := h
      subst h1; subst h2
      simp [hp]
    | false =>
      simp only [hp] at h
      obtain ⟨h1, h2, h3, h4⟩ := ih (n + 1) h
      have e : i - n = (i - (n + 1)) + 1 := by omega
      refine ⟨by omega, ?_, h3, ?_⟩
      · rw [e]; simpa using h2
      · intro j k2 hj hk
        cases j with
        | zero => simp at hk; subst hk; exact hp
        | succ j =>
          simp only [List.get?_cons_succ] at hk
          exact h4 j k2 (by omega) hk

/-- C7: `getKeyringForAccount(address)` resolves to the first key source, in
keyrings order, whose normalized account list contains the normalized address,
and rejects with 'No keyring found.' when no source contains it; the position
it reports holds that source and no earlier position owns the address; an
address owned by exactly one source resolves to that source. -/
theorem getKeyringForAccount_first_owner (env : Env K O D C) (c : Controller K C)
    (address : String) :
    ((getKeyringForAccount env c address).map Prod.snd
        = match c.keyrings.find? (owns env address) with
          | some keyring => Except.ok keyring
          | none => Except.error Err.noKeyringFound)
      ∧ (∀ i keyring, getKeyringForAccount env c address = Except.ok (i, keyring) →
          c.keyrings.get? i = some keyring ∧ owns env address keyring = true
            ∧ ∀ j k2, j < i → c.keyrings.get? j = some k2 → owns env address k2 = false)
      ∧ ((∀ keyring ∈ c.keyrings, owns env address keyring = false) →
          getKeyringForAccount env c address = Except.error Err.noKeyringFound)
      ∧ (∀ keyring ∈ c.keyrings, owns env address keyring = true →
          (∀ k2 ∈ c.keyrings, owns env address k2 = true → k2 = keyring) →
          (getKeyringForAccount env c address).map Prod.snd = Except.ok keyring) := by
  have hfirst : (getKeyringForAccount env c address).map Prod.snd
        = match c.keyrings.find? (owns env address) with
          | some keyring => Except.ok keyring
          | none => Except.error Err.noKeyringFound := by
    rw [getKeyringForAccount_eq, ← find_enumFrom (owns env address) 0 c.keyrings]
    cases (c.keyrings.enumFrom 0).find? (fun q => owns env address q.2) <;> rfl
  refine ⟨hfirst, ?_, ?_, ?_⟩
  · intro i keyring h
    rw [getKeyringForAccount_eq] at h
    cases hf : (c.keyrings.enumFrom 0).find? (fun p => owns env address p.2) with
    | none => rw [hf] at h; simp at h
    | some p =>
      rw [hf] at h
      simp only [Except.ok.injEq] at h
      subst h
      obtain ⟨_, h2, h3, h4⟩ := find_enumFrom_pos (owns env address) 0 c.keyrings i keyring hf
      exact ⟨by simpa using h2, h3, fun j k2 hj hk => h4 j k2 (by simpa using hj) hk⟩
  · intro hnone
    rw [getKeyringForAccount_eq]
    have hk : c.keyrings.find? (owns env address) = none := by
      rw [List.find?_eq_none]
      intro k hkm
      simp [hnone k hkm]
    have this := find_enumFrom (owns env address) 0 c.keyrings
    rw [hk, Option.map_eq_none'] at this
    rw [this]
  · intro keyring hmem hown huniq
    rw [hfirst]
    cases hf : c.keyrings.find? (owns env address) with
    | none =>
      rw [List.find?_eq_none] at hf
      exact absurd hown (hf keyring hmem)
    | some k2 =>
      have h1 := List.find?_some hf
      have h2 := List.mem_of_find?_eq_some hf
      rw [huniq k2 h2 h1]

/-- C2: after `setLocked()`, from every controller state, `getAccounts()` is the
empty sequence, `memStore.isUnlocked` is false, the held password is null and
the `memStore.keyrings` projection is empty. -/
theorem setLocked_clears_session (env : Env K O D C) (c : Controller K C) :
    getAccounts env (setLocked env c).2 = []
      ∧ (setLocked env c).2.memStore.isUnlocked = false
      ∧ (setLocked env c).2.password = JsPassword.null
      ∧ (setLocked env c).2.memStore.keyrings = []
      ∧ (setLocked env c).2.keyrings = []
      ∧ (setLocked env c).1 = (setLocked env c).2.memStore := by
  simp [setLocked, getAccounts, updateMemStoreKeyrings, fullUpdate]

end Listing

/-! ## Persisting and unlocking -/

section Vault

variable {K O D C : Type}

theorem persist_text (env : Env K O D C) (c : Controller K C) (pw : String) :
    persistAllKeyrings env c (JsPassword.text pw)
      = (Except.ok (),
          { c with
            password := JsPassword.text pw
            memStore := { c.memStore with isUnlocked := true }
            vault := some (env.encrypt pw (vaultRecords env c)) }) := rfl

theorem persist_default (env : Env K O D C) (c : Controller K C) (pw : String)
    (h : c.password = JsPassword.text pw) :
    persistAllKeyrings env c JsPassword.undefined
      = (Except.ok (),
          { c with
            password := JsPassword.text pw
            memStore := { c.memStore with isUnlocked := true }
            vault := some (env.encrypt pw (vaultRecords env c)) }) := by
  simp [persistAllKeyrings, h, vaultRecords]

theorem persist_cases (env : Env K O D C) (c : Controller K C) (arg : JsPassword) :
    (∃ pw, persistAllKeyrings env c arg
        = (Except.ok (),
            { c with
              password := JsPassword.text pw
              memStore := { c.memStore with isUnlocked := true }
              vault := some (env.encrypt pw (vaultRecords env c)) })
        ∧ (arg = JsPassword.text pw ∨ (arg = JsPassword.undefined ∧ c.password = JsPassword.text pw)))
      ∨ (persistAllKeyrings env c arg = (Except.error Err.passwordNotString, c)
          ∧ ∀ pw, arg ≠ JsPassword.text pw) := by
  cases arg with
  | text pw => exact Or.inl ⟨pw, rfl, Or.inl rfl⟩
  | undefined =>
    cases hp : c.password with
    | text pw => exact Or.inl ⟨pw, persist_default env c pw hp, Or.inr ⟨rfl, rfl⟩⟩
    | undefined => right; simp [persistAllKeyrings, hp]
    | null => right; simp [persistAllKeyrings, hp]
    | boolean b => right; simp [persistAllKeyrings, hp]
    | number n => right; simp [persistAllKeyrings, hp]
  | null => right; simp [persistAllKeyrings]
  | boolean b => right; simp [persistAllKeyrings]
  | number n => right; simp [persistAllKeyrings]

theorem persist_ok_current (env : Env K O D C) (c c2 : Controller K C) (arg : JsPassword)
    (u : Unit) (h : persistAllKeyrings env c arg = (Except.ok u, c2)) :
    VaultCurrent env c2 ∧ c2.keyrings = c.keyrings := by
  rcases persist_cases env c arg with ⟨pw, hp, _⟩ | ⟨hp, _⟩
  · rw [hp] at h
    simp only [Prod.mk.injEq, Except.ok.injEq] at h
    obtain ⟨_, h2⟩ := h
    subst h2
    exact ⟨⟨rfl, pw, rfl, rfl⟩, rfl⟩
  · rw [hp] at h
    simp at h

theorem persist_error_same (env : Env K O D C) (c c2 : Controller K C) (arg : JsPassword)
    (e : Err) (h : persistAllKeyrings env c arg = (Except.error e, c2)) :
    c2 = c ∧ e = Err.passwordNotString := by
  rcases persist_cases env c arg with ⟨pw, hp, _⟩ | ⟨hp, _⟩
  · rw [hp] at h
    simp at h
  · rw [hp] at h
    simp only [Prod.mk.injEq, Except.error.injEq] at h
    exact ⟨h.2.symm, h.1.symm⟩

theorem vaultCurrent_updateMemStore (env : Env K O D C) (c : Controller K C)
    (h : VaultCurrent env c) : VaultCurrent env (updateMemStoreKeyrings env c) := h

theorem createNewVaultAndRestore_ok (env : Env K O D C) (c : Controller K C) (pw seed : String)
    (cls : KeyringClass K O) (keyring : K)
    (hvalid : env.validateMnemonic seed = true)
    (hcls : getKeyringClassForType env "HD Key Tree" = some cls)
    (hnew : cls.construct (some (env.hdOpts (some seed) 1)) = Except.ok keyring)
    (hfirst : firstAccountMissing (env.getAccounts keyring) = false) :
    createNewVaultAndRestore env c (JsPassword.text pw) seed
      = (Except.ok
          { isUnlocked := true, keyringTypes := c.memStore.keyringTypes,
            keyrings := [displayForKeyring env keyring] },
          { vault := some (env.encrypt pw
              [{ type := env.typeOf keyring, data := env.serialize keyring }])
            memStore :=
              { isUnlocked := true, keyringTypes := c.memStore.keyringTypes,
                keyrings := [displayForKeyring env keyring] }
            password := JsPassword.text pw
            keyrings := [keyring] }) := by
  have hne : ("HD Key Tree" = "Simple Key Pair") = False := by decide
  simp [createNewVaultAndRestore, hvalid, persistAllKeyrings, addNewKeyring, hcls, hnew,
    checkForDuplicate, hne, hfirst, clearKeyrings, updateMemStoreKeyrings, fullUpdate]

theorem submitPassword_single (env : Env K O D C) (c : Controller K C) (pw : String)
    (keyring restored : K)
    (hvault : c.vault = some (env.encrypt pw
      [{ type := env.typeOf keyring, data := env.serialize keyring }]))
    (hblob : ∀ records, env.blobFalsy (env.encrypt pw records) = false)
    (hdec : ∀ records, env.decrypt (JsPassword.text pw) (env.encrypt pw records) = some records)
    (hstart : startRestore env { type := env.typeOf keyring, data := env.serialize keyring }
      = Except.ok (Except.ok restored)) :
    submitPassword env c (JsPassword.text pw)
      = (Except.ok
          { isUnlocked := true, keyringTypes := c.memStore.keyringTypes,
            keyrings := [displayForKeyring env restored] },
          { vault := c.vault
            memStore :=
              { isUnlocked := true, keyringTypes := c.memStore.keyringTypes,
                keyrings := [displayForKeyring env restored] }
            password := JsPassword.text pw
            keyrings := [restored] }) := by
  simp [submitPassword, unlockKeyrings, hvault, hblob, hdec, startRestores, hstart,
    settleRestores, firstRejection, clearKeyrings, updateMemStoreKeyrings, fullUpdate]

/-- C1: for every text password and every valid mnemonic, given a registered
'HD Key Tree' class whose source for that mnemonic reports a first account,
an encryptor with `decrypt(pw, encrypt(pw, x)) = x` whose ciphertexts are not
falsy, and a source whose serialized record restores to a source with the same
accounts: `createNewVaultAndRestore(pw, m)` succeeds, then after `setLocked()`
`submitPassword(pw)` succeeds, and `getAccounts()` afterwards is the ordered
account list it was right after `createNewVaultAndRestore`. -/
theorem restore_lock_unlock_same_accounts (env : Env K O D C) (c : Controller K C)
    (pw seed : String) (cls : KeyringClass K O) (keyring : K)
    (hvalid : env.validateMnemonic seed = true)
    (hcls : getKeyringClassForType env "HD Key Tree" = some cls)
    (hnew : cls.construct (some (env.hdOpts (some seed) 1)) = Except.ok keyring)
    (hfirst : firstAccountMissing (env.getAccounts keyring) = false)
    (hblob : ∀ records, env.blobFalsy (env.encrypt pw records) = false)
    (hdec : ∀ records, env.decrypt (JsPassword.text pw) (env.encrypt pw records) = some records)
    (hser : RestoresAccounts env keyring) :
    ∃ r1 c1 r3 c3,
      createNewVaultAndRestore env c (JsPassword.text pw) seed = (Except.ok r1, c1)
        ∧ submitPassword env (setLocked env c1).2 (JsPassword.text pw) = (Except.ok r3, c3)
        ∧ getAccounts env c3 = getAccounts env c1
        ∧ getAccounts env c1 = (env.getAccounts keyring).map env.normalizeAddress := by
  obtain ⟨restored, hstart, hacc⟩ := hser
  have hcreate := createNewVaultAndRestore_ok env c pw seed cls keyring hvalid hcls hnew hfirst
  have h3 := submitPassword_single env
    (setLocked env
      ({ vault := some (env.encrypt pw
              [{ type := env.typeOf keyring, data := env.serialize keyring }])
         memStore :=
              { isUnlocked := true, keyringTypes := c.memStore.keyringTypes,
                keyrings := [displayForKeyring env keyring] }
         password := JsPassword.text pw
         keyrings := [keyring] } : Controller K C)).2 pw keyring restored rfl hblob hdec hstart
  refine ⟨_, _, _, _, hcreate, h3, ?_, ?_⟩
  · simp [getAccounts, hacc]
  · simp [getAccounts]

/-- C3 (amended): when `submitPassword(password)` fails because no vault is
stored (absent or falsy), the controller state is exactly what it was; when
it fails because `decrypt` rejects, `isUnlocked`, the held password and the
stored vault are what they were and the keyrings list and its `memStore`
projection have been cleared, so a controller that held no key source (a
Locked one after `setLocked`, or a fresh one) is unchanged and still Locked. -/
theorem submitPassword_failure_state (env : Env K O D C) (c : Controller K C)
    (password : JsPassword) :
    ((c.vault = none ∨ ∃ blob, c.vault = some blob ∧ env.blobFalsy blob = true) →
        submitPassword env c password = (Except.error Err.noPreviousVault, c))
      ∧ (∀ blob, c.vault = some blob → env.blobFalsy blob = false →
          env.decrypt password blob = none →
          submitPassword env c password = (Except.error Err.decryptFailed, clearKeyrings c)
            ∧ (clearKeyrings c).memStore.isUnlocked = c.memStore.isUnlocked
            ∧ (clearKeyrings c).password = c.password
            ∧ (clearKeyrings c).vault = c.vault
            ∧ (clearKeyrings c).keyrings = []
            ∧ (c.keyrings = [] → c.memStore.keyrings = [] → clearKeyrings c = c)) := by
  refine ⟨?_, ?_⟩
  · rintro (h | ⟨blob, h, hf⟩)
    · simp [submitPassword, unlockKeyrings, h]
    · simp [submitPassword, unlockKeyrings, h, hf]
  · intro blob h hf hd
    refine ⟨by simp [submitPassword, unlockKeyrings, h, hf, hd], rfl, rfl, rfl, rfl, ?_⟩
    intro hk hm
    cases c with
    | mk vault memStore pwd keyrings =>
      cases memStore with
      | mk u t ks =>
        simp only at hk hm
        subst hk; subst hm
        rfl

end Vault

/-! ## Session invariants -/

section Session

variable {K O D C : Type}

theorem SessionStep.rfl (c : Controller K C) : SessionStep c c := Or.inl ⟨Eq.refl _, Eq.refl _⟩

theorem SessionStep.trans {a b c : Controller K C} (h1 : SessionStep a b) (h2 : SessionStep b c) :
    SessionStep a c := by
  rcases h2 with ⟨hp, hu⟩ | h
  · rcases h1 with ⟨hp1, hu1⟩ | ⟨ht, hu1⟩
    · exact Or.inl ⟨hp.trans hp1, hu.trans hu1⟩
    · exact Or.inr ⟨by rw [hp]; exact ht, by rw [hu]; exact hu1⟩
  · exact Or.inr h

theorem SessionStep.unlocked {a b : Controller K C} (h : SessionStep a b)
    (hu : a.memStore.isUnlocked = true) : b.memStore.isUnlocked = true := by
  rcases h with ⟨_, h2⟩ | ⟨_, h2⟩
  · rw [h2]; exact hu
  · exact h2

theorem SessionStep.preserves {a b : Controller K C} (h : SessionStep a b)
    (hi : PasswordIffUnlocked a) : PasswordIffUnlocked b := by
  unfold PasswordIffUnlocked at *
  rcases h with ⟨h1, h2⟩ | ⟨h1, h2⟩
  · rw [h1, h2]; exact hi
  · simp [h1, h2]

theorem persist_step (env : Env K O D C) (c : Controller K C) (arg : JsPassword) :
    SessionStep c (persistAllKeyrings env c arg).2 := by
  rcases persist_cases env c arg with ⟨pw, hp, _⟩ | ⟨hp, _⟩
  · rw [hp]; exact Or.inr ⟨rfl, rfl⟩
  · rw [hp]; exact SessionStep.rfl c

theorem addNewKeyring_step (env : Env K O D C) (c : Controller K C) (type : String)
    (opts : Option O) : SessionStep c (addNewKeyring env c type opts).2 := by
  simp only [addNewKeyring]
  cases getKeyringClassForType env type with
  | none => exact SessionStep.rfl c
  | some cls =>
    simp only []
    cases cls.construct opts with
    | error e => exact SessionStep.rfl c
    | ok keyring =>
      simp only []
      cases checkForDuplicate env c type (env.getAccounts keyring) with
      | error e => exact SessionStep.rfl c
      | ok accounts =>
        simp only []
        have h0 : SessionStep c ({ c with keyrings := c.keyrings ++ [keyring] }) :=
          Or.inl ⟨rfl, rfl⟩
        have h := h0.trans (persist_step env ({ c with keyrings := c.keyrings ++ [keyring] })
          JsPassword.undefined)
        rcases hp : persistAllKeyrings env ({ c with keyrings := c.keyrings ++ [keyring] })
          JsPassword.undefined with ⟨r, c2⟩
        rw [hp] at h
        cases r with
        | error e => exact h
        | ok u => exact h

theorem createFirstKeyTree_step (env : Env K O D C) (c : Controller K C) :
    SessionStep c (createFirstKeyTree env c).2 := by
  have h0 : SessionStep c (clearKeyrings c) := Or.inl ⟨rfl, rfl⟩
  have h := h0.trans (addNewKeyring_step env (clearKeyrings c) "HD Key Tree"
    (some (env.hdOpts none 1)))
  simp only [createFirstKeyTree]
  rcases hp : addNewKeyring env (clearKeyrings c) "HD Key Tree" (some (env.hdOpts none 1))
    with ⟨r, c2⟩
  rw [hp] at h
  cases r with
  | error e => exact h
  | ok keyring =>
    simp only []
    split <;> exact h

theorem createNewVaultAndKeychain_step (env : Env K O D C) (c : Controller K C)
    (password : JsPassword) : SessionStep c (createNewVaultAndKeychain env c password).2 := by
  have h1 := persist_step env c password
  simp only [createNewVaultAndKeychain]
  rcases hp : persistAllKeyrings env c password with ⟨r, c1⟩
  rw [hp] at h1
  cases r with
  | error e => exact h1
  | ok u =>
    simp only []
    have h2 := h1.trans (createFirstKeyTree_step env c1)
    rcases hp2 : createFirstKeyTree env c1 with ⟨r2, c2⟩
    rw [hp2] at h2
    cases r2 with
    | error e => exact h2
    | ok u2 =>
      simp only []
      have h3 := h2.trans (persist_step env c2 password)
      rcases hp3 : persistAllKeyrings env c2 password with ⟨r3, c3⟩
      rw [hp3] at h3
      cases r3 with
      | error e => exact h3
      | ok u3 => exact h3

theorem createNewVaultAndRestore_step (env : Env K O D C) (c : Controller K C)
    (password : JsPassword) (seed : String) :
    SessionStep c (createNewVaultAndRestore env c password seed).2 := by
  cases password with
  | text pw =>
    simp only [createNewVaultAndRestore]
    split
    · exact SessionStep.rfl c
    · have h0 : SessionStep c (clearKeyrings c) := Or.inl ⟨rfl, rfl⟩
      have h1 := h0.trans (persist_step env (clearKeyrings c) (JsPassword.text pw))
      rcases hp : persistAllKeyrings env (clearKeyrings c) (JsPassword.text pw) with ⟨r, c1⟩
      rw [hp] at h1
      cases r with
      | error e => exact h1
      | ok u =>
        simp only []
        have h2 := h1.trans (addNewKeyring_step env c1 "HD Key Tree"
          (some (env.hdOpts (some seed) 1)))
        rcases hp2 : addNewKeyring env c1 "HD Key Tree" (some (env.hdOpts (some seed) 1))
          with ⟨r2, c2⟩
        rw [hp2] at h2
        cases r2 with
        | error e => exact h2
        | ok firstKeyring =>
          simp only []
          split
          · exact h2
          · have h3 := h2.trans (persist_step env c2 (JsPassword.text pw))
            rcases hp3 : persistAllKeyrings env c2 (JsPassword.text pw) with ⟨r3, c3⟩
            rw [hp3] at h3
            cases r3 with
            | error e => exact h3
            | ok u3 => exact h3
  | undefined => exact SessionStep.rfl c
  | null => exact SessionStep.rfl c
  | boolean b => exact SessionStep.rfl c
  | number n => exact SessionStep.rfl c

theorem addNewAccount_step (env : Env K O D C) (c : Controller K C) (selected : Nat) :
    SessionStep c (addNewAccount env c selected).2 := by
  simp only [addNewAccount]
  cases c.keyrings.get? selected with
  | none => exact SessionStep.rfl c
  | some selectedKeyring =>
    simp only []
    cases env.addAccounts selectedKeyring 1 with
    | error e => exact SessionStep.rfl c
    | ok added =>
      obtain ⟨accounts, keyring1⟩ := added
      simp only []
      have h0 : SessionStep c ({ c with keyrings := c.keyrings.set selected keyring1 }) :=
        Or.inl ⟨rfl, rfl⟩
      have h := h0.trans (persist_step env
        ({ c with keyrings := c.keyrings.set selected keyring1 }) JsPassword.undefined)
      rcases hp : persistAllKeyrings env
        ({ c with keyrings := c.keyrings.set selected keyring1 }) JsPassword.undefined
        with ⟨r, c2⟩
      rw [hp] at h
      cases r with
      | error e => exact h
      | ok u => exact h

theorem removeAccount_step (env : Env K O D C) (c : Controller K C) (address : String) :
    SessionStep c (removeAccount env c address).2 := by
  simp only [removeAccount]
  cases getKeyringForAccount env c address with
  | error e => exact SessionStep.rfl c
  | ok found =>
    obtain ⟨i, keyring⟩ := found
    simp only []
    cases env.removeAccount keyring with
    | none => exact SessionStep.rfl c
    | some remove =>
      simp only []
      cases remove address with
      | error e => exact SessionStep.rfl c
      | ok keyring1 =>
        simp only []
        by_cases hlen : (env.getAccounts keyring1).length = 0
        · simp only [hlen, if_true]
          have h0 : SessionStep c
              (removeEmptyKeyrings env { c with keyrings := c.keyrings.set i keyring1 }) :=
            Or.inl ⟨rfl, rfl⟩
          have h := h0.trans (persist_step env
            (removeEmptyKeyrings env { c with keyrings := c.keyrings.set i keyring1 })
            JsPassword.undefined)
          rcases hp : persistAllKeyrings env
            (removeEmptyKeyrings env { c with keyrings := c.keyrings.set i keyring1 })
            JsPassword.undefined with ⟨r, c2⟩
          rw [hp] at h
          cases r with
          | error e => exact h
          | ok u => exact h
        · simp only [hlen, if_false]
          have h0 : SessionStep c ({ c with keyrings := c.keyrings.set i keyring1 }) :=
            Or.inl ⟨rfl, rfl⟩
          have h := h0.trans (persist_step env
            ({ c with keyrings := c.keyrings.set i keyring1 }) (JsPassword.boolean false))
          rcases hp : persistAllKeyrings env
            ({ c with keyrings := c.keyrings.set i keyring1 }) (JsPassword.boolean false)
            with ⟨r, c2⟩
          rw [hp] at h
          cases r with
          | error e => exact h
          | ok u => exact h

theorem settleRestores_session (env : Env K O D C) (c : Controller K C)
    (started : List (Except Err K)) :
    (settleRestores env c started).password = c.password
      ∧ (settleRestores env c started).memStore.isUnlocked = c.memStore.isUnlocked
      ∧ (settleRestores env c started).vault = c.vault := by
  induction started generalizing c with
  | nil => exact ⟨rfl, rfl, rfl⟩
  | cons s rest ih =>
    cases s with
    | error e => simpa [settleRestores] using ih c
    | ok keyring =>
      simp only [settleRestores]
      exact ih _

theorem settle_opened (env : Env K O D C) (c c2 : Controller K C)
    (started : List (Except Err K)) (htext : c2.password.isText = true)
    (hu : c2.memStore.isUnlocked = true) :
    SessionStep c (settleRestores env c2 started) := by
  have hs := settleRestores_session env c2 started
  exact Or.inr ⟨by rw [hs.1]; exact htext, by rw [hs.2.1]; exact hu⟩

theorem unlockKeyrings_step (env : Env K O D C) (c : Controller K C) (password : JsPassword)
    (htext : password.isText = true) : SessionStep c (unlockKeyrings env c password).2 := by
  simp only [unlockKeyrings]
  cases c.vault with
  | none => exact SessionStep.rfl c
  | some blob =>
    simp only []
    by_cases hf : env.blobFalsy blob = true
    · simp only [hf, if_true]; exact SessionStep.rfl c
    · have hf2 : env.blobFalsy blob = false := by simpa using hf
      simp only [hf2, Bool.false_eq_true, if_false]
      cases env.decrypt password blob with
      | none => exact Or.inl ⟨rfl, rfl⟩
      | some vault =>
        simp only []
        cases (startRestores env vault).2 with
        | some e =>
          apply settle_opened
          · exact htext
          · rfl
        | none =>
          simp only []
          cases firstRejection (startRestores env vault).1 with
          | some e =>
            apply settle_opened
            · exact htext
            · rfl
          | none =>
            apply settle_opened
            · exact htext
            · rfl

theorem submitPassword_step (env : Env K O D C) (c : Controller K C) (password : JsPassword)
    (htext : password.isText = true) : SessionStep c (submitPassword env c password).2 := by
  have h := unlockKeyrings_step env c password htext
  simp only [submitPassword]
  rcases hp : unlockKeyrings env c password with ⟨r, c1⟩
  rw [hp] at h
  cases r with
  | error e => exact h
  | ok keyrings =>
    rcases h with ⟨h1, h2⟩ | ⟨h1, h2⟩
    · exact Or.inl ⟨h1, h2⟩
    · exact Or.inr ⟨h1, h2⟩

theorem step_session (env : Env K O D C) (c : Controller K C) (op : Op O)
    (htext : op.submitsText = true) (hi : PasswordIffUnlocked c) :
    PasswordIffUnlocked (step env c op) := by
  cases op with
  | createNewVaultAndKeychain password =>
    exact (createNewVaultAndKeychain_step env c password).preserves hi
  | createNewVaultAndRestore password seed =>
    exact (createNewVaultAndRestore_step env c password seed).preserves hi
  | setLocked => simp [step, exec, setLocked, updateMemStoreKeyrings, PasswordIffUnlocked,
      JsPassword.isText]
  | submitPassword password => exact (submitPassword_step env c password htext).preserves hi
  | addNewKeyring type opts => exact (addNewKeyring_step env c type opts).preserves hi
  | addNewAccount selected => exact (addNewAccount_step env c selected).preserves hi
  | removeAccount address => exact (removeAccount_step env c address).preserves hi

theorem run_session (env : Env K O D C) (ops : List (Op O)) (c : Controller K C)
    (htext : ∀ op ∈ ops, op.submitsText = true) (hi : PasswordIffUnlocked c) :
    PasswordIffUnlocked (run env c ops) := by
  induction ops generalizing c with
  | nil => exact hi
  | cons op rest ih =>
    simp only [run, List.foldl_cons]
    exact ih (step env c op) (fun o ho => htext o (List.mem_cons_of_mem _ ho))
      (step_session env c op (htext op (List.mem_cons_self _ _)) hi)

/-- C6 (amended): in every state reached from a fresh controller by a sequence
of public operations, failing ones included, in which every `submitPassword`
call carries a text password, the held password is a text value if and only if
`memStore.isUnlocked` is true. -/
theorem password_text_iff_unlocked (env : Env K O D C) (initVault : Option C)
    (ops : List (Op O)) (htext : ∀ op ∈ ops, op.submitsText = true) :
    (run env (new env initVault) ops).password.isText = true
      ↔ (run env (new env initVault) ops).memStore.isUnlocked = true := by
  apply run_session env ops (new env initVault) htext
  simp [PasswordIffUnlocked, new, JsPassword.isText]

end Session

/-! ## The stored vault after a successful operation -/

section Persisted

variable {K O D C : Type}

theorem persist_ok_of_fst (env : Env K O D C) (c : Controller K C) (arg : JsPassword)
    (u : Unit) (h : (persistAllKeyrings env c arg).1 = Except.ok u) :
    VaultCurrent env (persistAllKeyrings env c arg).2 :=
  (persist_ok_current env c _ arg u (Prod.ext h rfl)).1

theorem addNewKeyring_ok_current (env : Env K O D C) (c : Controller K C) (type : String)
    (opts : Option O) (keyring : K) (h : (addNewKeyring env c type opts).1 = Except.ok keyring) :
    VaultCurrent env (addNewKeyring env c type opts).2 := by
  revert h
  simp only [addNewKeyring]
  cases getKeyringClassForType env type with
  | none => intro h; simp at h
  | some cls =>
    simp only []
    cases cls.construct opts with
    | error e => intro h; simp at h
    | ok keyring =>
      simp only []
      cases checkForDuplicate env c type (env.getAccounts keyring) with
      | error e => intro h; simp at h
      | ok accounts =>
        simp only []
        rcases hp : persistAllKeyrings env ({ c with keyrings := c.keyrings ++ [keyring] })
          JsPassword.undefined with ⟨r, c2⟩
        cases r with
        | error e => intro h; simp at h
        | ok u =>
          intro _
          exact vaultCurrent_updateMemStore env c2 (persist_ok_current env _ c2 _ u hp).1

theorem createNewVaultAndKeychain_ok_current (env : Env K O D C) (c : Controller K C)
    (password : JsPassword) (r : MemStore)
    (h : (createNewVaultAndKeychain env c password).1 = Except.ok r) :
    VaultCurrent env (createNewVaultAndKeychain env c password).2 := by
  revert h
  simp only [createNewVaultAndKeychain]
  rcases persistAllKeyrings env c password with ⟨r1, c1⟩
  cases r1 with
  | error e => intro h; simp at h
  | ok u =>
    simp only []
    rcases createFirstKeyTree env c1 with ⟨r2, c2⟩
    cases r2 with
    | error e => intro h; simp at h
    | ok u2 =>
      simp only []
      rcases hp3 : persistAllKeyrings env c2 password with ⟨r3, c3⟩
      cases r3 with
      | error e => intro h; simp at h
      | ok u3 =>
        intro _
        exact (persist_ok_current env c2 c3 password u3 hp3).1

theorem createNewVaultAndRestore_ok_current (env : Env K O D C) (c : Controller K C)
    (password : JsPassword) (seed : String) (r : MemStore)
    (h : (createNewVaultAndRestore env c password seed).1 = Except.ok r) :
    VaultCurrent env (createNewVaultAndRestore env c password seed).2 := by
  revert h
  cases password with
  | text pw =>
    simp only [createNewVaultAndRestore]
    split
    · intro h; simp at h
    · rcases persistAllKeyrings env (clearKeyrings c) (JsPassword.text pw) with ⟨r1, c1⟩
      cases r1 with
      | error e => intro h; simp at h
      | ok u =>
        simp only []
        rcases addNewKeyring env c1 "HD Key Tree" (some (env.hdOpts (some seed) 1))
          with ⟨r2, c2⟩
        cases r2 with
        | error e => intro h; simp at h
        | ok firstKeyring =>
          simp only []
          split
          · intro h; simp at h
          · rcases hp3 : persistAllKeyrings env c2 (JsPassword.text pw) with ⟨r3, c3⟩
            cases r3 with
            | error e => intro h; simp at h
            | ok u3 =>
              intro _
              exact (persist_ok_current env c2 c3 _ u3 hp3).1
  | undefined => intro h; simp [createNewVaultAndRestore] at h
  | null => intro h; simp [createNewVaultAndRestore] at h
  | boolean b => intro h; simp [createNewVaultAndRestore] at h
  | number n => intro h; simp [createNewVaultAndRestore] at h

theorem addNewAccount_ok_current (env : Env K O D C) (c : Controller K C) (selected : Nat)
    (r : MemStore) (h : (addNewAccount env c selected).1 = Except.ok r) :
    VaultCurrent env (addNewAccount env c selected).2 := by
  revert h
  simp only [addNewAccount]
  cases c.keyrings.get? selected with
  | none => intro h; simp at h
  | some selectedKeyring =>
    simp only []
    cases env.addAccounts selectedKeyring 1 with
    | error e => intro h; simp at h
    | ok added =>
      obtain ⟨accounts, keyring1⟩ := added
      simp only []
      rcases hp : persistAllKeyrings env
        ({ c with keyrings := c.keyrings.set selected keyring1 }) JsPassword.undefined
        with ⟨r1, c2⟩
      cases r1 with
      | error e => intro h; simp at h
      | ok u =>
        intro _
        exact vaultCurrent_updateMemStore env c2 (persist_ok_current env _ c2 _ u hp).1

theorem removeAccount_ok_current (env : Env K O D C) (c : Controller K C) (address : String)
    (r : MemStore) (h : (removeAccount env c address).1 = Except.ok r) :
    VaultCurrent env (removeAccount env c address).2 := by
  revert h
  simp only [removeAccount]
  cases getKeyringForAccount env c address with
  | error e => intro h; simp at h
  | ok found =>
    obtain ⟨i, keyring⟩ := found
    simp only []
    cases env.removeAccount keyring with
    | none => intro h; simp at h
    | some remove =>
      simp only []
      cases remove address with
      | error e => intro h; simp at h
      | ok keyring1 =>
        simp only []
        by_cases hlen : (env.getAccounts keyring1).length = 0
        · simp only [hlen, if_true]
          rcases hp : persistAllKeyrings env
            (removeEmptyKeyrings env { c with keyrings := c.keyrings.set i keyring1 })
            JsPassword.undefined with ⟨r1, c2⟩
          cases r1 with
          | error e => intro h; simp at h
          | ok u =>
            intro _
            exact vaultCurrent_updateMemStore env c2 (persist_ok_current env _ c2 _ u hp).1
        · simp only [hlen, if_false]
          rcases hp : persistAllKeyrings env
            ({ c with keyrings := c.keyrings.set i keyring1 }) (JsPassword.boolean false)
            with ⟨r1, c2⟩
          cases r1 with
          | error e => intro h; simp at h
          | ok u =>
            intro _
            exact vaultCurrent_updateMemStore env c2 (persist_ok_current env _ c2 _ u hp).1

theorem map_ok_inv {α : Type} (r : Except Err α) (h : r.map (fun _ => ()) = Except.ok ()) :
    ∃ v, r = Except.ok v := by
  cases r with
  | error e => simp [Except.map] at h
  | ok v => exact ⟨v, rfl⟩

/-- C4 (amended): whenever `createNewVaultAndKeychain`, `createNewVaultAndRestore`,
`addNewKeyring`, `addNewAccount` or `removeAccount` returns success, from any
controller state, then on return `isUnlocked` is true, the held password is a
text value `pw`, and `store.vault` equals `encrypt(pw, R)` where `R` is the list of
`{type, data: serialize()}` records of the current keyrings list, in order. -/
theorem vault_current_after_success (env : Env K O D C) (c : Controller K C) (op : Op O)
    (hop : op.mutatesSources = true) (hok : (exec env c op).1 = Except.ok ()) :
    (step env c op).memStore.isUnlocked = true
      ∧ ∃ pw, (step env c op).password = JsPassword.text pw
        ∧ (step env c op).vault = some (env.encrypt pw (vaultRecords env (step env c op))) := by
  cases op with
  | createNewVaultAndKeychain password =>
    obtain ⟨v, hv⟩ := map_ok_inv _ hok
    exact createNewVaultAndKeychain_ok_current env c password v hv
  | createNewVaultAndRestore password seed =>
    obtain ⟨v, hv⟩ := map_ok_inv _ hok
    exact createNewVaultAndRestore_ok_current env c password seed v hv
  | setLocked => simp [Op.mutatesSources] at hop
  | submitPassword password => simp [Op.mutatesSources] at hop
  | addNewKeyring type opts =>
    obtain ⟨v, hv⟩ := map_ok_inv _ hok
    exact addNewKeyring_ok_current env c type opts v hv
  | addNewAccount selected =>
    obtain ⟨v, hv⟩ := map_ok_inv _ hok
    exact addNewAccount_ok_current env c selected v hv
  | removeAccount address =>
    obtain ⟨v, hv⟩ := map_ok_inv _ hok
    exact removeAccount_ok_current env c address v hv

end Persisted

/-! ## A locked controller holds no key source -/

section Locked

variable {K O D C : Type}

theorem lockedIsEmpty_of_unlocked (c : Controller K C) (h : c.memStore.isUnlocked = true) :
    LockedIsEmpty c := by
  intro hl
  rw [h] at hl
  exact absurd hl (by decide)

theorem createNewVaultAndKeychain_locked (env : Env K O D C) (c : Controller K C)
    (password : JsPassword) (hi : LockedIsEmpty c) :
    LockedIsEmpty (createNewVaultAndKeychain env c password).2 := by
  simp only [createNewVaultAndKeychain]
  rcases hp : persistAllKeyrings env c password with ⟨r, c1⟩
  cases r with
  | error e =>
    rw [(persist_error_same env c c1 password e hp).1]
    exact hi
  | ok u =>
    simp only []
    have h1 : c1.memStore.isUnlocked = true := (persist_ok_current env c c1 password u hp).1.1
    have h2 := (createFirstKeyTree_step env c1).unlocked h1
    rcases hp2 : createFirstKeyTree env c1 with ⟨r2, c2⟩
    rw [hp2] at h2
    cases r2 with
    | error e => exact lockedIsEmpty_of_unlocked c2 h2
    | ok u2 =>
      simp only []
      have h3 := (persist_step env c2 password).unlocked h2
      rcases hp3 : persistAllKeyrings env c2 password with ⟨r3, c3⟩
      rw [hp3] at h3
      cases r3 with
      | error e => exact lockedIsEmpty_of_unlocked c3 h3
      | ok u3 => exact lockedIsEmpty_of_unlocked c3 h3

theorem createNewVaultAndRestore_locked (env : Env K O D C) (c : Controller K C)
    (password : JsPassword) (seed : String) (hi : LockedIsEmpty c) :
    LockedIsEmpty (createNewVaultAndRestore env c password seed).2 := by
  cases password with
  | text pw =>
    simp only [createNewVaultAndRestore]
    split
    · exact hi
    · rcases hp : persistAllKeyrings env (clearKeyrings c) (JsPassword.text pw) with ⟨r, c1⟩
      have hp0 := persist_text env (clearKeyrings c) pw
      rw [hp] at hp0
      simp only [Prod.mk.injEq] at hp0
      obtain ⟨hr, hc1⟩ := hp0
      have h1 : c1.memStore.isUnlocked = true := by rw [hc1]
      subst hr
      simp only []
      have h2 := (addNewKeyring_step env c1 "HD Key Tree"
        (some (env.hdOpts (some seed) 1))).unlocked h1
      rcases hp2 : addNewKeyring env c1 "HD Key Tree" (some (env.hdOpts (some seed) 1))
        with ⟨r2, c2⟩
      rw [hp2] at h2
      cases r2 with
      | error e => exact lockedIsEmpty_of_unlocked c2 h2
      | ok firstKeyring =>
        simp only []
        split
        · exact lockedIsEmpty_of_unlocked c2 h2
        · have h3 := (persist_step env c2 (JsPassword.text pw)).unlocked h2
          rcases hp3 : persistAllKeyrings env c2 (JsPassword.text pw) with ⟨r3, c3⟩
          rw [hp3] at h3
          cases r3 with
          | error e => exact lockedIsEmpty_of_unlocked c3 h3
          | ok u3 => exact lockedIsEmpty_of_unlocked c3 h3
  | undefined => exact hi
  | null => exact hi
  | boolean b => exact hi
  | number n => exact hi

theorem settle_unlocked (env : Env K O D C) (c2 : Controller K C)
    (started : List (Except Err K)) (hu : c2.memStore.isUnlocked = true) :
    (settleRestores env c2 started).memStore.isUnlocked = true := by
  rw [(settleRestores_session env c2 started).2.1]
  exact hu

theorem submitPassword_locked (env : Env K O D C) (c : Controller K C)
    (password : JsPassword) (hi : LockedIsEmpty c) :
    LockedIsEmpty (submitPassword env c password).2 := by
  simp only [submitPassword, unlockKeyrings]
  cases c.vault with
  | none => exact hi
  | some blob =>
    simp only []
    by_cases hf : env.blobFalsy blob = true
    · simp only [hf, if_true]; exact hi
    · have hf2 : env.blobFalsy blob = false := by simpa using hf
      simp only [hf2, Bool.false_eq_true, if_false]
      cases env.decrypt password blob with
      | none => intro _; rfl
      | some vault =>
        simp only []
        cases (startRestores env vault).2 with
        | some e =>
          apply lockedIsEmpty_of_unlocked
          apply settle_unlocked
          rfl
        | none =>
          simp only []
          cases firstRejection (startRestores env vault).1 with
          | some e =>
            apply lockedIsEmpty_of_unlocked
            apply settle_unlocked
            rfl
          | none =>
            apply lockedIsEmpty_of_unlocked
            apply settle_unlocked
            rfl

theorem addNewAccount_locked (env : Env K O D C) (c : Controller K C) (selected : Nat)
    (hi : LockedIsEmpty c) : LockedIsEmpty (addNewAccount env c selected).2 := by
  by_cases hu : c.memStore.isUnlocked = true
  · exact lockedIsEmpty_of_unlocked _ ((addNewAccount_step env c selected).unlocked hu)
  · have hk : c.keyrings = [] := hi (by simpa using hu)
    simp only [addNewAccount, hk, List.get?_nil]
    exact hi

theorem removeAccount_locked (env : Env K O D C) (c : Controller K C) (address : String)
    (hi : LockedIsEmpty c) : LockedIsEmpty (removeAccount env c address).2 := by
  by_cases hu : c.memStore.isUnlocked = true
  · exact lockedIsEmpty_of_unlocked _ ((removeAccount_step env c address).unlocked hu)
  · have hk : c.keyrings = [] := hi (by simpa using hu)
    have hg : getKeyringForAccount env c address = Except.error Err.noKeyringFound := by
      simp [getKeyringForAccount, hk]
    simp only [removeAccount, hg]
    exact hi

theorem step_locked (env : Env K O D C) (c : Controller K C) (op : Op O)
    (hguard : ∀ type opts, op = Op.addNewKeyring type opts → c.memStore.isUnlocked = true)
    (hi : LockedIsEmpty c) : LockedIsEmpty (step env c op) := by
  cases op with
  | createNewVaultAndKeychain password => exact createNewVaultAndKeychain_locked env c password hi
  | createNewVaultAndRestore password seed =>
    exact createNewVaultAndRestore_locked env c password seed hi
  | setLocked => intro _; rfl
  | submitPassword password => exact submitPassword_locked env c password hi
  | addNewKeyring type opts =>
    exact lockedIsEmpty_of_unlocked _
      ((addNewKeyring_step env c type opts).unlocked (hguard type opts rfl))
  | addNewAccount selected => exact addNewAccount_locked env c selected hi
  | removeAccount address => exact removeAccount_locked env c address hi

theorem run_locked (env : Env K O D C) (ops : List (Op O)) (c : Controller K C)
    (hguard : addsOnlyWhenUnlocked env c ops = true) (hi : LockedIsEmpty c) :
    LockedIsEmpty (run env c ops) := by
  induction ops generalizing c with
  | nil => exact hi
  | cons op rest ih =>
    simp only [addsOnlyWhenUnlocked, Bool.and_eq_true] at hguard
    simp only [run, List.foldl_cons]
    apply ih (step env c op) hguard.2
    apply step_locked env c op _ hi
    intro type opts hop
    subst hop
    exact hguard.1

/-- C5 (amended): in every state reached from a fresh controller by a sequence of
public operations, failing ones included, in which `addNewKeyring` is never
called while `isUnlocked` is false: if `isUnlocked` is false then the keyrings
list is empty, so `getAccounts()` returns no account while the controller is
locked. -/
theorem locked_holds_no_keyring (env : Env K O D C) (initVault : Option C)
    (ops : List (Op O))
    (hguard : addsOnlyWhenUnlocked env (new env initVault) ops = true)
    (hlocked : (run env (new env initVault) ops).memStore.isUnlocked = false) :
    (run env (new env initVault) ops).keyrings = []
      ∧ getAccounts env (run env (new env initVault) ops) = [] := by
  have hk : (run env (new env initVault) ops).keyrings = [] :=
    run_locked env ops (new env initVault) hguard (fun _ => rfl) hlocked
  exact ⟨hk, by simp [getAccounts, hk]⟩

end Locked

/-! ## Duplicate check and account removal -/

section Accounts

variable {K O D C : Type}

theorem checkForDuplicate_other (env : Env K O D C) (c : Controller K C) (type : String)
    (newAccount : List String) (h : type ≠ "Simple Key Pair") :
    checkForDuplicate env c type newAccount = Except.ok newAccount := by
  simp [checkForDuplicate, h]

theorem checkForDuplicate_collides (env : Env K O D C) (c : Controller K C)
    (first : String) (rest : List String)
    (hempty : "" ∉ getAccounts env c)
    (hin : first ∈ getAccounts env c ∨ env.stripHexPrefix first ∈ getAccounts env c) :
    checkForDuplicate env c "Simple Key Pair" (first :: rest)
      = Except.error Err.duplicateAccount := by
  simp only [checkForDuplicate, if_true, List.head?_cons, Option.map_some']
  rcases Option.eq_none_or_eq_some ((getAccounts env c).find? (fun key =>
      some key == some first || some key == some (env.stripHexPrefix first))) with hf | ⟨key, hf⟩
  · rw [List.find?_eq_none] at hf
    rcases hin with h | h
    · exact absurd (by simp) (hf first h)
    · exact absurd (by simp) (hf _ h)
  · have hmem := List.mem_of_find?_eq_some hf
    have hne : key ≠ "" := fun h => hempty (h ▸ hmem)
    have hm : (match (getAccounts env c).find? (fun key =>
          some key == some first || some key == some (env.stripHexPrefix first)) with
        | none => true
        | some key => key == "") = false := by
      rw [hf]
      simp [hne]
    simp only [hm, Bool.false_eq_true, if_false]

theorem checkForDuplicate_passes (env : Env K O D C) (c : Controller K C)
    (newAccount : List String)
    (hout : ∀ first, newAccount.head? = some first →
      first ∉ getAccounts env c ∧ env.stripHexPrefix first ∉ getAccounts env c) :
    checkForDuplicate env c "Simple Key Pair" newAccount = Except.ok newAccount := by
  simp only [checkForDuplicate, if_true]
  have hf : (getAccounts env c).find? (fun key =>
      some key == newAccount.head? || some key == newAccount.head?.map env.stripHexPrefix)
      = none := by
    rw [List.find?_eq_none]
    intro key hkey
    cases hh : newAccount.head? with
    | none => simp
    | some first =>
      obtain ⟨h1, h2⟩ := hout first hh
      have e1 : key ≠ first := fun e => h1 (e ▸ hkey)
      have e2 : key ≠ env.stripHexPrefix first := fun e => h2 (e ▸ hkey)
      simp [e1, e2]
  simp [hf]

/-- C9 (amended): for a 'Simple Key Pair' source being added with
`addNewKeyring`, if the first account of the new source equals, as it is or
with its hex prefix stripped, an account listed by `getAccounts()` (none of
which is the empty string), the add fails with the duplicate-account error and
the controller state is unchanged; if the first account, when there is one,
equals no listed account in either form, the duplicate check passes whatever
the other accounts of the new source are; a source of any other kind never
fails the duplicate check. -/
theorem simple_first_account_duplicate (env : Env K O D C) (c : Controller K C) :
    (∀ opts cls keyring first rest,
        getKeyringClassForType env "Simple Key Pair" = some cls →
        cls.construct opts = Except.ok keyring →
        env.getAccounts keyring = first :: rest →
        "" ∉ getAccounts env c →
        (first ∈ getAccounts env c ∨ env.stripHexPrefix first ∈ getAccounts env c) →
        addNewKeyring env c "Simple Key Pair" opts = (Except.error Err.duplicateAccount, c))
      ∧ (∀ newAccount,
          (∀ first, newAccount.head? = some first →
            first ∉ getAccounts env c ∧ env.stripHexPrefix first ∉ getAccounts env c) →
          checkForDuplicate env c "Simple Key Pair" newAccount = Except.ok newAccount)
      ∧ (∀ type newAccount, type ≠ "Simple Key Pair" →
          checkForDuplicate env c type newAccount = Except.ok newAccount) := by
  refine ⟨?_, checkForDuplicate_passes env c, checkForDuplicate_other env c⟩
  intro opts cls keyring first rest hcls hnew hacc hempty hin
  simp only [addNewKeyring, hcls, hnew, hacc,
    checkForDuplicate_collides env c first rest hempty hin]

theorem removeAccount_remaining (env : Env K O D C) (c : Controller K C) (address : String)
    (i : Nat) (keyring keyring1 : K) (remove : String → Except Err K)
    (hfind : getKeyringForAccount env c address = Except.ok (i, keyring))
    (hrm : env.removeAccount keyring = some remove)
    (hok : remove address = Except.ok keyring1)
    (hrest : (env.getAccounts keyring1).length ≠ 0) :
    removeAccount env c address
      = (Except.error Err.passwordNotString,
          { c with keyrings := c.keyrings.set i keyring1 }) := by
  simp [removeAccount, hfind, hrm, hok, hrest, persistAllKeyrings]

end Accounts

/-! ## Evaluations on the sample environment -/

section Evaluations

open Sample

/-- Witness for C1: the sample controller restores the mnemonic "seed" under
the password "pw", locks, unlocks, and lists the same accounts. -/
theorem restore_lock_unlock_same_accounts_witness :
    ∃ r1 c1 r3 c3,
      createNewVaultAndRestore env fresh (JsPassword.text "pw") "seed" = (Except.ok r1, c1)
        ∧ submitPassword env (setLocked env c1).2 (JsPassword.text "pw") = (Except.ok r3, c3)
        ∧ getAccounts env c3 = getAccounts env c1
        ∧ getAccounts env c1
            = (env.getAccounts { type := "HD Key Tree", accounts := ["0xseed"] }).map
                env.normalizeAddress :=
  restore_lock_unlock_same_accounts env fresh "pw" "seed" hdClass
    { type := "HD Key Tree", accounts := ["0xseed"] }
    (by decide) rfl rfl (by decide)
    (fun _ => rfl) (fun records => by simp [env, keyText])
    ⟨{ type := "HD Key Tree", accounts := ["0xseed"] }, rfl, rfl⟩

/-- Counterexample to C3: on the unlocked sample controller, which holds one
key source, `submitPassword` with a wrong password fails and the keyrings list
is no longer what it was. -/
theorem submitPassword_failure_clears_keyrings :
    (submitPassword env restored (JsPassword.text "bad")).1 = Except.error Err.decryptFailed
      ∧ restored.keyrings = [{ type := "HD Key Tree", accounts := ["0xseed"] }]
      ∧ (submitPassword env restored (JsPassword.text "bad")).2.keyrings = []
      ∧ (submitPassword env restored (JsPassword.text "bad")).2.keyrings ≠ restored.keyrings := by
  refine ⟨rfl, by decide, by decide, by decide⟩

/-- Witness for C3: on the locked sample controller a wrong password is
rejected by `decrypt` and the controller state is unchanged. -/
theorem submitPassword_failure_state_witness :
    submitPassword env (setLocked env restored).2 (JsPassword.text "bad")
        = (Except.error Err.decryptFailed, clearKeyrings (setLocked env restored).2)
      ∧ clearKeyrings (setLocked env restored).2 = (setLocked env restored).2 := by
  have h := (submitPassword_failure_state env (setLocked env restored).2
    (JsPassword.text "bad")).2 ("pw", [{ type := "HD Key Tree", data := ["0xseed"] }])
    (by decide) (by decide) (by decide)
  exact ⟨h.1, h.2.2.2.2.2 (by decide) (by decide)⟩

/-- Counterexample to C4: after a vault is restored and a wrong password is then
submitted, the controller is unlocked under the password "pw" with an empty
keyrings list, and the stored vault is not the encryption of that list. -/
theorem stale_vault_after_failed_unlock :
    (run env fresh [Op.createNewVaultAndRestore (JsPassword.text "pw") "seed",
        Op.submitPassword (JsPassword.text "bad")]).memStore.isUnlocked = true
      ∧ (run env fresh [Op.createNewVaultAndRestore (JsPassword.text "pw") "seed",
          Op.submitPassword (JsPassword.text "bad")]).password = JsPassword.text "pw"
      ∧ (run env fresh [Op.createNewVaultAndRestore (JsPassword.text "pw") "seed",
          Op.submitPassword (JsPassword.text "bad")]).vault
        ≠ some (env.encrypt "pw" (vaultRecords env
            (run env fresh [Op.createNewVaultAndRestore (JsPassword.text "pw") "seed",
              Op.submitPassword (JsPassword.text "bad")]))) := by
  refine ⟨by decide, by decide, by decide⟩

/-- Witness for C4: importing a simple key source into the restored sample
controller succeeds and leaves the vault current. -/
theorem vault_current_after_success_witness :
    withSimple.memStore.isUnlocked = true
      ∧ ∃ pw, withSimple.password = JsPassword.text pw
        ∧ withSimple.vault = some (env.encrypt pw (vaultRecords env withSimple)) :=
  vault_current_after_success env restored
    (Op.addNewKeyring "Simple Key Pair" (some (Opts.keys ["0xa", "0xb"]))) rfl rfl

/-- Counterexample to C5: `addNewKeyring` on a fresh controller fails, yet the
controller is then locked while holding a key source whose account
`getAccounts()` returns. -/
theorem locked_controller_holds_keyring :
    (exec env fresh (Op.addNewKeyring "Simple Key Pair" (some (Opts.keys ["0xa"])))).1
        = Except.error Err.passwordNotString
      ∧ (run env fresh
          [Op.addNewKeyring "Simple Key Pair" (some (Opts.keys ["0xa"]))]).memStore.isUnlocked
        = false
      ∧ (run env fresh
          [Op.addNewKeyring "Simple Key Pair" (some (Opts.keys ["0xa"]))]).keyrings
        = [{ type := "Simple Key Pair", accounts := ["0xa"] }]
      ∧ getAccounts env (run env fresh
          [Op.addNewKeyring "Simple Key Pair" (some (Opts.keys ["0xa"]))]) = ["0xa"] := by
  refine ⟨rfl, by decide, by decide, by decide⟩

/-- Witness for C5: restore, import a simple key source, lock. -/
theorem locked_holds_no_keyring_witness :
    (run env (new env none) [Op.createNewVaultAndRestore (JsPassword.text "pw") "seed",
        Op.addNewKeyring "Simple Key Pair" (some (Opts.keys ["0xa", "0xb"])),
        Op.setLocked]).keyrings = []
      ∧ getAccounts env (run env (new env none)
          [Op.createNewVaultAndRestore (JsPassword.text "pw") "seed",
            Op.addNewKeyring "Simple Key Pair" (some (Opts.keys ["0xa", "0xb"])),
            Op.setLocked]) = [] :=
  locked_holds_no_keyring env none
    [Op.createNewVaultAndRestore (JsPassword.text "pw") "seed",
      Op.addNewKeyring "Simple Key Pair" (some (Opts.keys ["0xa", "0xb"])),
      Op.setLocked] (by decide) (by decide)

/-- Counterexample to C6: the vault is created under the text password "7" and
then unlocked with the number 7, which the sample encryptor accepts; the
controller is unlocked and the held password is not a text value. -/
theorem unlocked_with_number_password :
    (run env fresh [Op.createNewVaultAndRestore (JsPassword.text "7") "seed",
        Op.submitPassword (JsPassword.number 7)]).memStore.isUnlocked = true
      ∧ (run env fresh [Op.createNewVaultAndRestore (JsPassword.text "7") "seed",
          Op.submitPassword (JsPassword.number 7)]).password = JsPassword.number 7
      ∧ (run env fresh [Op.createNewVaultAndRestore (JsPassword.text "7") "seed",
          Op.submitPassword (JsPassword.number 7)]).password.isText = false := by
  refine ⟨by decide, by decide, by decide⟩

/-- Witness for C6: restore, lock, unlock with the text password. -/
theorem password_text_iff_unlocked_witness :
    (run env (new env none) [Op.createNewVaultAndRestore (JsPassword.text "pw") "seed",
        Op.setLocked, Op.submitPassword (JsPassword.text "pw")]).password.isText = true
      ↔ (run env (new env none) [Op.createNewVaultAndRestore (JsPassword.text "pw") "seed",
          Op.setLocked, Op.submitPassword (JsPassword.text "pw")]).memStore.isUnlocked = true :=
  password_text_iff_unlocked env none
    [Op.createNewVaultAndRestore (JsPassword.text "pw") "seed",
      Op.setLocked, Op.submitPassword (JsPassword.text "pw")]
    (by simp [Op.submitsText, JsPassword.isText])

/-- Counterexample to C9: the sample controller already holds the account 0xa;
adding a 'Simple Key Pair' source whose accounts are 0xc and 0xa succeeds and
the keyrings list grows. -/
theorem simple_second_account_not_checked :
    "0xa" ∈ getAccounts env withSimple
      ∧ (addNewKeyring env withSimple "Simple Key Pair" (some (Opts.keys ["0xc", "0xa"]))).1
        = Except.ok { type := "Simple Key Pair", accounts := ["0xc", "0xa"] }
      ∧ (addNewKeyring env withSimple "Simple Key Pair"
          (some (Opts.keys ["0xc", "0xa"]))).2.keyrings
        = withSimple.keyrings ++ [{ type := "Simple Key Pair", accounts := ["0xc", "0xa"] }] := by
  refine ⟨by decide, rfl, by decide⟩

/-- Witness for C9: adding a 'Simple Key Pair' source whose first account 0xa is
already held fails with the duplicate-account error and changes nothing. -/
theorem simple_first_account_duplicate_witness :
    addNewKeyring env withSimple "Simple Key Pair" (some (Opts.keys ["0xa", "0xc"]))
      = (Except.error Err.duplicateAccount, withSimple) :=
  (simple_first_account_duplicate env withSimple).1 (some (Opts.keys ["0xa", "0xc"]))
    simpleClass { type := "Simple Key Pair", accounts := ["0xa", "0xc"] } "0xa" ["0xc"]
    rfl rfl rfl (by decide) (Or.inl (by decide))

/-- C10: on the unlocked sample controller, whose simple key source owns 0xa
and 0xb and supports removal, `removeAccount("0xa")` removes the account from
the source but rejects with 'KeyringController - password is not a string';
the stored vault is the one from before the call, not the encryption of the
updated sources. -/
theorem removeAccount_with_remaining_accounts_rejects :
    withSimple.memStore.isUnlocked = true
      ∧ getAccounts env withSimple = ["0xseed", "0xa", "0xb"]
      ∧ (removeAccount env withSimple "0xa").1 = Except.error Err.passwordNotString
      ∧ getAccounts env (removeAccount env withSimple "0xa").2 = ["0xseed", "0xb"]
      ∧ (removeAccount env withSimple "0xa").2.vault = withSimple.vault
      ∧ (removeAccount env withSimple "0xa").2.vault
        ≠ some (env.encrypt "pw" (vaultRecords env (removeAccount env withSimple "0xa").2)) := by
  refine ⟨by decide, by decide, rfl, by decide, by decide, by decide⟩

end Evaluations

/-! ## Emptied sources, unknown kinds and vault creation -/

section Creation

variable {K O D C : Type}

theorem filter_set_eq_eraseIdx (p : K → Bool) (x : K) (hx : p x = false) (l : List K) (i : Nat) :
    (l.set i x).filter p = (l.eraseIdx i).filter p := by
  induction l generalizing i with
  | nil => simp
  | cons a rest ih =>
    cases i with
    | zero => simp [List.filter_cons, hx]
    | succ j => simp [List.filter_cons, ih j]

theorem persist_keyrings (env : Env K O D C) (c : Controller K C) (arg : JsPassword) :
    (persistAllKeyrings env c arg).2.keyrings = c.keyrings := by
  rcases persist_cases env c arg with ⟨pw, hp, _⟩ | ⟨hp, _⟩ <;> rw [hp]

theorem removeAccount_emptied (env : Env K O D C) (c : Controller K C) (address : String)
    (i : Nat) (keyring keyring1 : K) (remove : String → Except Err K)
    (hfind : getKeyringForAccount env c address = Except.ok (i, keyring))
    (hrm : env.removeAccount keyring = some remove)
    (hok : remove address = Except.ok keyring1)
    (hempty : env.getAccounts keyring1 = []) :
    (removeAccount env c address).2.keyrings
      = (c.keyrings.eraseIdx i).filter (fun k => decide ((env.getAccounts k).length > 0)) := by
  have hx : (fun k => decide ((env.getAccounts k).length > 0)) keyring1 = false := by
    simp [hempty]
  have hset := filter_set_eq_eraseIdx (fun k => decide ((env.getAccounts k).length > 0))
    keyring1 hx c.keyrings i
  have hk := persist_keyrings env
    (removeEmptyKeyrings env { c with keyrings := c.keyrings.set i keyring1 })
    JsPassword.undefined
  simp only [removeAccount, hfind, hrm, hok, hempty, List.length_nil, if_true]
  rcases hp : persistAllKeyrings env
    (removeEmptyKeyrings env { c with keyrings := c.keyrings.set i keyring1 })
    JsPassword.undefined with ⟨r, c2⟩
  rw [hp] at hk
  cases r with
  | error e => exact hk.trans hset
  | ok u => exact hk.trans hset

/-- C11: `removeEmptyKeyrings()` leaves in the keyrings list exactly the sources
whose account list is non-empty, in their previous relative order, and changes
nothing else; after `removeAccount` has removed the only account of a source,
the keyrings list is the previous list without that source, restricted to the
non-empty sources, in order. -/
theorem removeEmptyKeyrings_keeps_nonempty (env : Env K O D C) (c : Controller K C) :
    (removeEmptyKeyrings env c).keyrings
        = c.keyrings.filter (fun k => decide (env.getAccounts k ≠ []))
      ∧ (∀ k, k ∈ (removeEmptyKeyrings env c).keyrings ↔ k ∈ c.keyrings ∧ env.getAccounts k ≠ [])
      ∧ List.Sublist (removeEmptyKeyrings env c).keyrings c.keyrings
      ∧ (removeEmptyKeyrings env c).vault = c.vault
      ∧ (removeEmptyKeyrings env c).password = c.password
      ∧ (removeEmptyKeyrings env c).memStore = c.memStore
      ∧ (∀ address i keyring keyring1 remove,
          getKeyringForAccount env c address = Except.ok (i, keyring) →
          env.removeAccount keyring = some remove →
          remove address = Except.ok keyring1 →
          env.getAccounts keyring1 = [] →
          (removeAccount env c address).2.keyrings
            = (c.keyrings.eraseIdx i).filter (fun k => decide (env.getAccounts k ≠ []))) := by
  have hfun : (fun k : K => decide ((env.getAccounts k).length > 0))
      = (fun k => decide (env.getAccounts k ≠ [])) := by
    funext k
    cases env.getAccounts k <;> simp
  refine ⟨?_, ?_, ?_, rfl, rfl, rfl, ?_⟩
  · simp only [removeEmptyKeyrings, hfun]
  · intro k
    simp only [removeEmptyKeyrings, hfun, List.mem_filter, decide_eq_true_eq]
  · simp only [removeEmptyKeyrings]
    exact List.filter_sublist _
  · intro address i keyring keyring1 remove hfind hrm hok hempty
    rw [removeAccount_emptied env c address i keyring keyring1 remove hfind hrm hok hempty, hfun]

/-- C12: for every kind that is not the type of a registered key-source class,
`addNewKeyring(kind, opts)` fails with an error, the TypeError of calling `new`
on the missing class, and the controller state (keyrings list, held password,
`memStore`, stored vault) is unchanged. -/
theorem addNewKeyring_unknown_kind (env : Env K O D C) (c : Controller K C) (kind : String)
    (opts : Option O) (hkind : ∀ cls ∈ env.keyringTypes, cls.type ≠ kind) :
    addNewKeyring env c kind opts = (Except.error Err.typeError, c) := by
  have hnone : getKeyringClassForType env kind = none := by
    simp only [getKeyringClassForType, List.find?_eq_none]
    intro cls hcls
    simpa using hkind cls hcls
  simp only [addNewKeyring, hnone]

theorem createNewVaultAndRestore_rejects (env : Env K O D C) (c : Controller K C)
    (password : JsPassword) (seed : String) :
    (password.isText = false →
        createNewVaultAndRestore env c password seed = (Except.error Err.passwordMustBeText, c))
      ∧ (password.isText = true → env.validateMnemonic seed = false →
          createNewVaultAndRestore env c password seed
            = (Except.error Err.seedPhraseInvalid, c)) := by
  cases password <;> simp [createNewVaultAndRestore, JsPassword.isText]
  intro h
  simp [h]

theorem createNewVaultAndKeychain_rejects (env : Env K O D C) (c : Controller K C)
    (password : JsPassword) (htext : password.isText = false)
    (hdefault : password = JsPassword.undefined → c.password.isText = false) :
    createNewVaultAndKeychain env c password = (Except.error Err.passwordNotString, c) := by
  rcases persist_cases env c password with ⟨pw, _, h | ⟨h1, h2⟩⟩ | ⟨hp, _⟩
  · rw [h] at htext; simp [JsPassword.isText] at htext
  · have := hdefault h1
    rw [h2] at this
    simp [JsPassword.isText] at this
  · simp only [createNewVaultAndKeychain, hp]

theorem createNewVaultAndKeychain_text (env : Env K O D C) (c : Controller K C) (pw : String)
    (r : MemStore)
    (h : (createNewVaultAndKeychain env c (JsPassword.text pw)).1 = Except.ok r) :
    ∃ cls keyring,
      getKeyringClassForType env "HD Key Tree" = some cls
        ∧ cls.construct (some (env.hdOpts none 1)) = Except.ok keyring
        ∧ firstAccountMissing (env.getAccounts keyring) = false
        ∧ (createNewVaultAndKeychain env c (JsPassword.text pw)).2
          = { vault := some (env.encrypt pw
                [{ type := env.typeOf keyring, data := env.serialize keyring }])
              memStore :=
                { isUnlocked := true, keyringTypes := c.memStore.keyringTypes,
                  keyrings := [displayForKeyring env keyring] }
              password := JsPassword.text pw
              keyrings := [keyring] } := by
  have hne : ("HD Key Tree" = "Simple Key Pair") = False := by decide
  revert h
  simp only [createNewVaultAndKeychain, persist_text, createFirstKeyTree, addNewKeyring]
  cases hcls : getKeyringClassForType env "HD Key Tree" with
  | none => intro h; simp at h
  | some cls =>
    simp only []
    cases hnew : cls.construct (some (env.hdOpts none 1)) with
    | error e => intro h; simp at h
    | ok keyring =>
      simp only [checkForDuplicate, hne, if_false]
      cases hfirst : firstAccountMissing (env.getAccounts keyring) with
      | true =>
        intro h
        simp [persistAllKeyrings, clearKeyrings, hfirst] at h
      | false =>
        intro _
        refine ⟨cls, keyring, rfl, hnew, hfirst, ?_⟩
        simp [persistAllKeyrings, clearKeyrings, updateMemStoreKeyrings, vaultRecords, hfirst]

/-- C14: from every controller state, a successful `createNewVaultAndKeychain`
with the text password `pw` ends with the keyrings list holding exactly one
source, the one newly constructed by the class registered as 'HD Key Tree', with
at least one account; `isUnlocked` is true, the held password is `pw`, and no
previously active source remains. -/
theorem createNewVaultAndKeychain_single_hd (env : Env K O D C) (c : Controller K C)
    (pw : String) (r : MemStore)
    (h : (createNewVaultAndKeychain env c (JsPassword.text pw)).1 = Except.ok r) :
    ∃ cls keyring,
      getKeyringClassForType env "HD Key Tree" = some cls
        ∧ cls.type = "HD Key Tree"
        ∧ cls.construct (some (env.hdOpts none 1)) = Except.ok keyring
        ∧ (createNewVaultAndKeychain env c (JsPassword.text pw)).2.keyrings = [keyring]
        ∧ 1 ≤ (env.getAccounts keyring).length
        ∧ (createNewVaultAndKeychain env c (JsPassword.text pw)).2.memStore.isUnlocked = true
        ∧ (createNewVaultAndKeychain env c (JsPassword.text pw)).2.password = JsPassword.text pw
        ∧ (createNewVaultAndKeychain env c (JsPassword.text pw)).2.memStore.keyrings
          = [displayForKeyring env keyring] := by
  obtain ⟨cls, keyring, hcls, hnew, hfirst, hstate⟩ :=
    createNewVaultAndKeychain_text env c pw r h
  refine ⟨cls, keyring, hcls, ?_, hnew, ?_, ?_, ?_, ?_, ?_⟩
  · have := List.find?_some hcls
    simpa using this
  · rw [hstate]
  · cases hacc : env.getAccounts keyring with
    | nil => simp [firstAccountMissing, hacc] at hfirst
    | cons a rest => simp
  · rw [hstate]
  · rw [hstate]
  · rw [hstate]

end Creation

/-! ## Evaluations on the sample environment, continued -/

section MoreEvaluations

open Sample

/-- Witness for C11: removing the only account of the simple key source of the
sample controller drops that source and keeps the HD source. -/
theorem removeEmptyKeyrings_keeps_nonempty_witness :
    (removeAccount env withSingle "0xc").2.keyrings
        = (withSingle.keyrings.eraseIdx 1).filter
            (fun k => decide (env.getAccounts k ≠ []))
      ∧ (removeAccount env withSingle "0xc").2.keyrings
        = [{ type := "HD Key Tree", accounts := ["0xseed"] }] :=
  ⟨(removeEmptyKeyrings_keeps_nonempty env withSingle).2.2.2.2.2.2 "0xc" 1
      { type := "Simple Key Pair", accounts := ["0xc"] }
      { type := "Simple Key Pair", accounts := [] }
      (fun address =>
        if ["0xc"].contains address then
          Except.ok { type := "Simple Key Pair", accounts := ["0xc"].filter (fun a => a != address) }
        else Except.error (Err.keyring "not found in this keyring"))
      rfl rfl rfl rfl,
    by decide⟩

/-- Witness for C12: the sample environment registers no class of kind 'Ledger
Hardware'. -/
theorem addNewKeyring_unknown_kind_witness :
    addNewKeyring env restored "Ledger Hardware" none = (Except.error Err.typeError, restored) :=
  addNewKeyring_unknown_kind env restored "Ledger Hardware" none (by decide)

/-- C13: on the unlocked sample controller, holding the password "pw" and two
key sources, `createNewVaultAndKeychain(undefined)` does not fail:
`persistAllKeyrings` takes the held password for the `undefined` argument, the
previous key sources are dropped and a new vault is stored. -/
theorem createNewVaultAndKeychain_undefined_succeeds :
    withSimple.password = JsPassword.text "pw"
      ∧ withSimple.keyrings
        = [{ type := "HD Key Tree", accounts := ["0xseed"] },
            { type := "Simple Key Pair", accounts := ["0xa", "0xb"] }]
      ∧ (createNewVaultAndKeychain env withSimple JsPassword.undefined).1.isOk = true
      ∧ (createNewVaultAndKeychain env withSimple JsPassword.undefined).2.keyrings
        = [{ type := "HD Key Tree", accounts := ["0xfresh"] }]
      ∧ (createNewVaultAndKeychain env withSimple JsPassword.undefined).2.vault
        ≠ withSimple.vault := by
  refine ⟨by decide, by decide, rfl, by decide, by decide⟩

/-- Witness for C14: `createNewVaultAndKeychain("pw")` on the sample controller
that already holds two key sources. -/
theorem createNewVaultAndKeychain_single_hd_witness :
    ∃ cls keyring,
      getKeyringClassForType env "HD Key Tree" = some cls
        ∧ cls.type = "HD Key Tree"
        ∧ cls.construct (some (env.hdOpts none 1)) = Except.ok keyring
        ∧ (createNewVaultAndKeychain env withSimple (JsPassword.text "pw")).2.keyrings = [keyring]
        ∧ 1 ≤ (env.getAccounts keyring).length
        ∧ (createNewVaultAndKeychain env withSimple (JsPassword.text "pw")).2.memStore.isUnlocked
          = true
        ∧ (createNewVaultAndKeychain env withSimple (JsPassword.text "pw")).2.password
          = JsPassword.text "pw"
        ∧ (createNewVaultAndKeychain env withSimple (JsPassword.text "pw")).2.memStore.keyrings
          = [displayForKeyring env keyring] :=
  createNewVaultAndKeychain_single_hd env withSimple "pw"
    { isUnlocked := true, keyringTypes := ["Simple Key Pair", "HD Key Tree"],
      keyrings := [{ type := "HD Key Tree", accounts := ["0xfresh"] }] } rfl

end MoreEvaluations

/-! ## The gas buffer -/

section Gas

variable {K C : Type}

theorem digitValue_digitChar (k : Nat) (hk : k < 16) :
    BN.digitValue (Nat.digitChar k) = k ∧ isHexDigit (Nat.digitChar k) = true := by
  interval_cases k <;> exact ⟨by decide, by decide⟩

theorem digitValue_hex (c : Char) (h : isHexDigit c = true) :
    BN.digitValue c = hexDigitValue c ∧ c ≠ 'x' := by
  simp only [isHexDigit, List.mem_cons, List.mem_singleton, List.not_mem_nil, or_false,
    decide_eq_true_eq] at h
  rcases h with h | h | h | h | h | h | h | h | h | h | h | h | h | h | h | h | h | h | h | h
    | h | h <;> subst h <;> exact ⟨by decide, by decide⟩

theorem foldl_eq_ofDigits (cs : List Char) :
    cs.foldl (fun acc c => acc * 16 + hexDigitValue c) 0
      = Nat.ofDigits 16 (cs.map hexDigitValue).reverse := by
  induction cs using List.reverseRecOn with
  | nil => simp
  | append_singleton cs c ih =>
    simp only [List.foldl_append, List.foldl_cons, List.foldl_nil, List.map_append,
      List.map_cons, List.map_nil, List.reverse_append, List.reverse_cons, List.reverse_nil,
      List.nil_append, List.singleton_append, Nat.ofDigits_cons, ih]
    ring

theorem foldl_digitValue_congr (cs : List Char) (h : ∀ c ∈ cs, isHexDigit c = true) (a : Nat) :
    cs.foldl (fun acc c => acc * 16 + BN.digitValue c) a
      = cs.foldl (fun acc c => acc * 16 + hexDigitValue c) a := by
  induction cs generalizing a with
  | nil => rfl
  | cons c rest ih =>
    simp only [List.foldl_cons]
    rw [(digitValue_hex c (h c (List.mem_cons_self _ _))).1]
    exact ih (fun d hd => h d (List.mem_cons_of_mem _ hd)) _

theorem ofString_hex (h : String) (hh : IsHexText h) : BN.ofString h 16 = hexValue h := by
  unfold BN.ofString hexValue
  rw [foldl_digitValue_congr h.data hh 0, foldl_eq_ofDigits]

theorem toDigitsCore_spec (fuel n : Nat) (ds : List Char) (hn : n < fuel) :
    ∃ pre, Nat.toDigitsCore 16 fuel n ds = pre ++ ds
      ∧ pre.foldl (fun acc c => acc * 16 + BN.digitValue c) 0 = n
      ∧ ∀ c ∈ pre, isHexDigit c = true := by
  induction fuel generalizing n ds with
  | zero => omega
  | succ fuel ih =>
    have hlt : n % 16 < 16 := Nat.mod_lt _ (by decide)
    obtain ⟨hv, hd⟩ := digitValue_digitChar (n % 16) hlt
    by_cases h0 : n / 16 = 0
    · refine ⟨[Nat.digitChar (n % 16)], ?_, ?_, ?_⟩
      · simp [Nat.toDigitsCore, h0]
      · simp only [List.foldl_cons, List.foldl_nil, hv]
        omega
      · intro c hc
        simp only [List.mem_singleton] at hc
        subst hc
        exact hd
    · have hlt2 : n / 16 < fuel := by omega
      obtain ⟨pre, hpre, hval, hall⟩ := ih (n / 16) (Nat.digitChar (n % 16) :: ds) hlt2
      refine ⟨pre ++ [Nat.digitChar (n % 16)], ?_, ?_, ?_⟩
      · simp [Nat.toDigitsCore, h0, hpre]
      · simp only [List.foldl_append, List.foldl_cons, List.foldl_nil, hval, hv]
        omega
      · intro c hc
        simp only [List.mem_append, List.mem_singleton] at hc
        rcases hc with hc | hc
        · exact hall c hc
        · subst hc
          exact hd

theorem toString_hex (n : Nat) :
    IsHexText (BN.toString n 16) ∧ BN.ofString (BN.toString n 16) 16 = n := by
  obtain ⟨pre, hpre, hval, hall⟩ := toDigitsCore_spec (n + 1) n [] (Nat.lt_succ_self n)
  rw [List.append_nil] at hpre
  have hdata : (BN.toString n 16).data = pre := by
    simp only [BN.toString, Nat.toDigits, hpre]
  refine ⟨?_, ?_⟩
  · intro c hc
    rw [hdata] at hc
    exact hall c hc
  · unfold BN.ofString
    rw [hdata]
    exact hval

theorem hex_not_prefixed (h : String) (hh : IsHexText h) : ircUtil.isHexPrefixed h = false := by
  obtain ⟨cs⟩ := h
  unfold ircUtil.isHexPrefixed
  simp only [IsHexText] at hh
  match cs, hh with
  | [], _ => decide
  | [a], _ => simp
  | a :: b :: rest, hh =>
    have hb := (digitValue_hex b (hh b (by simp))).2
    simp [hb]

theorem stripHexPrefix_hex (h : String) (hh : IsHexText h) :
    ircUtil.stripHexPrefix h = h ∧ ircUtil.stripHexPrefix ("0x" ++ h) = h := by
  refine ⟨?_, ?_⟩
  · simp only [ircUtil.stripHexPrefix, hex_not_prefixed h hh, Bool.false_eq_true, if_false]
  · have hd : ("0x" ++ h).data = '0' :: 'x' :: h.data := by
      rw [String.data_append]
      rfl
    simp [ircUtil.stripHexPrefix, ircUtil.isHexPrefixed, hd]

theorem gasBuffer_value : BN.ofString "100000" 10 = 100000 := by decide

/-- C21: for every text `h` of hexadecimal digits, `addGasBuffer(h)` and
`addGasBuffer('0x' + h)` are the text `0x` followed by the hexadecimal digits
of the value of `h` plus 100000; the digits written for a number of any size
are hexadecimal digits and stand for that number, so for every number `n` the
result for the digits of `n` is `0x` followed by the digits of `n + 100000`;
the result is the same on every controller. -/
theorem addGasBuffer_adds_100000 (c : Controller K C) :
    (∀ h : String, IsHexText h →
        addGasBuffer c h = "0x" ++ BN.toString (hexValue h + 100000) 16
          ∧ addGasBuffer c ("0x" ++ h) = "0x" ++ BN.toString (hexValue h + 100000) 16)
      ∧ (∀ n : Nat, IsHexText (BN.toString n 16) ∧ hexValue (BN.toString n 16) = n)
      ∧ (∀ n : Nat,
          addGasBuffer c (BN.toString n 16) = "0x" ++ BN.toString (n + 100000) 16
            ∧ addGasBuffer c ("0x" ++ BN.toString n 16) = "0x" ++ BN.toString (n + 100000) 16)
      ∧ (∀ (c2 : Controller K C) (gas : String), addGasBuffer c gas = addGasBuffer c2 gas) := by
  have hmain : ∀ h : String, IsHexText h →
      addGasBuffer c h = "0x" ++ BN.toString (hexValue h + 100000) 16
        ∧ addGasBuffer c ("0x" ++ h) = "0x" ++ BN.toString (hexValue h + 100000) 16 := by
    intro h hh
    obtain ⟨hs1, hs2⟩ := stripHexPrefix_hex h hh
    have hnp := hex_not_prefixed _ (toString_hex (hexValue h + 100000)).1
    refine ⟨?_, ?_⟩
    · simp only [addGasBuffer, hs1, gasBuffer_value, ofString_hex h hh, ircUtil.addHexPrefix,
        hnp, Bool.false_eq_true, if_false]
    · simp only [addGasBuffer, hs2, gasBuffer_value, ofString_hex h hh, ircUtil.addHexPrefix,
        hnp, Bool.false_eq_true, if_false]
  have hround : ∀ n : Nat, IsHexText (BN.toString n 16) ∧ hexValue (BN.toString n 16) = n := by
    intro n
    obtain ⟨h1, h2⟩ := toString_hex n
    exact ⟨h1, by rw [← ofString_hex _ h1, h2]⟩
  refine ⟨hmain, hround, ?_, fun _ _ => rfl⟩
  intro n
  have := hmain (BN.toString n 16) (hround n).1
  rw [(hround n).2] at this
  exact this

end Gas

/-- Witness for C21: 0x5208 is 21000, and 121000 is 0x1d8a8; the controller is
the sample controller before any vault exists. -/
theorem addGasBuffer_adds_100000_witness :
    addGasBuffer Sample.fresh "0x5208" = "0x1d8a8"
      ∧ addGasBuffer Sample.fresh "5208" = "0x1d8a8"
      ∧ addGasBuffer Sample.withSimple "0x5208" = addGasBuffer Sample.fresh "0x5208" :=
  ⟨((addGasBuffer_adds_100000 Sample.fresh).1 "5208"
      (by unfold IsHexText; decide)).2.trans (by decide),
    by decide, by decide⟩

end KeyringController

namespace LedgerBridgeKeyring

/-! ## Request and reply matching, signature checks -/

section Messaging

variable {T : Type}

theorem append_ne_empty (a b : String) (hb : b ≠ "") : a ++ b ≠ "" := by
  intro h
  have hl := congrArg String.length h
  simp only [String.length_append] at hl
  have hb0 : b.length = 0 := by
    have : ("" : String).length = 0 := rfl
    omega
  exact hb (String.ext (List.length_eq_zero.mp hb0))

theorem append_ne_empty_left (a b : String) (ha : a ≠ "") : a ++ b ≠ "" := by
  intro h
  have hl := congrArg String.length h
  simp only [String.length_append] at hl
  have ha0 : a.length = 0 := by
    have : ("" : String).length = 0 := rfl
    omega
  exact ha (String.ext (List.length_eq_zero.mp ha0))

/-- C20: for every request `msg` and every incoming message event, the reply
callback registered by `_sendMessage(msg, cb)` is called, with the event's
data, if and only if the event's origin equals `_getOrigin()`, the bridge
address with its last '/'-separated segment removed, and `data.action` equals
`msg.action` followed by '-reply'; an event from any other origin never calls
it; the posted request carries the target 'LEDGER-IFRAME' and is otherwise the
request. -/
theorem listener_calls_back_iff (s : State) (msg : Message) (event : MessageEvent)
    (data : Data) :
    (listener s msg event = some data
        ↔ event.origin = getOrigin s ∧ event.data = some data
          ∧ data.action = some (msg.action ++ "-reply"))
      ∧ (event.origin ≠ getOrigin s → listener s msg event = none)
      ∧ getOrigin s = String.mk (List.intercalate ['/'] (splitSlash s.bridgeUrl.data).dropLast)
      ∧ (posted msg).target = some "LEDGER-IFRAME"
      ∧ (posted msg).action = msg.action
      ∧ (posted msg).params = msg.params := by
  have hne : msg.action ++ "-reply" ≠ "" := append_ne_empty _ _ (by decide)
  refine ⟨?_, ?_, rfl, rfl, rfl, rfl⟩
  · obtain ⟨origin, edata⟩ := event
    by_cases ho : origin = getOrigin s
    · cases edata with
      | none => simp [listener]
      | some d =>
        obtain ⟨action, success, payload⟩ := d
        cases action with
        | none =>
          simp only [listener, ho, bne_self_eq_false, Bool.false_eq_true, if_false]
          constructor
          · intro h; simp at h
          · rintro ⟨_, h2, h3⟩
            simp only [Option.some.injEq] at h2
            subst h2
            simp at h3
        | some a =>
          by_cases heq : a = msg.action ++ "-reply"
          · subst heq
            have hb : (msg.action ++ "-reply" != "") = true := by simpa using hne
            simp only [listener, ho, bne_self_eq_false, Bool.false_eq_true, if_false, hb,
              beq_self_eq_true, Bool.and_self, if_true, Option.some.injEq, true_and]
            constructor
            · intro h; subst h; exact ⟨rfl, rfl⟩
            · rintro ⟨h2, _⟩; exact h2
          · have hb : (a == msg.action ++ "-reply") = false := by simpa using heq
            simp only [listener, ho, bne_self_eq_false, Bool.false_eq_true, if_false, hb,
              Bool.and_false, true_and]
            constructor
            · intro h; simp at h
            · rintro ⟨h2, h3⟩
              simp only [Option.some.injEq] at h2
              subst h2
              simp only [Option.some.injEq] at h3
              exact absurd h3 heq
    · have hb : (origin != getOrigin s) = true := by simpa using ho
      simp only [listener, hb, if_true]
      constructor
      · intro h; simp at h
      · rintro ⟨h1, _⟩; exact absurd h1 ho
  · intro ho
    have hb : (event.origin != getOrigin s) = true := by simpa using ho
    simp only [listener, hb, if_true]

theorem personalReply_settled (env : Env T) (withAccount message : String) (data : Data)
    (hs : data.success = true) :
    settled (personalReply env withAccount message data)
      = if env.toChecksumAddress
            (env.recoverPersonalSignature message (assembleSignature data.payload))
          = env.toChecksumAddress withAccount
        then Outcome.resolved (assembleSignature data.payload)
        else Outcome.rejected Err.signatureMismatch := by
  by_cases h : env.toChecksumAddress
      (env.recoverPersonalSignature message (assembleSignature data.payload))
        = env.toChecksumAddress withAccount
  · simp [personalReply, hs, h, settled]
  · simp [personalReply, hs, h, settled]

theorem signPersonalMessage_cases (env : Env T) (s : State) (withAccount message : String) :
    (signPersonalMessage env s withAccount message).1 = Outcome.pending
      ∨ ∃ data, (signPersonalMessage env s withAccount message).1
          = settled (personalReply env withAccount message data) := by
  simp only [signPersonalMessage]
  rcases unlock env s none with ⟨r, s1⟩
  cases r with
  | pending => exact Or.inl rfl
  | rejected e => exact Or.inl rfl
  | resolved v =>
    simp only []
    split
    · split
      · exact Or.inl rfl
      · rename_i data _
        exact Or.inr ⟨data, rfl⟩
    · exact Or.inl rfl

/-- C16: for every account `withAccount`, message and key-source state, if
`signPersonalMessage` resolves, its value is the signature assembled from a
successful device reply and the address recovered from that signature equals
`withAccount`, both in checksum form; for every successful reply whose
signature recovers to a different address the reply callback rejects the
promise, with 'signature doesnt match the right address', and the later
`resolve` has no effect; when the addresses agree it resolves with the
signature. -/
theorem signPersonalMessage_checks_signer (env : Env T) (s : State)
    (withAccount message : String) :
    (∀ signature, (signPersonalMessage env s withAccount message).1
          = Outcome.resolved signature →
        env.toChecksumAddress (env.recoverPersonalSignature message signature)
            = env.toChecksumAddress withAccount
          ∧ ∃ data : Data, data.success = true ∧ signature = assembleSignature data.payload)
      ∧ (∀ data, data.success = true →
          env.toChecksumAddress
              (env.recoverPersonalSignature message (assembleSignature data.payload))
            ≠ env.toChecksumAddress withAccount →
          settled (personalReply env withAccount message data)
            = Outcome.rejected Err.signatureMismatch)
      ∧ (∀ data, data.success = true →
          env.toChecksumAddress
              (env.recoverPersonalSignature message (assembleSignature data.payload))
            = env.toChecksumAddress withAccount →
          settled (personalReply env withAccount message data)
            = Outcome.resolved (assembleSignature data.payload)) := by
  refine ⟨?_, ?_, ?_⟩
  · intro signature h
    rcases signPersonalMessage_cases env s withAccount message with hp | ⟨data, hd⟩
    · rw [hp] at h; simp at h
    · rw [hd] at h
      cases hs : data.success with
      | false => simp [personalReply, hs, settled] at h
      | true =>
        rw [personalReply_settled env withAccount message data hs] at h
        split at h
        · rename_i heq
          simp only [Outcome.resolved.injEq] at h
          subst h
          exact ⟨heq, data, hs, rfl⟩
        · simp at h
  · intro data hs hne
    rw [personalReply_settled env withAccount message data hs, if_neg hne]
  · intro data hs heq
    rw [personalReply_settled env withAccount message data hs, if_pos heq]

theorem signTransaction_resolved_valid (env : Env T) (s : State) (address : String) (tx : T)
    (signed : T) (h : (signTransaction env s address tx).1 = Outcome.resolved signed) :
    env.verifySignature signed = true := by
  revert h
  simp only [signTransaction]
  rcases unlock env s none with ⟨r, s1⟩
  cases r with
  | pending => intro h; simp at h
  | rejected e => intro h; simp at h
  | resolved v =>
    simp only []
    split
    · intro h; simp at h
    · split
      · intro h; simp at h
      · split
        · split
          · rename_i hv
            intro h
            simp only [Outcome.resolved.injEq] at h
            subst h
            exact hv
          · intro h; simp at h
        · intro h; simp at h

end Messaging

/-! ## Reverse path lookup -/

section Lookup

variable {T : Type}

theorem legacyLoop_frame (env : Env T) (indexes : List Int) (s : State)
    (accounts : List Account) :
    (legacyLoop env s indexes accounts).2
        = { s with paths := (legacyLoop env s indexes accounts).2.paths }
      ∧ (legacyLoop env s indexes accounts).1
        = accounts ++ indexes.map
            (fun i => { address := addressFromIndex env s pathBase i, balance := none, index := i }) := by
  induction indexes generalizing s accounts with
  | nil => simp [legacyLoop]
  | cons i rest ih =>
    simp only [legacyLoop]
    obtain ⟨h1, h2⟩ := ih
      { s with paths :=
          (env.toChecksumAddress (addressFromIndex env s pathBase i), i) :: s.paths }
      (accounts ++ [{ address := addressFromIndex env s pathBase i, balance := none, index := i }])
    refine ⟨?_, ?_⟩
    · rw [h1]
    · rw [h2]
      simp [addressFromIndex]

theorem legacyLoop_cached (env : Env T) (k : Int) (indexes : List Int) (s : State)
    (accounts : List Account)
    (hinj : ∀ i ∈ indexes,
      env.toChecksumAddress (addressFromIndex env s pathBase i)
        = env.toChecksumAddress (addressFromIndex env s pathBase k) → i = k)
    (hk : k ∈ indexes
      ∨ s.paths.lookup (env.toChecksumAddress (addressFromIndex env s pathBase k)) = some k) :
    (legacyLoop env s indexes accounts).2.paths.lookup
        (env.toChecksumAddress (addressFromIndex env s pathBase k)) = some k := by
  induction indexes generalizing s accounts with
  | nil =>
    rcases hk with h | h
    · simp at h
    · exact h
  | cons i rest ih =>
    simp only [legacyLoop]
    have hstep := ih
      { s with paths :=
          (env.toChecksumAddress (addressFromIndex env s pathBase i), i) :: s.paths }
      (accounts ++ [{ address := addressFromIndex env s pathBase i, balance := none, index := i }])
      (fun j hj h => hinj j (List.mem_cons_of_mem _ hj) h)
    apply hstep
    by_cases hik : i = k
    · right
      subst hik
      simp [addressFromIndex, List.lookup_cons]
    · rcases hk with h | h
      · rcases List.mem_cons.mp h with h0 | h0
        · exact absurd h0.symm hik
        · exact Or.inl h0
      · right
        have hne : env.toChecksumAddress (addressFromIndex env s pathBase k)
            ≠ env.toChecksumAddress (addressFromIndex env s pathBase i) :=
          fun e => hik (hinj i (List.mem_cons_self _ _) e.symm)
        have hb : (env.toChecksumAddress (addressFromIndex env s pathBase k)
            == env.toChecksumAddress (addressFromIndex env s pathBase i)) = false := by
          simpa using hne
        show List.lookup (env.toChecksumAddress (addressFromIndex env s pathBase k))
          ((env.toChecksumAddress (addressFromIndex env s pathBase i), i) :: s.paths) = some k
        rw [List.lookup_cons, hb]
        exact h

theorem find_range_first (p : Nat → Bool) (k start n : Nat) (hlo : start ≤ k)
    (hhi : k < start + n) (hk : p k = true) (hbefore : ∀ i, start ≤ i → i < k → p i = false) :
    (List.range' start n).find? p = some k := by
  induction n generalizing start with
  | zero => omega
  | succ n ih =>
    simp only [List.range'_succ, List.find?_cons]
    by_cases hs : start = k
    · subst hs
      simp [hk]
    · have hps : p start = false := hbefore start (Nat.le_refl _) (by omega)
      simp only [hps]
      exact ih (start + 1) (by omega) (by omega) (fun i h1 h2 => hbefore i (by omega) h2)

/-- C18: for every index `k` and the address `a = _addressFromIndex(k)`:
after `_getAccountsLegacy` has run over a range containing `k` in which no other
index derives the same checksummed address, `_pathFromAddress(a)` returns
`_getPathForIndex(k)` from the paths cache, for every `k`; when the checksummed
address is not cached, `k < MAX_INDEX = 1000`, the address is its own checksum
form and no smaller index derives it, the linear scan returns
`_getPathForIndex(k)`; an address that is neither cached nor derived by any
index below 1000 fails with 'Unknown address'. -/
theorem pathFromAddress_inverts_addressFromIndex (env : Env T) (s : State) :
    (∀ (from_ to_ k : Int), k ∈ indices from_ to_ →
        (∀ i ∈ indices from_ to_,
          env.toChecksumAddress (addressFromIndex env s pathBase i)
            = env.toChecksumAddress (addressFromIndex env s pathBase k) → i = k) →
        pathFromAddress env (getAccountsLegacy env s from_ to_).2
            (addressFromIndex env s pathBase k)
          = Except.ok (getPathForIndex s k))
      ∧ (∀ k : Nat, k < MAX_INDEX →
          s.paths.lookup (env.toChecksumAddress (addressFromIndex env s pathBase k)) = none →
          env.toChecksumAddress (addressFromIndex env s pathBase k)
            = addressFromIndex env s pathBase k →
          (∀ i : Nat, i < k →
            addressFromIndex env s pathBase i ≠ addressFromIndex env s pathBase k) →
          pathFromAddress env s (addressFromIndex env s pathBase k)
            = Except.ok (getPathForIndex s k))
      ∧ (∀ address, s.paths.lookup (env.toChecksumAddress address) = none →
          (∀ i : Nat, i < MAX_INDEX →
            env.toChecksumAddress address ≠ addressFromIndex env s pathBase i) →
          pathFromAddress env s address = Except.error Err.unknownAddress) := by
  refine ⟨?_, ?_, ?_⟩
  · intro from_ to_ k hk hinj
    have hc := legacyLoop_cached env k (indices from_ to_) s [] hinj (Or.inl hk)
    have hf := (legacyLoop_frame env (indices from_ to_) s []).1
    have hc2 : (getAccountsLegacy env s from_ to_).2.paths.lookup
        (env.toChecksumAddress (addressFromIndex env s pathBase k)) = some k := hc
    have hp : getPathForIndex (getAccountsLegacy env s from_ to_).2 k = getPathForIndex s k := by
      unfold getAccountsLegacy
      rw [hf]
      rfl
    simp only [pathFromAddress, hc2, hp]
  · intro k hk hnone hidem hfirst
    have hfind : (List.range MAX_INDEX).find?
        (fun (i : Nat) => env.toChecksumAddress (addressFromIndex env s pathBase k)
          == addressFromIndex env s pathBase (i : Int)) = some k := by
      rw [List.range_eq_range']
      apply find_range_first _ k 0 MAX_INDEX (Nat.zero_le _) (by omega)
      · simp [hidem]
      · intro i _ hik
        have := hfirst i hik
        rw [hidem]
        simpa using fun e => this e.symm
    simp only [pathFromAddress, hnone, hfind, Option.map_some']
  · intro address hnone hscan
    have hfind : (List.range MAX_INDEX).find?
        (fun (i : Nat) => env.toChecksumAddress address
          == addressFromIndex env s pathBase (i : Int)) = none := by
      rw [List.find?_eq_none]
      intro i hi
      have := hscan i (List.mem_range.mp hi)
      simpa using this
    simp only [pathFromAddress, hnone, hfind, Option.map_none']

end Lookup

/-! ## Account discovery and pagination -/

section Discovery

variable {T : Type}

theorem orElse_some_empty (p : String) : orElse (some p) "" = p := by
  unfold orElse
  by_cases h : p = ""
  · simp [h]
  · simp [h]

theorem bip44_path_ne_empty (s : State) (i : Int) (h : isBIP44 s = true) :
    getPathForIndex s i ≠ "" := by
  simp only [getPathForIndex, h, if_true]
  rw [String.append_assoc]
  exact append_ne_empty_left _ _ (by decide)

theorem unlock_with_path (env : Env T) (s : State) (i : Int) (hk : HDKey) (data : Data)
    (hmode : isBIP44 s = true)
    (hsend : sendMessage env s (unlockRequest s i) = some data)
    (hok : data.success = true) :
    unlock env { s with hdk := hk } (some (getPathForIndex s i))
      = (Outcome.resolved data.payload.address,
          { s with hdk := { publicKey := some data.payload.publicKey
                            chainCode := some data.payload.chainCode } }) := by
  have hne := bip44_path_ne_empty s i hmode
  have hb : (getPathForIndex s i == "") = false := by simpa using hne
  have hsend2 : sendMessage env { s with hdk := hk }
      { action := "ledger-unlock", params := Params.unlock (toLedgerPath (getPathForIndex s i)),
        target := none } = some data := hsend
  simp only [unlock, orElse_some_empty, hb, Bool.and_false, Bool.false_eq_true, if_false,
    hsend2, hok, if_true]

theorem takeThrough_all {α : Type} (p : α → Bool) (l : List α) (h : ∀ a ∈ l, p a = true) :
    takeThrough p l = l := by
  induction l with
  | nil => rfl
  | cons a rest ih =>
    simp only [takeThrough, h a (List.mem_cons_self _ _), if_true]
    rw [ih (fun b hb => h b (List.mem_cons_of_mem _ hb))]

theorem takeThrough_eq {α : Type} (p : α → Bool) (l : List α) :
    takeThrough p l = l.takeWhile p ++ (l.dropWhile p).take 1 := by
  induction l with
  | nil => rfl
  | cons a rest ih =>
    cases h : p a with
    | true => simp [takeThrough, h, List.takeWhile_cons, List.dropWhile_cons, ih]
    | false => simp [takeThrough, h, List.takeWhile_cons, List.dropWhile_cons]

theorem takeThrough_sublist {α : Type} (p : α → Bool) (l : List α) :
    List.Sublist (takeThrough p l) l := by
  induction l with
  | nil => exact List.Sublist.slnil
  | cons a rest ih =>
    cases h : p a with
    | true =>
      simp only [takeThrough, h, if_true]
      exact List.Sublist.cons₂ a ih
    | false =>
      simp only [takeThrough, h, Bool.false_eq_true, if_false]
      exact List.Sublist.cons₂ a (List.nil_sublist _)

theorem indices_pairwise (from_ to_ : Int) : List.Pairwise (fun a b => a < b) (indices from_ to_) := by
  unfold indices
  rw [List.pairwise_map]
  have h := List.pairwise_lt_range (to_ - from_).toNat
  exact h.imp (fun hab => by omega)

theorem discovered_sublist (env : Env T) (s : State) (indexes : List Int) :
    List.Sublist (discovered env s indexes) indexes := by
  unfold discovered
  split
  · exact takeThrough_sublist _ _
  · exact List.Sublist.refl _

theorem bip44Loop_spec (env : Env T) (s : State) (hmode : isBIP44 s = true)
    (indexes : List Int) :
    ∀ (hk : HDKey) (accounts : List Account),
      (∀ i ∈ indexes, DeviceUnlocks env s i) →
      (s.implementFullBIP44 = true → ∀ i ∈ indexes, HistoryAnswers env s i) →
      ∃ h, bip44Loop env { s with hdk := hk } indexes accounts
          = (Outcome.resolved (accounts ++ (discovered env s indexes).map (bip44Entry env s)),
              { s with hdk := h })
        ∧ (hk.publicKey.isSome = true → h.publicKey.isSome = true) := by
  induction indexes with
  | nil =>
    intro hk accounts _ _
    refine ⟨hk, ?_, fun h => h⟩
    simp [bip44Loop, discovered, takeThrough]
  | cons i rest ih =>
    intro hk accounts hdev hhist
    obtain ⟨data, hsend, hok⟩ := hdev i (List.mem_cons_self _ _)
    have hun := unlock_with_path env s i hk data hmode hsend hok
    have haddr : data.payload.address = replyAddress env s i := by
      simp only [replyAddress, hsend]
    have hpath : getPathForIndex { s with hdk := hk } i = getPathForIndex s i := rfl
    simp only [bip44Loop, hpath, hun]
    have hrest := ih { publicKey := some data.payload.publicKey
                       chainCode := some data.payload.chainCode }
      (accounts ++ [bip44Entry env s i])
      (fun j hj => hdev j (List.mem_cons_of_mem _ hj))
      (fun hf j hj => hhist hf j (List.mem_cons_of_mem _ hj))
    obtain ⟨h, hloop, hsome⟩ := hrest
    have hentry : ({ address := data.payload.address, balance := none, index := i } : Account)
        = bip44Entry env s i := by
      simp only [bip44Entry, haddr]
    by_cases hfull : s.implementFullBIP44 = true
    · obtain ⟨b, hb⟩ := hhist hfull i (List.mem_cons_self _ _)
      have hb2 : hasPreviousTransactions env
          { s with hdk := { publicKey := some data.payload.publicKey
                            chainCode := some data.payload.chainCode } }
          data.payload.address "irc" = Outcome.resolved b := by
        rw [haddr]
        exact hb
      have hvalid : (if s.implementFullBIP44 = true then
            hasPreviousTransactions env
              { s with hdk := { publicKey := some data.payload.publicKey
                                chainCode := some data.payload.chainCode } }
              data.payload.address "irc"
          else Outcome.resolved true) = Outcome.resolved b := by
        rw [if_pos hfull]
        exact hb2
      have hhis : hasHistory env s i = b := by
        simp only [hasHistory, hb]
      simp only [hvalid, hentry]
      cases b with
      | false =>
        refine ⟨{ publicKey := some data.payload.publicKey
                  chainCode := some data.payload.chainCode }, ?_, fun _ => rfl⟩
        simp [discovered, hfull, takeThrough, hhis]
      | true =>
        refine ⟨h, ?_, fun _ => hsome rfl⟩
        simp only [Bool.not_true, Bool.false_eq_true, if_false]
        rw [hloop]
        simp [discovered, hfull, takeThrough, hhis]
    · have hvalid : (if s.implementFullBIP44 = true then
            hasPreviousTransactions env
              { s with hdk := { publicKey := some data.payload.publicKey
                                chainCode := some data.payload.chainCode } }
              data.payload.address "irc"
          else Outcome.resolved true) = Outcome.resolved true := by
        rw [if_neg hfull]
      simp only [hvalid, hentry, Bool.not_true, Bool.false_eq_true, if_false]
      refine ⟨h, ?_, fun _ => hsome rfl⟩
      rw [hloop]
      simp [discovered, hfull]

theorem map_index_bip44Entry (env : Env T) (s : State) (indexes : List Int) :
    (indexes.map (bip44Entry env s)).map Account.index = indexes := by
  induction indexes with
  | nil => rfl
  | cons i rest ih => simp [bip44Entry, ih]

/-- C19: in BIP44 mode, for every range `[from, to)` for which the device answers
every unlock request (and, with full discovery, the history check answers):
`_getAccountsBIP44(from, to)` resolves with the entries of the discovered
indices, each entry carrying its own index and the address the device reported.
With full discovery on, the discovered indices are those of the range before
the first index without prior transactions followed by that index, all of the
range when every candidate has history; with full discovery off they are all
of `from .. to - 1`. The indices are in increasing order. -/
theorem getAccountsBIP44_discovers (env : Env T) (s : State) (from_ to_ : Int)
    (hmode : isBIP44 s = true)
    (hdev : ∀ i ∈ indices from_ to_, DeviceUnlocks env s i)
    (hhist : s.implementFullBIP44 = true → ∀ i ∈ indices from_ to_, HistoryAnswers env s i) :
    (∃ s2, getAccountsBIP44 env s from_ to_
        = (Outcome.resolved ((discovered env s (indices from_ to_)).map (bip44Entry env s)), s2))
      ∧ (s.implementFullBIP44 = true →
          discovered env s (indices from_ to_)
            = (indices from_ to_).takeWhile (hasHistory env s)
              ++ ((indices from_ to_).dropWhile (hasHistory env s)).take 1)
      ∧ (s.implementFullBIP44 = true → (∀ i ∈ indices from_ to_, hasHistory env s i = true) →
          discovered env s (indices from_ to_) = indices from_ to_)
      ∧ (s.implementFullBIP44 = false → discovered env s (indices from_ to_) = indices from_ to_)
      ∧ ((discovered env s (indices from_ to_)).map (bip44Entry env s)).map Account.index
          = discovered env s (indices from_ to_)
      ∧ List.Pairwise (fun a b => a < b) (discovered env s (indices from_ to_)) := by
  refine ⟨?_, ?_, ?_, ?_, map_index_bip44Entry env s _, ?_⟩
  · obtain ⟨h, hloop, _⟩ := bip44Loop_spec env s hmode (indices from_ to_) s.hdk [] hdev hhist
    refine ⟨{ s with hdk := h }, ?_⟩
    rw [List.nil_append] at hloop
    exact hloop
  · intro hfull
    simp only [discovered, hfull, if_true]
    exact takeThrough_eq _ _
  · intro hfull hall
    simp only [discovered, hfull, if_true]
    exact takeThrough_all _ _ hall
  · intro hfull
    simp [discovered, hfull]
  · exact (indices_pairwise from_ to_).sublist (discovered_sublist env s _)

theorem unlock_unlocked (env : Env T) (s : State) (h : isUnlocked s = true) :
    unlock env s none = (Outcome.resolved "already unlocked", s) := by
  simp [unlock, orElse, h]

theorem indices_five (a : Int) : indices a (a + 5) = [a, a + 1, a + 2, a + 3, a + 4] := by
  have h : (a + 5 - a).toNat = 5 := by
    have : a + 5 - a = 5 := by omega
    rw [this]
    rfl
  simp only [indices, h]
  simp [List.range, List.range.loop]

theorem getPage_ok (env : Env T) (s : State) (h : PageOk env s) (increment : Int) :
    ∃ accounts s2, getPage env s increment = (Outcome.resolved accounts, s2)
      ∧ s2.page = (if s.page + increment ≤ 0 then 1 else s.page + increment)
      ∧ accounts.map Account.index = indices ((s2.page - 1) * 5) ((s2.page - 1) * 5 + 5)
      ∧ PageOk env s2 := by
  obtain ⟨hun, hper, hmode⟩ := h
  rcases s with ⟨bridgeUrl, page, perPage, unlockedAccount, hdk, paths, network, full, hdPath,
    accounts⟩
  simp only at hper
  subst hper
  have hu1 : ∀ p, isUnlocked
      ⟨bridgeUrl, p, 5, unlockedAccount, hdk, paths, network, full, hdPath, accounts⟩ = true :=
    fun _ => hun
  simp only [getPage]
  generalize (if page + increment ≤ 0 then (1 : Int) else page + increment) = p
  rw [unlock_unlocked env _ (hu1 p)]
  simp only []
  rcases hmode with hl | ⟨hb, hfull, hdev⟩
  · have hl1 : isBIP44
        ⟨bridgeUrl, p, 5, unlockedAccount, hdk, paths, network, full, hdPath, accounts⟩
        = false := hl
    rw [hl1]
    simp only [Bool.false_eq_true, if_false]
    obtain ⟨hf, ha⟩ := legacyLoop_frame env (indices ((p - 1) * 5) ((p - 1) * 5 + 5))
      ⟨bridgeUrl, p, 5, unlockedAccount, hdk, paths, network, full, hdPath, accounts⟩ []
    refine ⟨_, _, rfl, ?_, ?_, ?_⟩
    · simp only [getAccountsLegacy]
      rw [hf]
    · simp only [getAccountsLegacy]
      rw [ha, hf]
      simp [List.map_map, Function.comp_def]
    · simp only [getAccountsLegacy]
      rw [hf]
      exact ⟨hun, rfl, Or.inl hl⟩
  · have hb1 : isBIP44
        ⟨bridgeUrl, p, 5, unlockedAccount, hdk, paths, network, full, hdPath, accounts⟩
        = true := hb
    rw [hb1]
    simp only [if_true]
    simp only at hfull
    subst hfull
    obtain ⟨hk, hloop, hsome⟩ := bip44Loop_spec env
      ⟨bridgeUrl, p, 5, unlockedAccount, hdk, paths, network, false, hdPath, accounts⟩ hb1
      (indices ((p - 1) * 5) ((p - 1) * 5 + 5)) hdk [] (fun i _ => hdev i)
      (fun hf => by simp at hf)
    rw [List.nil_append] at hloop
    have hdisc : discovered env
        ⟨bridgeUrl, p, 5, unlockedAccount, hdk, paths, network, false, hdPath, accounts⟩
        (indices ((p - 1) * 5) ((p - 1) * 5 + 5))
        = indices ((p - 1) * 5) ((p - 1) * 5 + 5) := by
      simp [discovered]
    rw [hdisc] at hloop
    refine ⟨_, _, hloop, rfl, map_index_bip44Entry env _ _, ?_⟩
    exact ⟨hsome hun, rfl, Or.inr ⟨hb, rfl, hdev⟩⟩

theorem pageOk_reset (env : Env T) (s : State) (h : PageOk env s) :
    PageOk env { s with page := 0 } := h

theorem pageAfter_ok (env : Env T) (s : State) (h : PageOk env s) (k : Nat) :
    ∃ accounts sk, pageAfter env s k = (Outcome.resolved accounts, sk)
      ∧ sk.page = (k : Int) + 1
      ∧ accounts.map Account.index = indices (5 * (k : Int)) (5 * (k : Int) + 5)
      ∧ PageOk env sk := by
  induction k with
  | zero =>
    obtain ⟨accounts, s1, hp, hpage, hidx, hok⟩ := getPage_ok env { s with page := 0 }
      (pageOk_reset env s h) 1
    have hpage1 : s1.page = 1 := by
      rw [hpage]
      simp
    refine ⟨accounts, s1, hp, by simpa using hpage1, ?_, hok⟩
    rw [hidx, hpage1]
    simp
  | succ k ih =>
    obtain ⟨accounts0, sk, hp0, hpage0, _, hok0⟩ := ih
    obtain ⟨accounts, s1, hp, hpage, hidx, hok⟩ := getPage_ok env sk hok0 1
    have hpage1 : s1.page = (k : Int) + 1 + 1 := by
      rw [hpage, hpage0]
      have : ¬ ((k : Int) + 1 + 1 ≤ 0) := by omega
      simp [this]
    refine ⟨accounts, s1, ?_, by simpa using hpage1, ?_, hok⟩
    · simp only [pageAfter, hp0]
      exact hp
    · rw [hidx, hpage1]
      have e : ((k : Int) + 1 + 1 - 1) * 5 = 5 * ((k + 1 : Nat) : Int) := by
        push_cast
        ring
      rw [e]

/-- C17: on an unlocked hardware key source with `perPage = 5`, in legacy mode, or
in BIP44 mode without full discovery and with a device that answers every
unlock request: `getFirstPage()` resolves with the accounts of indices 0..4 in
order; `getFirstPage()` followed by `k` calls of `getNextPage()` resolves with
the indices 5k..5k+4 and leaves the page at k+1; `getPreviousPage()` when the
page is 1 or lower leaves the page at 1 and resolves with the indices 0..4;
after any page operation the page is at least 1 and no returned index is
negative. -/
theorem pages_of_five (env : Env T) (s : State) (h : PageOk env s) :
    (∃ accounts s1, getFirstPage env s = (Outcome.resolved accounts, s1)
        ∧ accounts.map Account.index = [0, 1, 2, 3, 4] ∧ s1.page = 1)
      ∧ (∀ k : Nat, ∃ accounts sk, pageAfter env s k = (Outcome.resolved accounts, sk)
          ∧ accounts.map Account.index
            = [5 * (k : Int), 5 * (k : Int) + 1, 5 * (k : Int) + 2, 5 * (k : Int) + 3,
                5 * (k : Int) + 4]
          ∧ sk.page = (k : Int) + 1)
      ∧ (s.page ≤ 1 → ∃ accounts s1, getPreviousPage env s = (Outcome.resolved accounts, s1)
          ∧ accounts.map Account.index = [0, 1, 2, 3, 4] ∧ s1.page = 1)
      ∧ (∀ increment, ∃ accounts s1, getPage env s increment = (Outcome.resolved accounts, s1)
          ∧ 1 ≤ s1.page ∧ ∀ a ∈ accounts, 0 ≤ a.index) := by
  refine ⟨?_, ?_, ?_, ?_⟩
  · obtain ⟨accounts, s1, hp, hpage, hidx, _⟩ := pageAfter_ok env s h 0
    refine ⟨accounts, s1, hp, ?_, by simpa using hpage⟩
    rw [hidx]
    exact indices_five 0
  · intro k
    obtain ⟨accounts, sk, hp, hpage, hidx, _⟩ := pageAfter_ok env s h k
    refine ⟨accounts, sk, hp, ?_, hpage⟩
    rw [hidx]
    exact indices_five _
  · intro hle
    obtain ⟨accounts, s1, hp, hpage, hidx, _⟩ := getPage_ok env s h (-1)
    have hpage1 : s1.page = 1 := by
      rw [hpage]
      have : s.page + -1 ≤ 0 := by omega
      simp [this]
    refine ⟨accounts, s1, hp, ?_, hpage1⟩
    rw [hidx, hpage1]
    exact indices_five 0
  · intro increment
    obtain ⟨accounts, s1, hp, hpage, hidx, _⟩ := getPage_ok env s h increment
    have hge : 1 ≤ s1.page := by
      rw [hpage]
      split <;> omega
    refine ⟨accounts, s1, hp, hge, ?_⟩
    intro a ha
    have hmem : a.index ∈ accounts.map Account.index := List.mem_map_of_mem _ ha
    rw [hidx] at hmem
    simp only [indices, List.mem_map, List.mem_range] at hmem
    obtain ⟨j, _, hj⟩ := hmem
    have : 0 ≤ (s1.page - 1) * 5 := by omega
    omega

end Discovery

/-! ## Evaluations on the sample bridge -/

section BridgeEvaluations

open Sample

/-- C15: on the sample key source the device signs the transaction with the
account 0xdevice; `signTransaction("0xme", tx)` resolves with that transaction,
whose signer is not the requested address: `tx.verifySignature()` is the only
check. -/
theorem signTransaction_accepts_other_signer :
    (signTransaction env bip44 "0xme" tx).1
        = Outcome.resolved { chainId := "0x01", body := "f8", v := "1c", r := "0xdevice", s := "01" }
      ∧ signer { chainId := "0x01", body := "f8", v := "1c", r := "0xdevice", s := "01" }
        = "0xdevice"
      ∧ signer { chainId := "0x01", body := "f8", v := "1c", r := "0xdevice", s := "01" }
        ≠ "0xme" := by
  refine ⟨by decide, by decide, by decide⟩

/-- Witness for C16: the sample signature recovers to 0xme; the call for 0xme
resolves with it and the call for 0xyou is rejected. -/
theorem signPersonalMessage_checks_signer_witness :
    (signPersonalMessage env bip44 "0xme" "0x6869").1 = Outcome.resolved "0xaabb00"
      ∧ (signPersonalMessage env bip44 "0xyou" "0x6869").1
        = Outcome.rejected Err.signatureMismatch
      ∧ env.toChecksumAddress (env.recoverPersonalSignature "0x6869" "0xaabb00")
        = env.toChecksumAddress "0xme" :=
  ⟨by decide, by decide,
    ((signPersonalMessage_checks_signer env bip44 "0xme" "0x6869").1 "0xaabb00" (by decide)).1⟩

/-- Witness for C17: the first page of the sample legacy key source, and the
third page of the sample BIP44 key source. -/
theorem pages_of_five_witness :
    (∃ accounts s1, getFirstPage env legacy = (Outcome.resolved accounts, s1)
        ∧ accounts.map Account.index = [0, 1, 2, 3, 4] ∧ s1.page = 1)
      ∧ (∃ accounts sk, pageAfter env bip44 2 = (Outcome.resolved accounts, sk)
          ∧ accounts.map Account.index
            = [5 * ((2 : Nat) : Int), 5 * ((2 : Nat) : Int) + 1, 5 * ((2 : Nat) : Int) + 2,
                5 * ((2 : Nat) : Int) + 3, 5 * ((2 : Nat) : Int) + 4]
          ∧ sk.page = ((2 : Nat) : Int) + 1) :=
  ⟨(pages_of_five env legacy ⟨rfl, rfl, Or.inl (by decide)⟩).1,
    (pages_of_five env bip44
      ⟨rfl, rfl, Or.inr ⟨by decide, rfl, fun _ => ⟨_, rfl, rfl⟩⟩⟩).2.1 2⟩

/-- Witness for C18: on the sample legacy key source the address of index 2 is
found in the cache after the first page was listed, and the address of index 3
is found by the scan. -/
theorem pathFromAddress_inverts_addressFromIndex_witness :
    pathFromAddress env (getAccountsLegacy env legacy 0 5).2 (addressFromIndex env legacy pathBase 2)
        = Except.ok (getPathForIndex legacy 2)
      ∧ pathFromAddress env legacy (addressFromIndex env legacy pathBase ((3 : Nat) : Int))
        = Except.ok (getPathForIndex legacy ((3 : Nat) : Int))
      ∧ getPathForIndex legacy 2 = "m/44'/60'/0'/2" :=
  ⟨(pathFromAddress_inverts_addressFromIndex env legacy).1 0 5 2 (by decide) (by decide),
    (pathFromAddress_inverts_addressFromIndex env legacy).2.1 3 (by decide) rfl (by decide)
      (by decide),
    by decide⟩

/-- Witness for C19: on the sample BIP44 key source with full discovery only the
address of index 0 has history, so the range 0..4 yields the entries of the
indices 0 and 1. -/
theorem getAccountsBIP44_discovers_witness :
    (∃ s2, getAccountsBIP44 env bip44Full 0 5
        = (Outcome.resolved ((discovered env bip44Full (indices 0 5)).map
            (bip44Entry env bip44Full)), s2))
      ∧ discovered env bip44Full (indices 0 5) = [0, 1] :=
  ⟨(getAccountsBIP44_discovers env bip44Full 0 5 (by decide)
      (fun _ _ => ⟨_, rfl, rfl⟩) (fun _ _ _ => ⟨_, rfl⟩)).1,
    by decide⟩

end BridgeEvaluations

/-! ## The history check -/

section History

variable {T : Type}

theorem hasPreviousTransactions_eq (env : Env T) (s : State) (address chain : String) :
    hasPreviousTransactions env s address chain
      = match env.fetch (fetchUrl s address chain) with
        | Except.error e => Outcome.rejected (Err.network e)
        | Except.ok response =>
          if response.status ≥ 400 then Outcome.resolved false
          else
            match response.json with
            | Except.error e => Outcome.rejected (Err.network e)
            | Except.ok none => Outcome.resolved false
            | Except.ok (some length) => Outcome.resolved (decide (length > 0)) := by
  unfold hasPreviousTransactions fetchUrl
  rfl

/-- C23, as the code has it: `_hasPreviousTransactions(address)` answers false
when the response status is 400 or above, and when the status is below 400 and
`d` is missing or empty; it answers true exactly for a response with a status
below 400 whose body parses and has a non-empty `d`; a rejection of `fetch`, and
a rejection of `response.json()` for a status below 400, is propagated to the
caller as a rejection; the promise always settles. -/
theorem hasPreviousTransactions_answers (env : Env T) (s : State) (address chain : String) :
    (∀ e, env.fetch (fetchUrl s address chain) = Except.error e →
        hasPreviousTransactions env s address chain = Outcome.rejected (Err.network e))
      ∧ (∀ r, env.fetch (fetchUrl s address chain) = Except.ok r → 400 ≤ r.status →
          hasPreviousTransactions env s address chain = Outcome.resolved false)
      ∧ (∀ r, env.fetch (fetchUrl s address chain) = Except.ok r → r.status < 400 →
          r.json = Except.ok none ∨ r.json = Except.ok (some 0) →
          hasPreviousTransactions env s address chain = Outcome.resolved false)
      ∧ (∀ r e, env.fetch (fetchUrl s address chain) = Except.ok r → r.status < 400 →
          r.json = Except.error e →
          hasPreviousTransactions env s address chain = Outcome.rejected (Err.network e))
      ∧ (hasPreviousTransactions env s address chain = Outcome.resolved true
          ↔ ∃ r length, env.fetch (fetchUrl s address chain) = Except.ok r ∧ r.status < 400
              ∧ r.json = Except.ok (some length) ∧ 0 < length)
      ∧ hasPreviousTransactions env s address chain ≠ Outcome.pending := by
  rw [hasPreviousTransactions_eq]
  cases hf : env.fetch (fetchUrl s address chain) with
  | error e0 =>
    refine ⟨?_, ?_, ?_, ?_, ?_, ?_⟩
    · intro e he
      cases he
      rfl
    · intro r hr; cases hr
    · intro r hr; cases hr
    · intro r e hr; cases hr
    · constructor
      · intro h; cases h
      · rintro ⟨r, length, hr, _⟩; cases hr
    · intro h; cases h
  | ok r0 =>
    obtain ⟨status, json⟩ := r0
    by_cases hs : status ≥ 400
    · simp only [hs, if_true]
      refine ⟨?_, ?_, ?_, ?_, ?_, ?_⟩
      · intro e he; cases he
      · intro r _ _; trivial
      · intro r _ _ _; trivial
      · intro r e hr hlt _
        cases hr
        simp only at hlt
        omega
      · constructor
        · intro h; simp at h
        · rintro ⟨r, length, hr, hlt, _⟩
          cases hr
          simp only at hlt
          omega
      · intro h; cases h
    · simp only [hs, if_false]
      refine ⟨?_, ?_, ?_, ?_, ?_, ?_⟩
      · intro e he; cases he
      · intro r hr hge
        cases hr
        simp only at hge
        omega
      · intro r hr _ hj
        cases hr
        simp only at hj
        rcases hj with hj | hj <;> subst hj <;> simp
      · intro r e hr _ hj
        cases hr
        simp only at hj
        subst hj
        rfl
      · constructor
        · intro h
          cases json with
          | error e => cases h
          | ok d =>
            cases d with
            | none => simp at h
            | some length =>
              simp only [Outcome.resolved.injEq, decide_eq_true_eq] at h
              exact ⟨_, length, rfl, by simp only; omega, rfl, h⟩
        · rintro ⟨r, length, hr, _, hj, hpos⟩
          cases hr
          simp only at hj
          subst hj
          simp [hpos]
      · intro h
        cases json with
        | error e => cases h
        | ok d =>
          cases d with
          | none => cases h
          | some length => cases h

end History

/-! ## Adding accounts -/

section Adding

variable {T : Type}

theorem unlock_frame (env : Env T) (s : State) (hdPath : Option String) :
    ∃ hk, (unlock env s hdPath).2 = { s with hdk := hk } := by
  unfold unlock
  simp only []
  split
  · exact ⟨s.hdk, rfl⟩
  · split
    · exact ⟨s.hdk, rfl⟩
    · split
      · exact ⟨_, rfl⟩
      · exact ⟨s.hdk, rfl⟩

theorem unlock_accounts (env : Env T) (s : State) (previous : List String)
    (hdPath : Option String) :
    unlock env { s with accounts := previous } hdPath
      = ((unlock env s hdPath).1, { (unlock env s hdPath).2 with accounts := previous }) := by
  have h1 : isUnlocked { s with accounts := previous } = isUnlocked s := rfl
  have h2 : ∀ m, sendMessage env { s with accounts := previous } m = sendMessage env s m :=
    fun _ => rfl
  simp only [unlock, h1, h2]
  split
  · rfl
  · split
    · rfl
    · split
      · rfl
      · rfl

theorem unlock_path_eq (env : Env T) (s : State) (i : Int) (hmode : isBIP44 s = true) :
    unlock env s (some (getPathForIndex s i))
      = match sendMessage env s (unlockRequest s i) with
        | none => (Outcome.pending, s)
        | some data =>
          if data.success then
            (Outcome.resolved data.payload.address,
              { s with hdk := { publicKey := some data.payload.publicKey
                                chainCode := some data.payload.chainCode } })
          else (Outcome.rejected (Err.message (orElse data.payload.error "Unknown error")), s) := by
  have hne := bip44_path_ne_empty s i hmode
  have hb : (getPathForIndex s i == "") = false := by simpa using hne
  simp only [unlock, orElse_some_empty, hb, Bool.and_false, Bool.false_eq_true, if_false]
  rfl

theorem addAccountsLoop_legacy (env : Env T) (indexes : List Int) (s : State)
    (hmode : isBIP44 s = false) :
    (addAccountsLoop env s indexes).1 = Outcome.resolved ()
      ∧ (addAccountsLoop env s indexes).2.accounts
        = s.accounts ++ indexes.map (addressFromIndex env s pathBase) := by
  induction indexes generalizing s with
  | nil => simp [addAccountsLoop]
  | cons i rest ih =>
    simp only [addAccountsLoop, hmode, Bool.false_eq_true, if_false]
    obtain ⟨h1, h2⟩ := ih
      { s with accounts := s.accounts ++ [addressFromIndex env s pathBase i], page := 0 } hmode
    refine ⟨h1, ?_⟩
    rw [h2]
    simp only [List.map_cons, List.append_assoc, List.singleton_append]
    rfl

theorem addAccountsLoop_bip44 (env : Env T) (indexes : List Int) (s : State)
    (hmode : isBIP44 s = true) (u : Unit)
    (h : (addAccountsLoop env s indexes).1 = Outcome.resolved u) :
    (addAccountsLoop env s indexes).2.accounts
      = s.accounts ++ indexes.map (replyAddress env s) := by
  induction indexes generalizing s with
  | nil => simp [addAccountsLoop]
  | cons i rest ih =>
    revert h
    simp only [addAccountsLoop, hmode, if_true, unlock_path_eq env s i hmode]
    cases hs : sendMessage env s (unlockRequest s i) with
    | none => intro h; simp at h
    | some data =>
      simp only []
      cases hok : data.success with
      | false => intro h; simp at h
      | true =>
        simp only [if_true]
        intro h
        have haddr : replyAddress env s i = data.payload.address := by
          simp only [replyAddress, hs]
        rw [ih _ (by exact hmode) h]
        simp only [List.map_cons, List.append_assoc, List.singleton_append, haddr]
        rfl

theorem indices_length (from_ n : Int) (hn : 0 ≤ n) :
    ((indices from_ (from_ + n)).length : Int) = n := by
  simp only [indices, List.length_map, List.length_range]
  omega

/-- C24: for every state of a hardware key source and every `n >= 0`, when
`addAccounts(n)` resolves, the value is the account list of the key source
afterwards, it has exactly `n` entries, and they are the addresses of the
indices `unlockedAccount .. unlockedAccount + n - 1` in order: in BIP44 mode the
address the device reports for the path of the index, otherwise the address
derived for the index from the unlocked key. The accounts listed before do not
matter: the call gives the same result and state from every previous account
list. A call without argument is `addAccounts(1)`. -/
theorem addAccounts_replaces (env : Env T) (s : State) (n : Int) (accounts : List String)
    (hn : 0 ≤ n) (h : (addAccounts env s (some n)).1 = Outcome.resolved accounts) :
    getAccounts (addAccounts env s (some n)).2 = accounts
      ∧ (accounts.length : Int) = n
      ∧ accounts = (indices s.unlockedAccount (s.unlockedAccount + n)).map
          (fun i => if isBIP44 s then replyAddress env s i
            else addressFromIndex env (unlock env s none).2 pathBase i)
      ∧ (∀ previous, addAccounts env { s with accounts := previous } (some n)
          = addAccounts env s (some n))
      ∧ addAccounts env s none = addAccounts env s (some 1) := by
  have hprev : ∀ previous, addAccounts env { s with accounts := previous } (some n)
      = addAccounts env s (some n) := by
    intro previous
    revert h
    simp only [addAccounts, unlock_accounts]
    rcases unlock env s none with ⟨r, s1⟩
    cases r with
    | pending => intro h; simp at h
    | rejected e => intro h; simp at h
    | resolved v => intro _; rfl
  have hlist : getAccounts (addAccounts env s (some n)).2 = accounts
      ∧ accounts = (indices s.unlockedAccount (s.unlockedAccount + n)).map
          (fun i => if isBIP44 s then replyAddress env s i
            else addressFromIndex env (unlock env s none).2 pathBase i) := by
    revert h
    simp only [addAccounts, Option.getD_some]
    obtain ⟨hk, hframe⟩ := unlock_frame env s none
    rcases hu : unlock env s none with ⟨r, s1⟩
    rw [hu] at hframe
    simp only at hframe
    subst hframe
    cases r with
    | pending => intro h; simp at h
    | rejected e => intro h; simp at h
    | resolved v =>
      simp only []
      cases hmode : isBIP44 s with
      | false =>
        obtain ⟨h1, h2⟩ := addAccountsLoop_legacy env
          (indices s.unlockedAccount (s.unlockedAccount + n))
          { s with hdk := hk, accounts := [] } hmode
        rcases hl : addAccountsLoop env { s with hdk := hk, accounts := [] }
          (indices s.unlockedAccount (s.unlockedAccount + n)) with ⟨r2, s2⟩
        rw [hl] at h1 h2
        simp only at h1 h2
        subst h1
        simp only [List.nil_append] at h2
        intro h
        simp only [Outcome.resolved.injEq] at h
        subst h
        simp only [getAccounts, Bool.false_eq_true, if_false]
        exact ⟨trivial, h2⟩
      | true =>
        rcases hl : addAccountsLoop env { s with hdk := hk, accounts := [] }
          (indices s.unlockedAccount (s.unlockedAccount + n)) with ⟨r2, s2⟩
        cases r2 with
        | pending => intro h; simp at h
        | rejected e => intro h; simp at h
        | resolved u =>
          have h2 := addAccountsLoop_bip44 env
            (indices s.unlockedAccount (s.unlockedAccount + n))
            { s with hdk := hk, accounts := [] } hmode u (by rw [hl])
          rw [hl] at h2
          simp only [List.nil_append] at h2
          intro h
          simp only [Outcome.resolved.injEq] at h
          subst h
          simp only [getAccounts, if_true]
          exact ⟨trivial, h2⟩
  refine ⟨hlist.1, ?_, hlist.2, hprev, rfl⟩
  rw [hlist.2, List.length_map]
  exact indices_length _ _ hn

end Adding

/-! ## Evaluations on the sample bridge, continued -/

section MoreBridgeEvaluations

open Sample

/-- C23: on the sample key source, a `fetch` that fails at network level makes
`_hasPreviousTransactions` reject with that failure; a response with status 304
and a non-empty `d` is answered with true; a body that does not parse makes it
reject. -/
theorem hasPreviousTransactions_propagates_failure :
    hasPreviousTransactions (answering (Except.error "Failed to fetch")) bip44Full "0xa" "irc"
        = Outcome.rejected (Err.network "Failed to fetch")
      ∧ hasPreviousTransactions
          (answering (Except.ok { status := 304, json := Except.ok (some 1) })) bip44Full "0xa" "irc"
        = Outcome.resolved true
      ∧ hasPreviousTransactions
          (answering (Except.ok { status := 200, json := Except.error "Unexpected token" }))
          bip44Full "0xa" "irc"
        = Outcome.rejected (Err.network "Unexpected token") := by
  refine ⟨by decide, by decide, by decide⟩

/-- Witness for C24: the sample BIP44 key source, listing one account before the
call, lists the two addresses of the indices 0 and 1 after `addAccounts(2)`. -/
theorem addAccounts_replaces_witness :
    getAccounts (addAccounts env { bip44 with accounts := ["0xold"] } (some 2)).2
        = ["0x44'/60'/0'/0/0", "0x44'/60'/1'/0/0"]
      ∧ ((["0x44'/60'/0'/0/0", "0x44'/60'/1'/0/0"] : List String).length : Int) = 2 :=
  ⟨(addAccounts_replaces env { bip44 with accounts := ["0xold"] } 2
      ["0x44'/60'/0'/0/0", "0x44'/60'/1'/0/0"] (by decide) (by decide)).1,
    (addAccounts_replaces env { bip44 with accounts := ["0xold"] } 2
      ["0x44'/60'/0'/0/0", "0x44'/60'/1'/0/0"] (by decide) (by decide)).2.1⟩

end MoreBridgeEvaluations

end LedgerBridgeKeyring

namespace SimpleKeyring

/-! ## Serialization round trip of the key sources -/

section RoundTrip

variable {W : Type}

theorem mapM_rebuild (env : Env W) (wallets : List W) (h : ∀ w ∈ wallets, Rebuilds env w) :
    ∃ rebuilt, (wallets.map env.privateKeyHex).mapM
        (fun privateKey => env.fromPrivateKey (env.stripHexPrefix privateKey))
          = Except.ok rebuilt
      ∧ rebuilt.map env.addressHex = wallets.map env.addressHex := by
  induction wallets with
  | nil => exact ⟨[], rfl, rfl⟩
  | cons w rest ih =>
    obtain ⟨w2, hw, ha⟩ := h w (List.mem_cons_self _ _)
    obtain ⟨rebuilt, hr, hm⟩ := ih (fun x hx => h x (List.mem_cons_of_mem _ hx))
    refine ⟨w2 :: rebuilt, ?_, ?_⟩
    · simp only [List.map_cons, List.mapM_cons, hw, hr]
      rfl
    · simp only [List.map_cons, ha, hm]

/-- C22: for a Simple key source whose wallets are each rebuilt with the same
address from their exported private key, and for every Hardware-Bridge key
source: `deserialize` of the result of `serialize()`, into any key source of the
same kind or through the constructor, resolves and gives a key source whose
`getAccounts()` is the original's, the same addresses in the same order. -/
theorem serialize_deserialize_accounts (env : Env W) (s target : State W)
    (ledger ledgerTarget : LedgerBridgeKeyring.State)
    (h : ∀ w ∈ s.wallets, Rebuilds env w) :
    (deserialize env target (some (serialize env s))).1 = Except.ok ()
      ∧ getAccounts env (deserialize env target (some (serialize env s))).2 = getAccounts env s
      ∧ getAccounts env (new env (some (serialize env s))) = getAccounts env s
      ∧ LedgerBridgeKeyring.getAccounts
          (LedgerBridgeKeyring.deserialize ledgerTarget (LedgerBridgeKeyring.serialize ledger))
        = LedgerBridgeKeyring.getAccounts ledger
      ∧ LedgerBridgeKeyring.getAccounts
          (LedgerBridgeKeyring.new (LedgerBridgeKeyring.serialize ledger))
        = LedgerBridgeKeyring.getAccounts ledger := by
  obtain ⟨rebuilt, hr, hm⟩ := mapM_rebuild env s.wallets h
  have hd : ∀ t : State W, deserialize env t (some (serialize env s))
      = (Except.ok (), { t with wallets := rebuilt }) := by
    intro t
    simp only [deserialize, serialize, Option.getD_some, hr]
  refine ⟨?_, ?_, ?_, rfl, rfl⟩
  · rw [hd]
  · rw [hd]
    exact hm
  · unfold new
    rw [hd]
    exact hm

end RoundTrip

/-! ## Evaluation on the sample wallet class -/

section WalletEvaluations

theorem sample_rebuilds : ∀ w ∈ Sample.two.wallets, Rebuilds Sample.env w := by
  intro w hw
  have h2 : Sample.two.wallets = ["ab12", "cd34"] := by decide
  rw [h2] at hw
  simp only [List.mem_cons, List.mem_singleton, List.not_mem_nil, or_false] at hw
  rcases hw with hw | hw <;> subst hw <;> exact ⟨_, rfl, rfl⟩

/-- Witness for C22: the sample simple key source with two wallets, and the
sample hardware key source listing two accounts. -/
theorem serialize_deserialize_accounts_witness :
    getAccounts Sample.env
        (deserialize Sample.env { wallets := ["ee"] } (some (serialize Sample.env Sample.two))).2
        = getAccounts Sample.env Sample.two
      ∧ getAccounts Sample.env Sample.two = ["0x21ba", "0x43dc"]
      ∧ LedgerBridgeKeyring.getAccounts
          (LedgerBridgeKeyring.new (LedgerBridgeKeyring.serialize
            { LedgerBridgeKeyring.Sample.legacy with accounts := ["0xa", "0xb"] }))
        = ["0xa", "0xb"] :=
  ⟨(serialize_deserialize_accounts Sample.env Sample.two { wallets := ["ee"] }
      { LedgerBridgeKeyring.Sample.legacy with accounts := ["0xa", "0xb"] }
      LedgerBridgeKeyring.Sample.bip44 sample_rebuilds).2.1,
    by decide,
    (serialize_deserialize_accounts Sample.env Sample.two { wallets := ["ee"] }
      { LedgerBridgeKeyring.Sample.legacy with accounts := ["0xa", "0xb"] }
      LedgerBridgeKeyring.Sample.bip44 sample_rebuilds).2.2.2.2⟩

end WalletEvaluations

end SimpleKeyring
